import Mathlib

/-! # Friend relationships and friend ranking of the record project

A shallow embedding of the friend-relationship code:

* `domain/entity/friend.go`, `infrastructure/persistence/model/friend.go`: the row type;
* `infrastructure/persistence/repository/friend_repository.go`: `FindFriendIDs`, `Save`,
  `Update`, `Delete`, `FindByID`;
* `application/service/friend_service.go`: `AddFriend`,
  `UpdateFriendStatusWithVerification`, `DeleteFriend`;
* `interfaces/api/friend_handler.go`: `FriendHandler.UpdateFriendStatus`;
* `infrastructure/persistence/repository/record_repository.go`: `GetFriendRanking`.

The `friends` table is a list of rows. Identifiers are `uint64` in the source and natural
numbers here (no arithmetic is done on them apart from the auto-increment of the primary key);
the `int8` status is an integer; timestamps are natural numbers and the clock reading of a
call is an explicit argument `now`. Every mutating repository method runs its body inside a
database transaction: the body returns the table it wrote together with its error, and
`Transaction` keeps the written table only when the body returned no error.
-/

namespace FriendGraph

/-- The row of table `friends` (`model.Friend`; `entity.Friend` carries the same columns). -/
structure Friend where
  ID : Nat
  UserID : Nat
  FriendID : Nat
  Status : Int
  CreatedAt : Nat
  UpdatedAt : Nat
  deriving DecidableEq, Repr

/-- The errors the friend code returns, one constructor per message of the source. -/
inductive FriendError where
  /-- Message "已经是好友关系" of `Save`. -/
  | alreadyFriends
  /-- Message "已发送过好友申请，等待对方确认" of `Save`. -/
  | requestAlreadySent
  /-- Message "好友关系不存在". -/
  | notFound
  /-- Message "无权更新此好友关系". -/
  | forbidden
  /-- Message "好友ID不匹配". -/
  | mismatch
  /-- The duplicate-key error of the database (primary key or `idx_user_friend`). -/
  | duplicateEntry
  deriving DecidableEq, Repr

/-- The table `friends`. -/
abbrev Store := List Friend

/-- The result of a mutating call: the table afterwards and the returned error. -/
abbrev Outcome := Store × Option FriendError

/-- The row with the least primary key among `rows`: what `ORDER BY id LIMIT 1` selects. -/
def firstByID : List Friend → Option Friend
  | [] => none
  | r :: rs =>
    match firstByID rs with
    | none => some r
    | some m => if r.ID ≤ m.ID then some r else some m

/-- The query `Where(cond).First(&row)`: the matching row of least primary key, if any. -/
def First (cond : Friend → Bool) (db : Store) : Option Friend :=
  firstByID (db.filter cond)

/-- The condition `(user_id = a AND friend_id = b) OR (user_id = b AND friend_id = a)`. -/
def pairCond (a b : Nat) (r : Friend) : Bool :=
  (r.UserID == a && r.FriendID == b) || (r.UserID == b && r.FriendID == a)

/-- The statement `UPDATE friends SET status = ?, updated_at = ? WHERE id = ?`. -/
def updateStatusByID (db : Store) (id : Nat) (status : Int) (now : Nat) : Store :=
  db.map fun r => if r.ID = id then { r with Status := status, UpdatedAt := now } else r

/-- The next value of the auto-increment primary key: above every key in the table. The
database never reuses a key; the model does after the row of the highest key was deleted.
No statement below depends on the value of a new key beyond its being unused. -/
def nextID (db : Store) : Nat :=
  (db.map fun r => r.ID).foldr max 0 + 1

/-- The row `tx.Create(&friendModel)` inserts: a zero primary key is replaced by the
auto-increment value, zero timestamps by the clock (`autoCreateTime`, `autoUpdateTime`). -/
def rowToInsert (db : Store) (now : Nat) (f : Friend) : Friend :=
  { f with
    ID := if f.ID = 0 then nextID db else f.ID
    CreatedAt := if f.CreatedAt = 0 then now else f.CreatedAt
    UpdatedAt := if f.UpdatedAt = 0 then now else f.UpdatedAt }

/-- The insert `tx.Create(&friendModel)`: refused with a duplicate-key error when the primary
key or the unique index `idx_user_friend` on `(user_id, friend_id)` is already taken. -/
def Create (db : Store) (now : Nat) (f : Friend) : Outcome :=
  let row := rowToInsert db now f
  if db.any (fun r => r.ID == row.ID) then (db, some FriendError.duplicateEntry)
  else if db.any (fun r => r.UserID == row.UserID && r.FriendID == row.FriendID) then
    (db, some FriendError.duplicateEntry)
  else (db ++ [row], none)

/-- The wrapper `db.Transaction(fn)`: commit when `fn` returns no error, roll back otherwise. -/
def Transaction (db : Store) (fn : Store → Outcome) : Outcome :=
  match fn db with
  | (db', none) => (db', none)
  | (_, some e) => (db, some e)

/-- The body of the transaction of `friendRepository.Save`. -/
def saveBody (now : Nat) (friend : Friend) (tx : Store) : Outcome :=
  match First (pairCond friend.UserID friend.FriendID) tx with
  | some existingFriend =>
    if existingFriend.Status = 1 then (tx, some FriendError.alreadyFriends)
    else if existingFriend.Status = 0 then
      if existingFriend.UserID = friend.FriendID ∧ existingFriend.FriendID = friend.UserID then
        (updateStatusByID tx existingFriend.ID 1 now, none)
      else (tx, some FriendError.requestAlreadySent)
    else if existingFriend.Status = 2 then
      (updateStatusByID tx existingFriend.ID 0 now, none)
    else Create tx now friend
  | none => Create tx now friend

/-- The method `friendRepository.Save`. The primary key it writes back into the entity is
dropped: its only caller, `AddFriend`, discards the entity. -/
def Save (db : Store) (now : Nat) (friend : Friend) : Outcome :=
  Transaction db (saveBody now friend)

/-- The method `friendService.AddFriend`: save a Pending entity from `userID` to `friendID`. -/
def AddFriend (db : Store) (now : Nat) (userID friendID : Nat) : Outcome :=
  Save db now
    { ID := 0, UserID := userID, FriendID := friendID, Status := 0, CreatedAt := 0, UpdatedAt := 0 }

/-- The method `friendRepository.FindFriendIDs`: the `friend_id` of the Confirmed rows with
`user_id = userID`, followed by the `user_id` of the Confirmed rows with `friend_id = userID`.
Each query has no `ORDER BY`: the rows are taken in table order here, and the statements
below are about membership only. -/
def FindFriendIDs (db : Store) (userID : Nat) : List Nat :=
  ((db.filter fun r => r.UserID == userID && r.Status == 1).map fun r => r.FriendID) ++
    ((db.filter fun r => r.FriendID == userID && r.Status == 1).map fun r => r.UserID)

/-- The method `friendRepository.FindByID`: the row of primary key `id`, if any. -/
def FindByID (db : Store) (id : Nat) : Option Friend :=
  First (fun r => r.ID == id) db

/-- The method `friendRepository.Update`: overwrite status and `updated_at` of the rows
whose primary key is that of `friend`, inside a transaction. -/
def Update (db : Store) (now : Nat) (friend : Friend) : Outcome :=
  Transaction db fun tx => (updateStatusByID tx friend.ID friend.Status now, none)

/-- The method `friendService.UpdateFriendStatusWithVerification`. -/
def UpdateFriendStatusWithVerification (db : Store) (now : Nat)
    (relationID userID friendID : Nat) (status : Int) : Outcome :=
  match FindByID db relationID with
  | none => (db, some FriendError.notFound)
  | some relation =>
    if relation.UserID ≠ userID ∧ relation.FriendID ≠ userID then
      (db, some FriendError.forbidden)
    else if (relation.UserID = userID ∧ relation.FriendID ≠ friendID) ∨
        (relation.FriendID = userID ∧ relation.UserID ≠ friendID) then
      (db, some FriendError.mismatch)
    else Update db now { relation with Status := status }

/-- The table after a sequence of `AddFriend` calls, each given as `(now, userID, friendID)`;
a call that returns an error leaves the table as it was. -/
def runAddFriends (db : Store) : List (Nat × Nat × Nat) → Store
  | [] => db
  | c :: cs => runAddFriends (AddFriend db c.1 c.2.1 c.2.2).1 cs

/-- The method `friendRepository.Delete`: delete the rows of primary key `id` in which
`userID` is `user_id` or `friend_id`; when no row was affected the not-found error is
returned (and the transaction rolled back). -/
def Delete (db : Store) (id userID : Nat) : Outcome :=
  Transaction db fun tx =>
    let cond := fun (r : Friend) => r.ID == id && (r.UserID == userID || r.FriendID == userID)
    let rowsAffected := (tx.filter cond).length
    let tx' := tx.filter fun r => !cond r
    if rowsAffected = 0 then (tx', some FriendError.notFound) else (tx', none)

/-- The method `friendService.DeleteFriend`. -/
def DeleteFriend (db : Store) (id userID : Nat) : Outcome :=
  Delete db id userID

/-- A call of the friend service that writes to the table. -/
inductive FriendCall where
  /-- The call `AddFriend(userID, friendID)` at clock reading `now`. -/
  | addFriend (now userID friendID : Nat)
  /-- The call `UpdateFriendStatusWithVerification(relationID, userID, friendID, status)`. -/
  | updateStatus (now relationID userID friendID : Nat) (status : Int)
  /-- The call `DeleteFriend(id, userID)`. -/
  | deleteFriend (id userID : Nat)

/-- The table after one service call. -/
def runCall (db : Store) : FriendCall → Store
  | FriendCall.addFriend now u f => (AddFriend db now u f).1
  | FriendCall.updateStatus now id u f status =>
    (UpdateFriendStatusWithVerification db now id u f status).1
  | FriendCall.deleteFriend id u => (DeleteFriend db id u).1

/-- The table after a sequence of service calls. -/
def runCalls (db : Store) : List FriendCall → Store
  | [] => db
  | c :: cs => runCalls (runCall db c) cs

/-- The HTTP status codes the friend handler answers with. -/
inductive HTTPStatus where
  | ok
  | badRequest
  | unauthorized
  | internalServerError
  deriving DecidableEq, Repr

/-- The JSON body of the status update request; every field is `binding:"required"`. -/
structure UpdateFriendStatusRequest where
  UserID : Nat
  FriendID : Nat
  Status : Int
  deriving DecidableEq, Repr

/-- The handler `FriendHandler.UpdateFriendStatus`. `tokenUser` is the outcome of
`GetUserIDFromToken` (`none` for an error), `body` the decoded JSON body (`none` when it does
not decode), `idParam` the parsed path parameter (`none` when `ParseUint` fails). The
`required` binding refuses a field holding the zero value. -/
def FriendHandler.UpdateFriendStatus (db : Store) (now : Nat) (tokenUser : Option Nat)
    (body : Option UpdateFriendStatusRequest) (idParam : Option Nat) : Store × HTTPStatus :=
  match tokenUser with
  | none => (db, HTTPStatus.unauthorized)
  | some _ =>
    match body with
    | none => (db, HTTPStatus.badRequest)
    | some request =>
      if request.UserID = 0 ∨ request.FriendID = 0 ∨ request.Status = 0 then
        (db, HTTPStatus.badRequest)
      else if request.Status < 0 ∨ request.Status > 3 then (db, HTTPStatus.badRequest)
      else
        match idParam with
        | none => (db, HTTPStatus.badRequest)
        | some relationID =>
          match UpdateFriendStatusWithVerification db now relationID request.UserID
              request.FriendID request.Status with
          | (db', none) => (db', HTTPStatus.ok)
          | (db', some _) => (db', HTTPStatus.internalServerError)

/-! ## The friend ranking

The embedding of `recordRepository.GetFriendRanking`
(`infrastructure/persistence/repository/record_repository.go`). The statistics query is an
argument (its error or the rows it scanned), and so is the library function `sort.Slice`.
`page`, `pageSize` and the values computed from them are Go `int`s, 64 bits wide: integers
here, wrapped by `wrapInt` after each arithmetic operation. A slice expression out of range
panics, so the result is an `Except` over `GoPanic`. -/

/-- The value a 64-bit Go `int` holds after an operation whose exact result is `x`. -/
def wrapInt (x : Int) : Int :=
  (x + 2 ^ 63) % 2 ^ 64 - 2 ^ 63

/-- The entity `entity.RankingItem`. -/
structure RankingItem where
  Rank : Nat
  UserID : Nat
  Nickname : String
  AvatarURL : String
  RecordCount : Int
  TotalDuration : Int
  deriving DecidableEq, Repr

/-- The row type of `recordStats`: one scanned row of the statistics query. -/
structure RecordStat where
  UserID : Nat
  RecordCount : Int
  TotalDuration : Int
  deriving DecidableEq, Repr

/-- The error of a failed statistics query. -/
abbrev QueryError := String

/-- A run-time panic of Go. -/
inductive GoPanic where
  /-- The panic "slice bounds out of range". -/
  | sliceBoundsOutOfRange
  deriving DecidableEq, Repr

/-- The map `statsMap`: the rows are written in order, a later row of the same user
replacing an earlier one. -/
def statsMapOf (recordStats : List RecordStat) : Nat → Option (Int × Int) :=
  recordStats.foldl
    (fun m stat => fun k => if k = stat.UserID then some (stat.RecordCount, stat.TotalDuration)
      else m k)
    (fun _ => none)

/-- The item built for one user: zero count and duration unless `statsMap` has the user. -/
def rankingItemOf (statsMap : Nat → Option (Int × Int)) (userID : Nat) : RankingItem :=
  match statsMap userID with
  | some stat =>
    { Rank := 0, UserID := userID, Nickname := "", AvatarURL := "",
      RecordCount := stat.1, TotalDuration := stat.2 }
  | none =>
    { Rank := 0, UserID := userID, Nickname := "", AvatarURL := "",
      RecordCount := 0, TotalDuration := 0 }

/-- The slice `allRankingItems` before sorting: one item per user, in the order of `userIDs`. -/
def allRankingItems (recordStats : List RecordStat) (userIDs : List Nat) : List RankingItem :=
  userIDs.map (rankingItemOf (statsMapOf recordStats))

/-- The comparison passed to `sort.Slice`: `RecordCount` of the first above that of the
second. -/
def byRecordCountDesc (x y : RankingItem) : Bool :=
  decide (x.RecordCount > y.RecordCount)

/-- The loop `allRankingItems[i].Rank = uint64(i + 1)`, from index `i` on. -/
def setRanksFrom : Nat → List RankingItem → List RankingItem
  | _, [] => []
  | i, item :: rest => { item with Rank := i + 1 } :: setRanksFrom (i + 1) rest

/-- The slice `allRankingItems` after sorting and ranking: the full ranked list. -/
def rankedItems (sortSlice : (RankingItem → RankingItem → Bool) → List RankingItem →
    List RankingItem) (recordStats : List RecordStat) (userIDs : List Nat) : List RankingItem :=
  setRanksFrom 0 (sortSlice byRecordCountDesc (allRankingItems recordStats userIDs))

/-- The slice expression `s[lo:hi]` of a slice whose capacity is its length. -/
def sliceExpr {α : Type} (s : List α) (lo hi : Int) : Except GoPanic (List α) :=
  if 0 ≤ lo ∧ lo ≤ hi ∧ hi ≤ (s.length : Int) then
    Except.ok ((s.drop lo.toNat).take (hi - lo).toNat)
  else Except.error GoPanic.sliceBoundsOutOfRange

/-- The method `recordRepository.GetFriendRanking`, returning `(pagedItems, total, err)`. -/
def GetFriendRanking (sortSlice : (RankingItem → RankingItem → Bool) → List RankingItem →
    List RankingItem) (scan : Except QueryError (List RecordStat)) (userIDs : List Nat)
    (page pageSize : Int) : Except GoPanic (List RankingItem × Int × Option QueryError) :=
  let offset := wrapInt (wrapInt (page - 1) * pageSize)
  match scan with
  | Except.error err => Except.ok ([], 0, some err)
  | Except.ok recordStats =>
    let items := rankedItems sortSlice recordStats userIDs
    let total : Int := items.length
    if offset < (items.length : Int) then
      let stop := wrapInt (offset + pageSize)
      let stop := if stop > (items.length : Int) then (items.length : Int) else stop
      match sliceExpr items offset stop with
      | Except.ok pagedItems => Except.ok (pagedItems, total, none)
      | Except.error p => Except.error p
    else Except.ok ([], total, none)

/-- The documented contract of `sort.Slice` at the comparison of `GetFriendRanking`: the
result is a rearrangement of the argument in which no element is above an earlier one. -/
def SortSliceContract (sortSlice : (RankingItem → RankingItem → Bool) → List RankingItem →
    List RankingItem) : Prop :=
  ∀ l, (sortSlice byRecordCountDesc l).Perm l ∧
    (sortSlice byRecordCountDesc l).Pairwise fun x y => byRecordCountDesc y x = false

/-! ## The library sort

`sort.Slice` is not code of the repository. It is modelled after the Go standard library
(file `sort/zsortfunc.go`, Go 1.19 and later: pattern-defeating quicksort, with insertion
sort on at most 12 elements). The slice is a list, `data.Less(i, j)` and `data.Swap(i, j)` act
on indices, and every loop carries a bound on its remaining iterations. -/

section GoSort

variable {α : Type}

/-- The call `data.Less(i, j)`. -/
def lessAt (less : α → α → Bool) (data : List α) (i j : Nat) : Bool :=
  match data[i]?, data[j]? with
  | some x, some y => less x y
  | _, _ => false

/-- The call `data.Swap(i, j)`. -/
def swapAt (data : List α) (i j : Nat) : List α :=
  match data[i]?, data[j]? with
  | some x, some y => (data.set i y).set j x
  | _, _ => data

/-- The inner loop of `insertionSort_func`:
`for j := i; j > a && data.Less(j, j-1); j-- { data.Swap(j, j-1) }`. -/
def insertionSort_inner (less : α → α → Bool) (a : Nat) : Nat → List α → List α
  | 0, data => data
  | j + 1, data =>
    if a < j + 1 ∧ lessAt less data (j + 1) j = true then
      insertionSort_inner less a j (swapAt data (j + 1) j)
    else data

/-- The outer loop of `insertionSort_func`: `for i := a + 1; i < b; i++`, from `i` on. -/
def insertionSort_outer (less : α → α → Bool) (a b : Nat) : Nat → Nat → List α → List α
  | 0, _, data => data
  | n + 1, i, data =>
    if i < b then insertionSort_outer less a b n (i + 1) (insertionSort_inner less a i data)
    else data

/-- The function `insertionSort_func`: insertion sort of `data[a:b]`. -/
def insertionSort_func (less : α → α → Bool) (data : List α) (a b : Nat) : List α :=
  insertionSort_outer less a b (b - a) (a + 1) data

/-- The function `siftDown_func` on `data[lo:hi]`, from `root` on, heap rooted at `first`. -/
def siftDown_func (less : α → α → Bool) (hi first : Nat) : Nat → Nat → List α → List α
  | 0, _, data => data
  | n + 1, root, data =>
    let child := 2 * root + 1
    if child ≥ hi then data
    else
      let child :=
        if child + 1 < hi ∧ lessAt less data (first + child) (first + child + 1) = true then
          child + 1
        else child
      if lessAt less data (first + root) (first + child) = false then data
      else siftDown_func less hi first n child (swapAt data (first + root) (first + child))

/-- The first loop of `heapSort_func`: `siftDown_func(data, i, hi, first)` for `i` from
`k - 1` down to 0. -/
def heapSort_build (less : α → α → Bool) (hi first : Nat) : Nat → List α → List α
  | 0, data => data
  | i + 1, data => heapSort_build less hi first i (siftDown_func less hi first hi i data)

/-- The second loop of `heapSort_func`: swap the root with `first + i` and sift down in
`data[0:i]`, for `i` from `k - 1` down to 0. -/
def heapSort_pop (less : α → α → Bool) (first : Nat) : Nat → List α → List α
  | 0, data => data
  | i + 1, data =>
    heapSort_pop less first i (siftDown_func less i first i 0 (swapAt data first (first + i)))

/-- The function `heapSort_func`: heap sort of `data[a:b]`. -/
def heapSort_func (less : α → α → Bool) (data : List α) (a b : Nat) : List α :=
  let hi := b - a
  heapSort_pop less a hi (heapSort_build less hi a ((hi - 1) / 2 + 1) data)

/-- The loop of `reverseRange_func`: `for i < j { data.Swap(i, j); i++; j-- }`. -/
def reverseRange_loop : Nat → Nat → Nat → List α → List α
  | 0, _, _, data => data
  | n + 1, i, j, data => if i < j then reverseRange_loop n (i + 1) (j - 1) (swapAt data i j) else data

/-- The function `reverseRange_func`: reverse `data[a:b]`. -/
def reverseRange_func (data : List α) (a b : Nat) : List α :=
  reverseRange_loop (b - a) a (b - 1) data

/-- The step `Next` of the `xorshift` generator, on 64 bits. -/
def xorshiftNext (r : Nat) : Nat :=
  let r := (r ^^^ (r <<< 13)) % 2 ^ 64
  let r := r ^^^ (r >>> 7)
  (r ^^^ (r <<< 17)) % 2 ^ 64

/-- The function `bits.Len`: the number of bits of `n`, with a bound on the halvings. -/
def bitsLenAux : Nat → Nat → Nat
  | 0, _ => 0
  | f + 1, n => if n = 0 then 0 else bitsLenAux f (n / 2) + 1

/-- The function `bits.Len`. -/
def bitsLen (n : Nat) : Nat :=
  bitsLenAux n n

/-- The loop of `breakPatterns_func`: three swaps around `idx` with pseudo-random places. -/
def breakPatterns_loop (a length modulus idx : Nat) : Nat → Nat → Nat → List α → List α
  | 0, _, _, data => data
  | n + 1, i, random, data =>
    let random := xorshiftNext random
    let other := random &&& (modulus - 1)
    let other := if other ≥ length then other - length else other
    breakPatterns_loop a length modulus idx n (i + 1) random
      (swapAt data (idx + i) (a + other))

/-- The function `breakPatterns_func`: scatter three elements of `data[a:b]`. -/
def breakPatterns_func (data : List α) (a b : Nat) : List α :=
  let length := b - a
  if length ≥ 8 then
    breakPatterns_loop a length (2 ^ bitsLen length) (a + (length / 4) * 2 - 1) 3 0 length data
  else data

/-- The hint of `choosePivot_func` on how sorted the slice looks. -/
inductive sortedHint where
  | unknownHint
  | increasingHint
  | decreasingHint
  deriving DecidableEq, Repr

/-- The function `order2_func`: the two indices in order, and the swap count. -/
def order2_func (less : α → α → Bool) (data : List α) (a b swaps : Nat) : Nat × Nat × Nat :=
  if lessAt less data b a = true then (b, a, swaps + 1) else (a, b, swaps)

/-- The function `median_func`: the index of the median of three, and the swap count. -/
def median_func (less : α → α → Bool) (data : List α) (a b c swaps : Nat) : Nat × Nat :=
  let r₁ := order2_func less data a b swaps
  let r₂ := order2_func less data r₁.2.1 c r₁.2.2
  let r₃ := order2_func less data r₁.1 r₂.1 r₂.2.2
  (r₃.2.1, r₃.2.2)

/-- The function `medianAdjacent_func`: the median of `data[a-1]`, `data[a]`, `data[a+1]`. -/
def medianAdjacent_func (less : α → α → Bool) (data : List α) (a swaps : Nat) : Nat × Nat :=
  median_func less data (a - 1) a (a + 1) swaps

/-- The function `choosePivot_func`: a pivot index in `data[a:b]` and a hint. -/
def choosePivot_func (less : α → α → Bool) (data : List α) (a b : Nat) : Nat × sortedHint :=
  let l := b - a
  let i := a + l / 4 * 1
  let j := a + l / 4 * 2
  let k := a + l / 4 * 3
  let r :=
    if l ≥ 8 then
      if l ≥ 50 then
        let ri := medianAdjacent_func less data i 0
        let rj := medianAdjacent_func less data j ri.2
        let rk := medianAdjacent_func less data k rj.2
        median_func less data ri.1 rj.1 rk.1 rk.2
      else median_func less data i j k 0
    else (j, 0)
  if r.2 = 0 then (r.1, sortedHint.increasingHint)
  else if r.2 = 4 * 3 then (r.1, sortedHint.decreasingHint)
  else (r.1, sortedHint.unknownHint)

/-- The loop `for i <= j && data.Less(i, a) { i++ }` of `partition_func`. -/
def partition_scanUp (less : α → α → Bool) (data : List α) (a j : Nat) : Nat → Nat → Nat
  | 0, i => i
  | n + 1, i =>
    if i ≤ j ∧ lessAt less data i a = true then partition_scanUp less data a j n (i + 1) else i

/-- The loop `for i <= j && !data.Less(j, a) { j-- }` of `partition_func`. -/
def partition_scanDown (less : α → α → Bool) (data : List α) (a i : Nat) : Nat → Nat → Nat
  | 0, j => j
  | n + 1, j =>
    if i ≤ j ∧ lessAt less data j a = false then partition_scanDown less data a i n (j - 1)
    else j

/-- The main loop of `partition_func`; returns the slice and the final `j`. -/
def partition_loop (less : α → α → Bool) (a : Nat) : Nat → Nat → Nat → List α → List α × Nat
  | 0, _, j, data => (data, j)
  | n + 1, i, j, data =>
    let i := partition_scanUp less data a j (j + 1 - i) i
    let j := partition_scanDown less data a i (j + 1 - i) j
    if i > j then (data, j)
    else partition_loop less a n (i + 1) (j - 1) (swapAt data i j)

/-- The function `partition_func`: one quicksort partition of `data[a:b]` around
`data[pivot]`; returns the slice, the new pivot index and whether it was partitioned. -/
def partition_func (less : α → α → Bool) (data : List α) (a b pivot : Nat) :
    List α × Nat × Bool :=
  let data := swapAt data a pivot
  let i := partition_scanUp less data a (b - 1) (b - a) (a + 1)
  let j := partition_scanDown less data a i (b - a) (b - 1)
  if i > j then (swapAt data j a, j, true)
  else
    let r := partition_loop less a (b - a) (i + 1) (j - 1) (swapAt data i j)
    (swapAt r.1 r.2 a, r.2, false)

/-- The loop `for i <= j && !data.Less(a, i) { i++ }` of `partitionEqual_func`. -/
def partitionEqual_scanUp (less : α → α → Bool) (data : List α) (a j : Nat) : Nat → Nat → Nat
  | 0, i => i
  | n + 1, i =>
    if i ≤ j ∧ lessAt less data a i = false then partitionEqual_scanUp less data a j n (i + 1)
    else i

/-- The loop `for i <= j && data.Less(a, j) { j-- }` of `partitionEqual_func`. -/
def partitionEqual_scanDown (less : α → α → Bool) (data : List α) (a i : Nat) : Nat → Nat → Nat
  | 0, j => j
  | n + 1, j =>
    if i ≤ j ∧ lessAt less data a j = true then partitionEqual_scanDown less data a i n (j - 1)
    else j

/-- The loop of `partitionEqual_func`; returns the slice and the final `i`. -/
def partitionEqual_loop (less : α → α → Bool) (a : Nat) :
    Nat → Nat → Nat → List α → List α × Nat
  | 0, i, _, data => (data, i)
  | n + 1, i, j, data =>
    let i := partitionEqual_scanUp less data a j (j + 1 - i) i
    let j := partitionEqual_scanDown less data a i (j + 1 - i) j
    if i > j then (data, i)
    else partitionEqual_loop less a n (i + 1) (j - 1) (swapAt data i j)

/-- The function `partitionEqual_func`: the elements equal to `data[pivot]` first. -/
def partitionEqual_func (less : α → α → Bool) (data : List α) (a b pivot : Nat) :
    List α × Nat :=
  partitionEqual_loop less a (b - a + 1) (a + 1) (b - 1) (swapAt data a pivot)

/-- The loop `for i < b && !data.Less(i, i-1) { i++ }` of `partialInsertionSort_func`. -/
def partialInsertionSort_scan (less : α → α → Bool) (data : List α) (b : Nat) : Nat → Nat → Nat
  | 0, i => i
  | n + 1, i =>
    if i < b ∧ lessAt less data i (i - 1) = false then
      partialInsertionSort_scan less data b n (i + 1)
    else i

/-- The loop `for j := i - 1; j >= 1; j--` of `partialInsertionSort_func`, shifting the
smaller element to the left. -/
def partialInsertionSort_shiftLeft (less : α → α → Bool) : Nat → List α → List α
  | 0, data => data
  | j + 1, data =>
    if lessAt less data (j + 1) j = false then data
    else partialInsertionSort_shiftLeft less j (swapAt data (j + 1) j)

/-- The loop `for j := i + 1; j < b; j++` of `partialInsertionSort_func`, shifting the
greater element to the right. -/
def partialInsertionSort_shiftRight (less : α → α → Bool) (b : Nat) : Nat → Nat → List α → List α
  | 0, _, data => data
  | n + 1, j, data =>
    if j < b then
      if lessAt less data j (j - 1) = false then data
      else partialInsertionSort_shiftRight less b n (j + 1) (swapAt data j (j - 1))
    else data

/-- The loop `for j := 0; j < maxSteps; j++` of `partialInsertionSort_func`, with `steps`
iterations left; returns the slice and whether it is sorted. -/
def partialInsertionSort_loop (less : α → α → Bool) (a b : Nat) :
    Nat → Nat → List α → List α × Bool
  | 0, _, data => (data, false)
  | steps + 1, i, data =>
    let i := partialInsertionSort_scan less data b (b - a) i
    if i = b then (data, true)
    else if b - a < 50 then (data, false)
    else
      let data := swapAt data i (i - 1)
      let data := if i - a ≥ 2 then partialInsertionSort_shiftLeft less (i - 1) data else data
      let data :=
        if b - i ≥ 2 then partialInsertionSort_shiftRight less b (b - i) (i + 1) data else data
      partialInsertionSort_loop less a b steps i data

/-- The function `partialInsertionSort_func`: at most five insertion steps. -/
def partialInsertionSort_func (less : α → α → Bool) (data : List α) (a b : Nat) :
    List α × Bool :=
  partialInsertionSort_loop less a b 5 (a + 1) data

/-- The function `pdqsort_func` on `data[a:b]`; `wasBalanced` and `wasPartitioned` are its
loop variables, and `fuel` bounds the loop iterations and the depth of the recursion (each
makes `b - a` smaller). -/
def pdqsort_func (less : α → α → Bool) :
    Nat → List α → Nat → Nat → Nat → Bool → Bool → List α
  | 0, data, _, _, _, _, _ => data
  | fuel + 1, data, a, b, limit, wasBalanced, wasPartitioned =>
    let length := b - a
    if length ≤ 12 then insertionSort_func less data a b
    else if limit = 0 then heapSort_func less data a b
    else
      let data₁ := if wasBalanced then data else breakPatterns_func data a b
      let limit := if wasBalanced then limit else limit - 1
      let c := choosePivot_func less data₁ a b
      let data₂ :=
        if c.2 = sortedHint.decreasingHint then reverseRange_func data₁ a b else data₁
      let pivot := if c.2 = sortedHint.decreasingHint then (b - 1) - (c.1 - a) else c.1
      let hint :=
        if c.2 = sortedHint.decreasingHint then sortedHint.increasingHint else c.2
      let s :=
        if wasBalanced && wasPartitioned && decide (hint = sortedHint.increasingHint) then
          partialInsertionSort_func less data₂ a b
        else (data₂, false)
      if s.2 then s.1
      else if decide (a > 0) && !lessAt less s.1 (a - 1) pivot then
        let e := partitionEqual_func less s.1 a b pivot
        pdqsort_func less fuel e.1 e.2 b limit wasBalanced wasPartitioned
      else
        let p := partition_func less s.1 a b pivot
        let mid := p.2.1
        let leftLen := mid - a
        let rightLen := b - mid
        let balanceThreshold := length / 8
        if leftLen < rightLen then
          pdqsort_func less fuel (pdqsort_func less fuel p.1 a mid limit true true)
            (mid + 1) b limit (decide (leftLen ≥ balanceThreshold)) p.2.2
        else
          pdqsort_func less fuel (pdqsort_func less fuel p.1 (mid + 1) b limit true true)
            a mid limit (decide (rightLen ≥ balanceThreshold)) p.2.2

/-- The function `sort.Slice`: `pdqsort_func` on the whole slice with limit
`bits.Len(length)`. -/
def goSortSlice (less : α → α → Bool) (data : List α) : List α :=
  pdqsort_func less (data.length + 1) data 0 data.length (bitsLen data.length) true true

end GoSort

/-- The part of the contract of `sort.Slice` that does not depend on the comparison: the
result is a rearrangement of the argument. -/
def SortSliceRearranges (sortSlice : (RankingItem → RankingItem → Bool) → List RankingItem →
    List RankingItem) : Prop :=
  ∀ l, (sortSlice byRecordCountDesc l).Perm l

/-- A sort that meets the contract of `sort.Slice` on every slice: insertion sort under
"the second is not less than the first". -/
def insertionSortSlice {α : Type} (less : α → α → Bool) (data : List α) : List α :=
  data.insertionSort fun x y => less y x = false

/-! ## Vocabulary for the order of a sorted slice

The comparison of a sort is taken to compare integer keys: `less x y` holds when the key of
`x` is below the key of `y`. -/

/-- The key of `data[i]`; 0 outside the slice. -/
def keyAt {α : Type} (key : α → Int) (data : List α) (i : Nat) : Int :=
  match data[i]? with
  | some x => key x
  | none => 0

/-- The slice `data'` has the length of `data`, the keys of `data` outside `[a, b)`, and in
`[a, b)` only keys that `data` has in `[a, b)`. -/
def KeysWithin {α : Type} (key : α → Int) (data data' : List α) (a b : Nat) : Prop :=
  data'.length = data.length ∧
    (∀ i, i < a ∨ b ≤ i → keyAt key data' i = keyAt key data i) ∧
    ∀ i, a ≤ i → i < b → ∃ j, a ≤ j ∧ j < b ∧ keyAt key data' i = keyAt key data j

/-- The keys of `data[a:b]` are in ascending order. -/
def SortedOn {α : Type} (key : α → Int) (data : List α) (a b : Nat) : Prop :=
  ∀ p q, a ≤ p → p < q → q < b → keyAt key data p ≤ keyAt key data q

/-- No key of `data[a:b]` is below the key before it, `data[a-1]`, when there is one. -/
def AboveLeft {α : Type} (key : α → Int) (data : List α) (a b : Nat) : Prop :=
  0 < a → ∀ i, a ≤ i → i < b → keyAt key data (a - 1) ≤ keyAt key data i

/-- The heap order of `siftDown_func` on `data[first : first+hi]`, for the nodes from `lo` on:
no child has a key above the key of its parent. -/
def HeapOn {α : Type} (key : α → Int) (data : List α) (first lo hi : Nat) : Prop :=
  ∀ c, 1 ≤ c → c < hi → lo ≤ (c - 1) / 2 →
    keyAt key data (first + c) ≤ keyAt key data (first + (c - 1) / 2)

/-! ## Friend lists with user data

The embedding of `friendRepository.FindByUserID`, `FindByUserIDWithPagination` and
`FindFriendRequestsByUserID`, of `friendService.UpdateFriendStatus` and of the cohort built
by `RankingHandler.GetFriendRanking`. A query of these methods can fail: the read of table
`friends` is an `Except` over `QueryError`, and the lookup `First(&userModel, id)` in table
`users` is a function `userQuery` returning the user or the error (record not found
included). The counting and the paged queries of the two paged methods are arguments. -/

/-- The entity `entity.User`. -/
structure User where
  ID : Nat
  OpenID : String
  Nickname : String
  AvatarURL : String
  Status : Int
  CreatedAt : Nat
  UpdatedAt : Nat
  deriving DecidableEq, Repr

/-- The entity `entity.Friend`: the columns of the row and the friend's user data. -/
structure FriendEntity where
  ID : Nat
  UserID : Nat
  FriendID : Nat
  Status : Int
  CreatedAt : Nat
  UpdatedAt : Nat
  FriendUser : Option User
  deriving DecidableEq, Repr

/-- The method `model.Friend.ToEntity`. -/
def Friend.ToEntity (f : Friend) : FriendEntity :=
  { ID := f.ID, UserID := f.UserID, FriendID := f.FriendID, Status := f.Status,
    CreatedAt := f.CreatedAt, UpdatedAt := f.UpdatedAt, FriendUser := none }

/-- The body of the loop of `FindByUserID` and `FindByUserIDWithPagination` for one row:
look the friend's user up and, only when the lookup returns no error, store the user and
overwrite `FriendID` with the friend's id. -/
def entityWithFriendUser (userQuery : Nat → Except QueryError User) (userID : Nat)
    (friendModel : Friend) : FriendEntity :=
  let actualFriendID :=
    if friendModel.UserID = userID then friendModel.FriendID else friendModel.UserID
  match userQuery actualFriendID with
  | Except.ok userModel =>
    { friendModel.ToEntity with FriendUser := some userModel, FriendID := actualFriendID }
  | Except.error _ => friendModel.ToEntity

/-- The method `friendRepository.FindByUserID`: the Confirmed rows in which `userID` is
`user_id` or `friend_id`, each with the friend's user data. -/
def FindByUserID (friends : Except QueryError Store) (userQuery : Nat → Except QueryError User)
    (userID : Nat) : Except QueryError (List FriendEntity) :=
  match friends with
  | Except.error err => Except.error err
  | Except.ok db =>
    Except.ok
      ((db.filter fun r => (r.UserID == userID || r.FriendID == userID) && r.Status == 1).map
        (entityWithFriendUser userQuery userID))

/-- The method `friendRepository.FindByUserIDWithPagination`, returning `(friends, total)` or
the error. `count` is the outcome of the first `Count`, `recount` that of the `Count` with the
keyword condition, `find` that of the paged `Find`. -/
def FindByUserIDWithPagination (count recount : Except QueryError Int)
    (find : Except QueryError (List Friend)) (userQuery : Nat → Except QueryError User)
    (userID : Nat) (keyword : String) : Except QueryError (List FriendEntity × Int) :=
  match count with
  | Except.error err => Except.error err
  | Except.ok total =>
    let counted : Except QueryError Int := if keyword ≠ "" then recount else Except.ok total
    match counted with
    | Except.error err => Except.error err
    | Except.ok total =>
      match find with
      | Except.error err => Except.error err
      | Except.ok friendModels =>
        Except.ok (friendModels.map (entityWithFriendUser userQuery userID), total)

/-- The method `friendRepository.FindFriendRequestsByUserID`, returning `(friends, total)` or
the error. `count` is the outcome of `Count`, `find` that of the paged `Find`; the user
looked up for a row is its applicant `user_id`. -/
def FindFriendRequestsByUserID (count : Except QueryError Int)
    (find : Except QueryError (List Friend)) (userQuery : Nat → Except QueryError User) :
    Except QueryError (List FriendEntity × Int) :=
  match count with
  | Except.error err => Except.error err
  | Except.ok total =>
    match find with
    | Except.error err => Except.error err
    | Except.ok friendModels =>
      Except.ok
        (friendModels.map (fun friendModel =>
          match userQuery friendModel.UserID with
          | Except.ok userModel => { friendModel.ToEntity with FriendUser := some userModel }
          | Except.error _ => friendModel.ToEntity), total)

/-- The method `friendService.GetFriendsByUserID`. -/
def GetFriendsByUserID (friends : Except QueryError Store)
    (userQuery : Nat → Except QueryError User) (userID : Nat) :
    Except QueryError (List FriendEntity) :=
  FindByUserID friends userQuery userID

/-- The method `friendService.UpdateFriendStatus`: `Except.error` for a failed query,
otherwise the table afterwards and the returned error. -/
def UpdateFriendStatus (db : Store) (userQuery : Nat → Except QueryError User) (now : Nat)
    (id : Nat) (status : Int) : Except QueryError Outcome :=
  match FindByUserID (Except.ok db) userQuery id with
  | Except.error err => Except.error err
  | Except.ok friends =>
    match friends with
    | [] => Except.ok (db, some FriendError.notFound)
    | friend :: _ =>
      Except.ok (Update db now
        { ID := friend.ID, UserID := friend.UserID, FriendID := friend.FriendID,
          Status := status, CreatedAt := friend.CreatedAt, UpdatedAt := friend.UpdatedAt })

/-- The cohort `friendIDs` of `RankingHandler.GetFriendRanking`: the requesting user, then
`FriendID` of every friend entity whose `FriendID` is not the requesting user. -/
def cohortOfFriends (friends : List FriendEntity) (userID : Nat) : List Nat :=
  friends.foldl
    (fun friendIDs friend =>
      if friend.FriendID ≠ userID then friendIDs ++ [friend.FriendID] else friendIDs)
    [userID]

/-- The cohort `RankingHandler.GetFriendRanking` passes to the ranking, or the error of the
friend list. -/
def RankingHandler.cohort (db : Store) (userQuery : Nat → Except QueryError User)
    (userID : Nat) : Except QueryError (List Nat) :=
  match GetFriendsByUserID (Except.ok db) userQuery userID with
  | Except.error err => Except.error err
  | Except.ok friends => Except.ok (cohortOfFriends friends userID)

/-! ## Global ranking, services and daily statistics -/

/-- The method `recordRepository.GetGlobalRanking`, returning `(rankingItems, err)`. `scan`
is the statistics query as a function of the limit: the error, or the scanned rows (columns
`user_id`, `record_count`, `total_duration`), each becoming an item. -/
def GetGlobalRanking (scan : Int → Except QueryError (List RecordStat)) (limit : Int) :
    List RankingItem × Option QueryError :=
  match scan limit with
  | Except.error err => ([], some err)
  | Except.ok rows =>
    (setRanksFrom 0 (rows.map fun row =>
      { Rank := 0, UserID := row.UserID, Nickname := "", AvatarURL := "",
        RecordCount := row.RecordCount, TotalDuration := row.TotalDuration }), none)

/-- The method `recordService.GetGlobalRanking`. -/
def recordService.GetGlobalRanking (scan : Int → Except QueryError (List RecordStat))
    (limit : Int) : List RankingItem × Option QueryError :=
  FriendGraph.GetGlobalRanking scan limit

/-- The method `recordService.GetFriendRanking`. -/
def recordService.GetFriendRanking (sortSlice : (RankingItem → RankingItem → Bool) →
    List RankingItem → List RankingItem) (scan : Except QueryError (List RecordStat))
    (userIDs : List Nat) (page pageSize : Int) :
    Except GoPanic (List RankingItem × Int × Option QueryError) :=
  FriendGraph.GetFriendRanking sortSlice scan userIDs page pageSize

/-- The columns of a record that the daily statistics read. -/
structure Record where
  UserID : Nat
  RecordTime : Nat
  Duration : Int
  deriving DecidableEq, Repr

/-- The entity `entity.DailyRecordStats`; `Count` and `TotalTime` are Go `int`s. -/
structure DailyRecordStats where
  UserID : Nat
  Date : Nat
  Count : Int
  TotalTime : Int
  RecordTimes : List Nat
  deriving DecidableEq, Repr

/-- The first loop of `GetUsersDailyRecordStats`: an entry with zero count for each user. -/
def initDailyStats (startDate : Nat) (userIDs : List Nat) : Nat → Option DailyRecordStats :=
  userIDs.foldl
    (fun result userID => fun k =>
      if k = userID then
        some { UserID := userID, Date := startDate, Count := 0, TotalTime := 0,
               RecordTimes := [] }
      else result k)
    (fun _ => none)

/-- One step of the second loop of `GetUsersDailyRecordStats`: a record of a user without an
entry is skipped, otherwise the entry of its user is advanced. -/
def addDailyRecord (result : Nat → Option DailyRecordStats) (record : Record) :
    Nat → Option DailyRecordStats :=
  match result record.UserID with
  | none => result
  | some stats => fun k =>
    if k = record.UserID then
      some { stats with
        Count := wrapInt (stats.Count + 1)
        TotalTime := wrapInt (stats.TotalTime + record.Duration)
        RecordTimes := stats.RecordTimes ++ [record.RecordTime] }
    else result k

/-- The method `recordRepository.GetUsersDailyRecordStats`: the map from user id to
statistics, or the error of the day query. `startDate` is the start of the day of `date` and
`query` the outcome of the day query, in ascending order of record time. -/
def GetUsersDailyRecordStats (query : Except QueryError (List Record)) (userIDs : List Nat)
    (startDate : Nat) : Except QueryError (Nat → Option DailyRecordStats) :=
  match query with
  | Except.error err => Except.error err
  | Except.ok records =>
    Except.ok (records.foldl addDailyRecord (initDailyStats startDate userIDs))

/-! ## Pagination parameters of the handlers

The query string gives each parameter as an `Option String` (`none`: the key is absent).
`strconv.Atoi` is modelled after the Go standard library: an optional sign and decimal digits;
a syntax error gives 0 and a value outside the `int` range gives the nearest bound, both with
an error. -/

/-- The function `strconv.Atoi`: the value and whether an error is returned. -/
def Atoi (s : String) : Int × Bool :=
  let digits :=
    match s.toList with
    | '-' :: rest => rest
    | '+' :: rest => rest
    | cs => cs
  if digits = [] then (0, true)
  else if digits.all Char.isDigit then
    let n : Nat := digits.foldl (fun acc c => acc * 10 + (c.toNat - 48)) 0
    let v : Int := if s.toList.head? = some '-' then -(n : Int) else (n : Int)
    if v < -2 ^ 63 then (-2 ^ 63, true)
    else if v > 2 ^ 63 - 1 then (2 ^ 63 - 1, true)
    else (v, false)
  else (0, true)

/-- The method `gin.Context.DefaultQuery`. -/
def DefaultQuery (value : Option String) (defaultValue : String) : String :=
  match value with
  | some v => v
  | none => defaultValue

/-- The method `gin.Context.Query`. -/
def Query (value : Option String) : String :=
  DefaultQuery value ""

/-- The `(page, pageSize)` that `RankingHandler.GetFriendRanking` passes to the service. -/
def RankingHandler.pagination (pageQ pageSizeQ : Option String) : Int × Int :=
  let pageStr := DefaultQuery pageQ "1"
  let pageSizeStr := DefaultQuery pageSizeQ "10"
  let p := Atoi pageStr
  let page := if p.2 ∨ p.1 < 1 then 1 else p.1
  let ps := Atoi pageSizeStr
  let pageSize := if ps.2 ∨ ps.1 < 1 then 10 else ps.1
  (page, pageSize)

/-- The `(page, pageSize)` that `FriendHandler.GetFriends` and
`FriendHandler.GetFriendRequests` pass to the service (the two handlers read them alike). -/
def FriendHandler.pagination (pageQ pageSizeQ : Option String) : Int × Int :=
  let page :=
    if Query pageQ ≠ "" then
      if (Atoi (Query pageQ)).2 = false ∧ (Atoi (Query pageQ)).1 > 0 then (Atoi (Query pageQ)).1
      else 1
    else 1
  let pageSize :=
    if Query pageSizeQ ≠ "" then
      if (Atoi (Query pageSizeQ)).2 = false ∧ (Atoi (Query pageSizeQ)).1 > 0 then
        (Atoi (Query pageSizeQ)).1
      else 10
    else 10
  (page, pageSize)

/-- The `(page, size)` that `RecordHandler.GetRecordsByUserID` passes to the service:
`page, _ := strconv.Atoi(c.DefaultQuery("page", "1"))`, and `size` likewise. -/
def RecordHandler.paginationByUserID (pageQ sizeQ : Option String) : Int × Int :=
  ((Atoi (DefaultQuery pageQ "1")).1, (Atoi (DefaultQuery sizeQ "10")).1)

/-- The `(page, size)` that `RecordHandler.GetRecordsByDateRange` passes to the service. -/
def RecordHandler.paginationByDateRange (pageQ pageSizeQ : Option String) : Int × Int :=
  ((Atoi (DefaultQuery pageQ "1")).1, (Atoi (DefaultQuery pageSizeQ "5")).1)

/-! ## Auxiliary facts about the queries -/

theorem firstByID_eq_none_iff (l : List Friend) : firstByID l = none ↔ l = [] := by
  cases l with
  | nil => simp [firstByID]
  | cons r rs =>
    simp only [firstByID]
    cases firstByID rs with
    | none => simp
    | some m => by_cases h : r.ID ≤ m.ID <;> simp [h]

theorem firstByID_mem {l : List Friend} {r : Friend} (h : firstByID l = some r) : r ∈ l := by
  induction l generalizing r with
  | nil => simp [firstByID] at h
  | cons a rs ih =>
    simp only [firstByID] at h
    cases hrs : firstByID rs with
    | none =>
      rw [hrs] at h
      simp only [Option.some.injEq] at h
      simp [h]
    | some m =>
      rw [hrs] at h
      by_cases hle : a.ID ≤ m.ID
      · simp only [hle, if_true, Option.some.injEq] at h
        simp [h]
      · simp only [hle, if_false, Option.some.injEq] at h
        subst h
        exact List.mem_cons_of_mem _ (ih hrs)

theorem First_eq_none_iff (cond : Friend → Bool) (db : Store) :
    First cond db = none ↔ ∀ r ∈ db, cond r = false := by
  simp [First, firstByID_eq_none_iff, List.filter_eq_nil_iff]

theorem First_some_mem {cond : Friend → Bool} {db : Store} {r : Friend}
    (h : First cond db = some r) : r ∈ db ∧ cond r = true := by
  have := firstByID_mem h
  simpa [List.mem_filter] using this

theorem First_of_unique {cond : Friend → Bool} {db : Store} {r : Friend}
    (hr : r ∈ db) (hc : cond r = true) (honly : ∀ x ∈ db, cond x = true → x = r) :
    First cond db = some r := by
  cases h : First cond db with
  | none =>
    rw [First_eq_none_iff] at h
    rw [h r hr] at hc
    cases hc
  | some x =>
    obtain ⟨hx, hcx⟩ := First_some_mem h
    rw [honly x hx hcx]

theorem pairCond_comm (a b : Nat) (r : Friend) : pairCond a b r = pairCond b a r := by
  simp only [pairCond]
  exact Bool.or_comm _ _

theorem pairCond_update (a b id : Nat) (s : Int) (now : Nat) (r : Friend) :
    pairCond a b (if r.ID = id then { r with Status := s, UpdatedAt := now } else r)
      = pairCond a b r := by
  by_cases h : r.ID = id <;> simp [h, pairCond]

theorem filter_pairCond_update (a b : Nat) (db : Store) (id : Nat) (s : Int) (now : Nat) :
    (updateStatusByID db id s now).filter (pairCond a b)
      = updateStatusByID (db.filter (pairCond a b)) id s now := by
  induction db with
  | nil => rfl
  | cons r rs ih =>
    simp only [updateStatusByID, List.map_cons, List.filter_cons, pairCond_update] at ih ⊢
    by_cases h : pairCond a b r = true
    · simp only [h, if_true, List.map_cons, ih]
    · simp only [h, if_false, ih]
      simp

theorem length_updateStatusByID (db : Store) (id : Nat) (s : Int) (now : Nat) :
    (updateStatusByID db id s now).length = db.length := by
  simp [updateStatusByID]

theorem le_foldr_max_ID (db : Store) {r : Friend} (h : r ∈ db) :
    r.ID ≤ (db.map fun r => r.ID).foldr max 0 := by
  induction db with
  | nil => cases h
  | cons a rs ih =>
    simp only [List.map_cons, List.foldr_cons]
    rcases List.mem_cons.mp h with h | h
    · subst h
      exact le_max_left _ _
    · exact le_trans (ih h) (le_max_right _ _)

theorem lt_nextID (db : Store) {r : Friend} (h : r ∈ db) : r.ID < nextID db :=
  Nat.lt_succ_of_le (le_foldr_max_ID db h)

theorem Create_fst_cases (db : Store) (now : Nat) (f : Friend) :
    Create db now f = (db, some FriendError.duplicateEntry) ∨
      Create db now f = (db ++ [rowToInsert db now f], none) := by
  unfold Create
  simp only
  split
  · exact Or.inl rfl
  · split
    · exact Or.inl rfl
    · exact Or.inr rfl

/-- A fresh pair is inserted: with a zero primary key in the entity and no row from
`f.UserID` to `f.FriendID` in the table, `Create` appends the row. -/
theorem Create_fresh (db : Store) (now : Nat) (f : Friend) (hid : f.ID = 0)
    (hpair : ∀ r ∈ db, ¬ (r.UserID = f.UserID ∧ r.FriendID = f.FriendID)) :
    Create db now f = (db ++ [rowToInsert db now f], none) := by
  have h1 : db.any (fun r => r.ID == (rowToInsert db now f).ID) = false := by
    rw [List.any_eq_false]
    intro r hr
    have := lt_nextID db hr
    simp only [rowToInsert, hid, if_true, beq_iff_eq]
    omega
  have h2 : db.any (fun r => r.UserID == (rowToInsert db now f).UserID &&
      r.FriendID == (rowToInsert db now f).FriendID) = false := by
    rw [List.any_eq_false]
    intro r hr
    simpa [rowToInsert] using hpair r hr
  simp [Create, h1, h2]

theorem Transaction_eq_of_ok {db db' : Store} {fn : Store → Outcome}
    (h : fn db = (db', none)) : Transaction db fn = (db', none) := by
  simp [Transaction, h]

theorem Transaction_eq_of_err {db db' : Store} {fn : Store → Outcome} {e : FriendError}
    (h : fn db = (db', some e)) : Transaction db fn = (db, some e) := by
  simp [Transaction, h]

/-- One `AddFriend` call between `A` and `B` keeps the pair on at most one row whose
status is Pending or Confirmed. -/
theorem AddFriend_pair_inv (db : Store) (now A B u f : Nat)
    (hcall : (u = A ∧ f = B) ∨ (u = B ∧ f = A))
    (hlen : (db.filter (pairCond A B)).length ≤ 1)
    (hst : ∀ r ∈ db, pairCond A B r = true → r.Status = 0 ∨ r.Status = 1) :
    (((AddFriend db now u f).1).filter (pairCond A B)).length ≤ 1 ∧
      ∀ r ∈ (AddFriend db now u f).1, pairCond A B r = true → r.Status = 0 ∨ r.Status = 1 := by
  have hcond : pairCond u f = pairCond A B := by
    funext r
    rcases hcall with ⟨rfl, rfl⟩ | ⟨rfl, rfl⟩
    · rfl
    · exact pairCond_comm _ _ r
  have hupd : ∀ s : Int, (s = 0 ∨ s = 1) → ∀ id : Nat,
      ((updateStatusByID db id s now).filter (pairCond A B)).length ≤ 1 ∧
        ∀ r ∈ updateStatusByID db id s now, pairCond A B r = true →
          r.Status = 0 ∨ r.Status = 1 := by
    intro s hs id
    refine ⟨by rw [filter_pairCond_update, length_updateStatusByID]; exact hlen, ?_⟩
    intro r hr hp
    simp only [updateStatusByID, List.mem_map] at hr
    obtain ⟨y, hy, rfl⟩ := hr
    rw [pairCond_update] at hp
    by_cases hid : y.ID = id
    · simpa [hid] using hs
    · simpa [hid] using hst y hy hp
  have hcreate : First (pairCond A B) db = none →
      ((Transaction db (fun tx => Create tx now ⟨0, u, f, 0, 0, 0⟩)).1.filter
          (pairCond A B)).length ≤ 1 ∧
        ∀ r ∈ (Transaction db (fun tx => Create tx now ⟨0, u, f, 0, 0, 0⟩)).1,
          pairCond A B r = true → r.Status = 0 ∨ r.Status = 1 := by
    intro hnone
    rcases Create_fst_cases db now ⟨0, u, f, 0, 0, 0⟩ with h | h
    · rw [Transaction_eq_of_err h]
      exact ⟨hlen, hst⟩
    · rw [Transaction_eq_of_ok h]
      rw [First_eq_none_iff] at hnone
      have hnil : db.filter (pairCond A B) = [] := by
        rw [List.filter_eq_nil_iff]
        intro r hr
        simp [hnone r hr]
      refine ⟨?_, ?_⟩
      · rw [List.filter_append, hnil]
        simp only [List.nil_append]
        exact List.length_filter_le _ _
      · intro r hr hp
        rcases List.mem_append.mp hr with hr | hr
        · exact hst r hr hp
        · simp only [List.mem_singleton] at hr
          subst hr
          exact Or.inl rfl
  unfold AddFriend Save
  cases hfirst : First (pairCond A B) db with
  | none =>
    have hbody : (fun tx => saveBody now ⟨0, u, f, 0, 0, 0⟩ tx) db
        = (fun tx => Create tx now ⟨0, u, f, 0, 0, 0⟩) db := by
      simp only [saveBody, hcond, hfirst]
    have : Transaction db (saveBody now ⟨0, u, f, 0, 0, 0⟩)
        = Transaction db (fun tx => Create tx now ⟨0, u, f, 0, 0, 0⟩) := by
      simp only [Transaction] at hbody ⊢
      rw [hbody]
    rw [this]
    exact hcreate hfirst
  | some e =>
    obtain ⟨hmem, hpe⟩ := First_some_mem hfirst
    have hes := hst e hmem hpe
    rcases hes with h0 | h1
    · have h01 : ¬ e.Status = 1 := by omega
      by_cases hdir : e.UserID = f ∧ e.FriendID = u
      · have hbody : saveBody now ⟨0, u, f, 0, 0, 0⟩ db
            = (updateStatusByID db e.ID 1 now, none) := by
          simp [saveBody, hcond, hfirst, h0, hdir]
        rw [Transaction_eq_of_ok hbody]
        exact hupd 1 (Or.inr rfl) e.ID
      · have hbody : saveBody now ⟨0, u, f, 0, 0, 0⟩ db
            = (db, some FriendError.requestAlreadySent) := by
          simp only [saveBody, hcond, hfirst, h0]
          simp [hdir]
        rw [Transaction_eq_of_err hbody]
        exact ⟨hlen, hst⟩
    · have hbody : saveBody now ⟨0, u, f, 0, 0, 0⟩ db
          = (db, some FriendError.alreadyFriends) := by
        simp [saveBody, hcond, hfirst, h1]
      rw [Transaction_eq_of_err hbody]
      exact ⟨hlen, hst⟩

/-- The invariant of `AddFriend_pair_inv` holds after every sequence of calls. -/
theorem runAddFriends_pair_inv (A B : Nat) (calls : List (Nat × Nat × Nat)) (db : Store)
    (hcalls : ∀ c ∈ calls, (c.2.1 = A ∧ c.2.2 = B) ∨ (c.2.1 = B ∧ c.2.2 = A))
    (hlen : (db.filter (pairCond A B)).length ≤ 1)
    (hst : ∀ r ∈ db, pairCond A B r = true → r.Status = 0 ∨ r.Status = 1) :
    ((runAddFriends db calls).filter (pairCond A B)).length ≤ 1 := by
  induction calls generalizing db with
  | nil => exact hlen
  | cons c cs ih =>
    have hstep := AddFriend_pair_inv db c.1 A B c.2.1 c.2.2
      (hcalls c (List.mem_cons_self _ _)) hlen hst
    exact ih _ (fun c' hc' => hcalls c' (List.mem_cons_of_mem _ hc')) hstep.1 hstep.2

/-- C1: from a table with no row for the pair of `A` and `B` (`A ≠ B`), after every finite
sequence of `AddFriend` calls between the two users, in either direction and at any clock
readings, at most one row of status other than 3 has `(user_id, friend_id)` equal to `(A, B)`
or `(B, A)`. -/
theorem runAddFriends_at_most_one_active_row (db : Store) (A B : Nat)
    (calls : List (Nat × Nat × Nat)) (_hne : A ≠ B)
    (hnone : ∀ r ∈ db, pairCond A B r = false)
    (hcalls : ∀ c ∈ calls, (c.2.1 = A ∧ c.2.2 = B) ∨ (c.2.1 = B ∧ c.2.2 = A)) :
    ((runAddFriends db calls).filter fun r => pairCond A B r && r.Status != 3).length ≤ 1 := by
  have hnil : db.filter (pairCond A B) = [] := by
    rw [List.filter_eq_nil_iff]
    intro r hr
    simp [hnone r hr]
  have hinv := runAddFriends_pair_inv A B calls db hcalls (by simp [hnil])
    (fun r hr hp => by rw [hnone r hr] at hp; cases hp)
  have hsub : ((runAddFriends db calls).filter fun r => pairCond A B r && r.Status != 3)
      = ((runAddFriends db calls).filter (pairCond A B)).filter fun r => r.Status != 3 := by
    rw [List.filter_filter]
    congr 1
    funext r
    exact Bool.and_comm _ _
  rw [hsub]
  exact le_trans (List.length_filter_le _ _) hinv

theorem runAddFriends_at_most_one_active_row_witness :
    ((runAddFriends [⟨1, 3, 4, 1, 5, 5⟩] [(6, 1, 2), (7, 1, 2), (8, 2, 1), (9, 2, 1)]).filter
      fun r => pairCond 1 2 r && r.Status != 3).length ≤ 1 :=
  runAddFriends_at_most_one_active_row [⟨1, 3, 4, 1, 5, 5⟩] 1 2
    [(6, 1, 2), (7, 1, 2), (8, 2, 1), (9, 2, 1)] (by decide) (by decide) (by decide)

/-- C2: when the only row for the pair of `U` and `T` is a Pending row `r` from `T` to `U`,
`AddFriend U T` returns no error and overwrites status (to Confirmed) and `updated_at` of the
row of key `r.ID`; the table keeps its length, the confirmed row, still from `T` to `U`, is in
it, and it is the only row for the pair. -/
theorem AddFriend_mutual_request_confirms (db : Store) (now U T : Nat) (r : Friend)
    (hr : r ∈ db) (hu : r.UserID = T) (hf : r.FriendID = U) (hs : r.Status = 0)
    (honly : ∀ x ∈ db, pairCond U T x = true → x = r) :
    AddFriend db now U T = (updateStatusByID db r.ID 1 now, none) ∧
      (AddFriend db now U T).1.length = db.length ∧
      { r with Status := 1, UpdatedAt := now } ∈ (AddFriend db now U T).1 ∧
      (∀ x ∈ (AddFriend db now U T).1, pairCond U T x = true →
        x = { r with Status := 1, UpdatedAt := now }) ∧
      ({ r with Status := 1, UpdatedAt := now } : Friend).UserID = T ∧
      ({ r with Status := 1, UpdatedAt := now } : Friend).FriendID = U := by
  have hpr : pairCond U T r = true := by simp [pairCond, hu, hf]
  have hfirst : First (pairCond U T) db = some r := First_of_unique hr hpr honly
  have hbody : saveBody now ⟨0, U, T, 0, 0, 0⟩ db = (updateStatusByID db r.ID 1 now, none) := by
    simp [saveBody, hfirst, hs, hu, hf]
  have hres : AddFriend db now U T = (updateStatusByID db r.ID 1 now, none) := by
    unfold AddFriend Save
    exact Transaction_eq_of_ok hbody
  rw [hres]
  refine ⟨rfl, length_updateStatusByID _ _ _ _, ?_, ?_, hu, hf⟩
  · simp only [updateStatusByID, List.mem_map]
    exact ⟨r, hr, by simp⟩
  · intro x hx hp
    simp only [updateStatusByID, List.mem_map] at hx
    obtain ⟨y, hy, rfl⟩ := hx
    rw [pairCond_update] at hp
    have := honly y hy hp
    subst this
    simp

theorem AddFriend_mutual_request_confirms_witness :
    AddFriend [⟨4, 2, 1, 0, 7, 7⟩, ⟨5, 2, 3, 0, 8, 8⟩] 9 1 2
      = ([⟨4, 2, 1, 1, 7, 9⟩, ⟨5, 2, 3, 0, 8, 8⟩], none) :=
  (AddFriend_mutual_request_confirms [⟨4, 2, 1, 0, 7, 7⟩, ⟨5, 2, 3, 0, 8, 8⟩] 9 1 2
    ⟨4, 2, 1, 0, 7, 7⟩ (by decide) rfl rfl rfl (by decide)).1

/-- C3: on the empty table, `AddFriend 1 2` leaves exactly one row, Pending, from user 1 to
user 2; a following `AddFriend 2 1` leaves exactly one row, the same one with status
Confirmed; then `FindFriendIDs 1 = [2]` and `FindFriendIDs 2 = [1]`. -/
theorem scenario_mutual_request (t₁ t₂ : Nat) :
    AddFriend [] t₁ 1 2 = ([⟨1, 1, 2, 0, t₁, t₁⟩], none) ∧
      AddFriend (AddFriend [] t₁ 1 2).1 t₂ 2 1 = ([⟨1, 1, 2, 1, t₁, t₂⟩], none) ∧
      FindFriendIDs (AddFriend (AddFriend [] t₁ 1 2).1 t₂ 2 1).1 1 = [2] ∧
      FindFriendIDs (AddFriend (AddFriend [] t₁ 1 2).1 t₂ 2 1).1 2 = [1] := by
  refine ⟨rfl, rfl, rfl, rfl⟩

/-- C4: `B` occurs in `FindFriendIDs A` exactly when the table holds a Confirmed row whose
`(user_id, friend_id)` is `(A, B)` or `(B, A)`; hence `B` occurs in `FindFriendIDs A` exactly
when `A` occurs in `FindFriendIDs B`; and removing every Pending and every Rejected row from
the table does not change `FindFriendIDs A`. -/
theorem FindFriendIDs_confirmed_symmetric (db : Store) (A B : Nat) :
    (B ∈ FindFriendIDs db A ↔
        ∃ r ∈ db, r.Status = 1 ∧
          ((r.UserID = A ∧ r.FriendID = B) ∨ (r.UserID = B ∧ r.FriendID = A))) ∧
      (B ∈ FindFriendIDs db A ↔ A ∈ FindFriendIDs db B) ∧
      FindFriendIDs (db.filter fun r => r.Status != 0 && r.Status != 2) A
        = FindFriendIDs db A := by
  have key : ∀ X Y : Nat, Y ∈ FindFriendIDs db X ↔
      ∃ r ∈ db, r.Status = 1 ∧
        ((r.UserID = X ∧ r.FriendID = Y) ∨ (r.UserID = Y ∧ r.FriendID = X)) := by
    intro X Y
    simp only [FindFriendIDs, List.mem_append, List.mem_map, List.mem_filter,
      Bool.and_eq_true, beq_iff_eq]
    constructor
    · rintro (⟨r, ⟨hr, hx, hs⟩, hy⟩ | ⟨r, ⟨hr, hx, hs⟩, hy⟩)
      · exact ⟨r, hr, hs, Or.inl ⟨hx, hy⟩⟩
      · exact ⟨r, hr, hs, Or.inr ⟨hy, hx⟩⟩
    · rintro ⟨r, hr, hs, ⟨hx, hy⟩ | ⟨hy, hx⟩⟩
      · exact Or.inl ⟨r, ⟨hr, hx, hs⟩, hy⟩
      · exact Or.inr ⟨r, ⟨hr, hx, hs⟩, hy⟩
  refine ⟨key A B, ?_, ?_⟩
  · rw [key A B, key B A]
    constructor
    · rintro ⟨r, hr, hs, h⟩
      exact ⟨r, hr, hs, h.symm⟩
    · rintro ⟨r, hr, hs, h⟩
      exact ⟨r, hr, hs, h.symm⟩
  · simp only [FindFriendIDs, List.filter_filter]
    congr 2
    · apply List.filter_congr
      intro r _
      by_cases h : r.Status = 1 <;> simp [h]
    · apply List.filter_congr
      intro r _
      by_cases h : r.Status = 1 <;> simp [h]

/-- C5: when no row of the table is for the pair of `U` and `T`, in either orientation,
`AddFriend U T` returns no error and the table afterwards is the old table followed by one
new row, from `U` to `T`, with status Pending, under a primary key no old row has. -/
theorem AddFriend_creates_pending (db : Store) (now U T : Nat)
    (hnone : ∀ r ∈ db, pairCond U T r = false) :
    AddFriend db now U T = (db ++ [⟨nextID db, U, T, 0, now, now⟩], none) ∧
      ∀ r ∈ db, r.ID ≠ nextID db := by
  have hfirst : First (pairCond U T) db = none := (First_eq_none_iff _ _).mpr hnone
  have hcreate := Create_fresh db now ⟨0, U, T, 0, 0, 0⟩ rfl (by
    intro r hr hpair
    have := hnone r hr
    simp [pairCond, hpair.1, hpair.2] at this)
  have hbody : saveBody now ⟨0, U, T, 0, 0, 0⟩ db
      = (db ++ [⟨nextID db, U, T, 0, now, now⟩], none) := by
    simp only [saveBody, hfirst, hcreate]
    rfl
  refine ⟨?_, fun r hr => Nat.ne_of_lt (lt_nextID db hr)⟩
  unfold AddFriend Save
  exact Transaction_eq_of_ok hbody

theorem AddFriend_creates_pending_witness :
    AddFriend [⟨4, 2, 3, 1, 7, 7⟩] 9 1 2 = ([⟨4, 2, 3, 1, 7, 7⟩, ⟨5, 1, 2, 0, 9, 9⟩], none) :=
  (AddFriend_creates_pending [⟨4, 2, 3, 1, 7, 7⟩] 9 1 2 (by decide)).1

/-- C6: when the row `Save` finds for the pair of `U` and `T` (whichever its orientation) is
Confirmed, `AddFriend U T` returns the already-friends error and the table is as before. -/
theorem AddFriend_already_friends (db : Store) (now U T : Nat) (r : Friend)
    (hfound : First (pairCond U T) db = some r) (hs : r.Status = 1) :
    AddFriend db now U T = (db, some FriendError.alreadyFriends) := by
  have hbody : saveBody now ⟨0, U, T, 0, 0, 0⟩ db = (db, some FriendError.alreadyFriends) := by
    simp [saveBody, hfound, hs]
  unfold AddFriend Save
  exact Transaction_eq_of_err hbody

theorem AddFriend_already_friends_witness :
    AddFriend [⟨4, 2, 1, 1, 7, 7⟩] 9 1 2 = ([⟨4, 2, 1, 1, 7, 7⟩], some FriendError.alreadyFriends) ∧
      AddFriend [⟨4, 1, 2, 1, 7, 7⟩] 9 1 2
        = ([⟨4, 1, 2, 1, 7, 7⟩], some FriendError.alreadyFriends) :=
  ⟨AddFriend_already_friends [⟨4, 2, 1, 1, 7, 7⟩] 9 1 2 ⟨4, 2, 1, 1, 7, 7⟩ (by decide) rfl,
    AddFriend_already_friends [⟨4, 1, 2, 1, 7, 7⟩] 9 1 2 ⟨4, 1, 2, 1, 7, 7⟩ (by decide) rfl⟩

/-- C7: for two users `U ≠ T`, when the row `Save` finds for the pair is Pending from `U` to
`T`, a repeated `AddFriend U T` returns the request-already-sent error and the table is as
before: the row stays Pending and no row is added. -/
theorem AddFriend_request_already_sent (db : Store) (now U T : Nat) (r : Friend)
    (hne : U ≠ T) (hfound : First (pairCond U T) db = some r) (hs : r.Status = 0)
    (hu : r.UserID = U) (_hf : r.FriendID = T) :
    AddFriend db now U T = (db, some FriendError.requestAlreadySent) := by
  have hdir : ¬ (r.UserID = T ∧ r.FriendID = U) := by
    rintro ⟨h, _⟩
    exact hne (hu.symm.trans h)
  have hbody : saveBody now ⟨0, U, T, 0, 0, 0⟩ db
      = (db, some FriendError.requestAlreadySent) := by
    simp only [saveBody, hfound, hs]
    simp [hdir]
  unfold AddFriend Save
  exact Transaction_eq_of_err hbody

theorem AddFriend_request_already_sent_witness :
    AddFriend [⟨4, 1, 2, 0, 7, 7⟩] 9 1 2
      = ([⟨4, 1, 2, 0, 7, 7⟩], some FriendError.requestAlreadySent) :=
  AddFriend_request_already_sent [⟨4, 1, 2, 0, 7, 7⟩] 9 1 2 ⟨4, 1, 2, 0, 7, 7⟩
    (by decide) (by decide) rfl rfl rfl

/-- C8, the code at the failing input: the only row is Rejected from user 2 to user 1;
`AddFriend 1 2` returns no error and resets the status to Pending, but the row stays from
user 2 to user 1: the new requester 1 is not recorded as its initiator. -/
theorem AddFriend_rejected_reverse_keeps_initiator :
    AddFriend [⟨1, 2, 1, 2, 7, 7⟩] 9 1 2 = ([⟨1, 2, 1, 0, 7, 9⟩], none) ∧
      ∀ r ∈ (AddFriend [⟨1, 2, 1, 2, 7, 7⟩] 9 1 2).1, r.UserID = 2 ∧ r.FriendID = 1 := by
  decide

/-- C9: `UpdateFriendStatusWithVerification` returns the not-found error when no row has
primary key `relationID`, and the no-permission error when such a row exists and `acting` is
neither `user_id` nor `friend_id` of it, for every `counterparty` and `status`; in both cases
the table is as before. -/
theorem UpdateFriendStatusWithVerification_notFound_forbidden (db : Store) (now : Nat)
    (relationID acting counterparty : Nat) (status : Int) :
    ((∀ r ∈ db, r.ID ≠ relationID) →
        UpdateFriendStatusWithVerification db now relationID acting counterparty status
          = (db, some FriendError.notFound)) ∧
      ((∃ r ∈ db, r.ID = relationID) →
        (∀ r ∈ db, r.ID = relationID → r.UserID ≠ acting ∧ r.FriendID ≠ acting) →
        UpdateFriendStatusWithVerification db now relationID acting counterparty status
          = (db, some FriendError.forbidden)) := by
  constructor
  · intro hno
    have hfind : FindByID db relationID = none := by
      unfold FindByID
      rw [First_eq_none_iff]
      intro r hr
      simpa using hno r hr
    simp [UpdateFriendStatusWithVerification, hfind]
  · rintro ⟨r₀, hr₀, hid₀⟩ hall
    cases hfind : FindByID db relationID with
    | none =>
      unfold FindByID at hfind
      rw [First_eq_none_iff] at hfind
      have := hfind r₀ hr₀
      simp [hid₀] at this
    | some r =>
      obtain ⟨hr, hid⟩ := First_some_mem hfind
      have hnp := hall r hr (by simpa using hid)
      simp [UpdateFriendStatusWithVerification, hfind, hnp.1, hnp.2]

theorem UpdateFriendStatusWithVerification_notFound_forbidden_witness :
    UpdateFriendStatusWithVerification [⟨4, 1, 2, 0, 7, 7⟩] 9 5 1 2 1
        = ([⟨4, 1, 2, 0, 7, 7⟩], some FriendError.notFound) ∧
      UpdateFriendStatusWithVerification [⟨4, 1, 2, 0, 7, 7⟩] 9 4 3 1 1
        = ([⟨4, 1, 2, 0, 7, 7⟩], some FriendError.forbidden) :=
  ⟨(UpdateFriendStatusWithVerification_notFound_forbidden [⟨4, 1, 2, 0, 7, 7⟩] 9 5 1 2 1).1
      (by decide),
    (UpdateFriendStatusWithVerification_notFound_forbidden [⟨4, 1, 2, 0, 7, 7⟩] 9 4 3 1 1).2
      (by decide) (by decide)⟩

/-- C10: when `FindByID relationID` returns the row `r` and `acting` is its `user_id` or its
`friend_id`, `UpdateFriendStatusWithVerification` returns the mismatch error exactly when
`counterparty` differs from the other participant of `r` (its `friend_id` when `acting` is its
`user_id`, its `user_id` otherwise), and in that case the table is as before. -/
theorem UpdateFriendStatusWithVerification_mismatch_iff (db : Store) (now : Nat)
    (relationID acting counterparty : Nat) (status : Int) (r : Friend)
    (hfind : FindByID db relationID = some r)
    (hpart : r.UserID = acting ∨ r.FriendID = acting) :
    ((UpdateFriendStatusWithVerification db now relationID acting counterparty status).2
          = some FriendError.mismatch ↔
        counterparty ≠ (if r.UserID = acting then r.FriendID else r.UserID)) ∧
      (counterparty ≠ (if r.UserID = acting then r.FriendID else r.UserID) →
        UpdateFriendStatusWithVerification db now relationID acting counterparty status
          = (db, some FriendError.mismatch)) := by
  have hnf : ¬ (r.UserID ≠ acting ∧ r.FriendID ≠ acting) := by
    rintro ⟨h1, h2⟩
    rcases hpart with h | h
    · exact h1 h
    · exact h2 h
  by_cases hmis : (r.UserID = acting ∧ r.FriendID ≠ counterparty) ∨
      (r.FriendID = acting ∧ r.UserID ≠ counterparty)
  · have hres : UpdateFriendStatusWithVerification db now relationID acting counterparty status
        = (db, some FriendError.mismatch) := by
      simp only [UpdateFriendStatusWithVerification, hfind, hnf, if_false, hmis, if_true]
    have hother : counterparty ≠ (if r.UserID = acting then r.FriendID else r.UserID) := by
      rcases hmis with ⟨h1, h2⟩ | ⟨h1, h2⟩
      · simpa [h1] using Ne.symm h2
      · by_cases hu : r.UserID = acting
        · simp only [hu, if_true]
          intro hc
          exact h2 (by rw [hu, hc, h1])
        · simpa [hu] using Ne.symm h2
    exact ⟨⟨fun _ => hother, fun _ => by rw [hres]⟩, fun _ => hres⟩
  · have hres : UpdateFriendStatusWithVerification db now relationID acting counterparty status
        = (updateStatusByID db r.ID status now, none) := by
      simp only [UpdateFriendStatusWithVerification, hfind, hnf, if_false, hmis, Update,
        Transaction]
    have hother : ¬ counterparty ≠ (if r.UserID = acting then r.FriendID else r.UserID) := by
      intro hne
      apply hmis
      by_cases hu : r.UserID = acting
      · simp only [hu, if_true] at hne
        exact Or.inl ⟨hu, Ne.symm hne⟩
      · simp only [hu, if_false] at hne
        rcases hpart with h | h
        · exact absurd h hu
        · exact Or.inr ⟨h, Ne.symm hne⟩
    refine ⟨⟨fun h => ?_, fun h => absurd h hother⟩, fun h => absurd h hother⟩
    rw [hres] at h
    cases h

theorem UpdateFriendStatusWithVerification_mismatch_iff_witness :
    UpdateFriendStatusWithVerification [⟨4, 1, 2, 0, 7, 7⟩] 9 4 2 3 1
      = ([⟨4, 1, 2, 0, 7, 7⟩], some FriendError.mismatch) :=
  (UpdateFriendStatusWithVerification_mismatch_iff [⟨4, 1, 2, 0, 7, 7⟩] 9 4 2 3 1
    ⟨4, 1, 2, 0, 7, 7⟩ (by decide) (by decide)).2 (by decide)

/-! ## Status updates and deletion -/

theorem UpdateFriendStatusWithVerification_eq_update {db : Store} {relationID : Nat}
    {r : Friend} (now acting counterparty : Nat) (status : Int)
    (hfind : FindByID db relationID = some r)
    (hpart : r.UserID = acting ∨ r.FriendID = acting)
    (hcp : counterparty = if r.UserID = acting then r.FriendID else r.UserID) :
    UpdateFriendStatusWithVerification db now relationID acting counterparty status
      = (updateStatusByID db relationID status now, none) := by
  have hid : r.ID = relationID := by
    have := (First_some_mem hfind).2
    simpa using this
  have hnf : ¬ (r.UserID ≠ acting ∧ r.FriendID ≠ acting) := by
    rintro ⟨h1, h2⟩
    rcases hpart with h | h
    · exact h1 h
    · exact h2 h
  have hnm : ¬ ((r.UserID = acting ∧ r.FriendID ≠ counterparty) ∨
      (r.FriendID = acting ∧ r.UserID ≠ counterparty)) := by
    by_cases hu : r.UserID = acting
    · simp only [hu, if_true] at hcp
      rintro (⟨_, h2⟩ | ⟨h1, h2⟩)
      · exact h2 hcp.symm
      · exact h2 (by rw [hu, hcp, h1])
    · simp only [hu, if_false] at hcp
      rintro (⟨h1, _⟩ | ⟨_, h2⟩)
      · exact hu h1
      · exact h2 hcp.symm
  simp only [UpdateFriendStatusWithVerification, hfind, hnf, if_false, hnm, Update,
    Transaction, hid]

/-- C11: when `FindByID relationID` returns the row `r`, `acting` is a participant of `r` and
`counterparty` its other participant, `UpdateFriendStatusWithVerification` returns no error
and the table afterwards is the old one with status and `updated_at` overwritten in the rows
of primary key `relationID`, whatever the old status: the row `r` with the supplied status
(same key, `user_id` and `friend_id`) is in it, every row of that key has the supplied status,
and in place the rows of another key are as before. -/
theorem UpdateFriendStatusWithVerification_overwrites_status (db : Store) (now : Nat)
    (relationID acting counterparty : Nat) (status : Int) (r : Friend)
    (hfind : FindByID db relationID = some r)
    (hpart : r.UserID = acting ∨ r.FriendID = acting)
    (hcp : counterparty = if r.UserID = acting then r.FriendID else r.UserID) :
    UpdateFriendStatusWithVerification db now relationID acting counterparty status
        = (db.map (fun x => if x.ID = relationID
            then { x with Status := status, UpdatedAt := now } else x), none) ∧
      (⟨r.ID, r.UserID, r.FriendID, status, r.CreatedAt, now⟩ : Friend) ∈
        (UpdateFriendStatusWithVerification db now relationID acting counterparty status).1 ∧
      (∀ x ∈ (UpdateFriendStatusWithVerification db now relationID acting counterparty
          status).1, x.ID = relationID → x.Status = status) ∧
      (∀ (i : Nat) (x : Friend), db[i]? = some x → x.ID ≠ relationID →
        (UpdateFriendStatusWithVerification db now relationID acting counterparty
          status).1[i]? = some x) := by
  have hres := UpdateFriendStatusWithVerification_eq_update now acting counterparty status
    hfind hpart hcp
  obtain ⟨hmem, hid⟩ := First_some_mem hfind
  have hid : r.ID = relationID := by simpa using hid
  rw [hres]
  refine ⟨rfl, ?_, ?_, ?_⟩
  · simp only [updateStatusByID, List.mem_map]
    exact ⟨r, hmem, by simp [hid]⟩
  · intro x hx hxid
    simp only [updateStatusByID, List.mem_map] at hx
    obtain ⟨y, _, rfl⟩ := hx
    by_cases hy : y.ID = relationID
    · simp [hy]
    · simp [hy] at hxid
  · intro i x hx hne
    simp [updateStatusByID, List.getElem?_map, hx, hne]

theorem UpdateFriendStatusWithVerification_overwrites_status_witness :
    UpdateFriendStatusWithVerification [⟨4, 1, 2, 2, 7, 7⟩, ⟨5, 1, 3, 0, 8, 8⟩] 9 4 2 1 1
      = ([⟨4, 1, 2, 1, 7, 9⟩, ⟨5, 1, 3, 0, 8, 8⟩], none) :=
  (UpdateFriendStatusWithVerification_overwrites_status
    [⟨4, 1, 2, 2, 7, 7⟩, ⟨5, 1, 3, 0, 8, 8⟩] 9 4 2 1 1 ⟨4, 1, 2, 2, 7, 7⟩
    (by decide) (by decide) (by decide)).1

/-- C12, the code at the failing input: the only row is Pending from user 1 to user 2, and
the initiator 1, acting with counterparty 2, sets it to Confirmed through
`UpdateFriendStatusWithVerification`; a repeated `AddFriend 1 2` does not. -/
theorem UpdateFriendStatusWithVerification_initiator_confirms :
    UpdateFriendStatusWithVerification [⟨1, 1, 2, 0, 7, 7⟩] 9 1 1 2 1
        = ([⟨1, 1, 2, 1, 7, 9⟩], none) ∧
      AddFriend [⟨1, 1, 2, 0, 7, 7⟩] 9 1 2
        = ([⟨1, 1, 2, 0, 7, 7⟩], some FriendError.requestAlreadySent) := by
  decide

/-- C13, as stated, fails: for the verified call of target 2 on the Pending row from 1 to 2,
the status 7 is written by `UpdateFriendStatusWithVerification` and by `Update`, with no
error. -/
theorem UpdateFriendStatusWithVerification_writes_out_of_range :
    UpdateFriendStatusWithVerification [⟨1, 1, 2, 0, 7, 7⟩] 9 1 2 1 7
        = ([⟨1, 1, 2, 7, 7, 9⟩], none) ∧
      Update [⟨1, 1, 2, 0, 7, 7⟩] 9 ⟨1, 1, 2, 7, 7, 7⟩ = ([⟨1, 1, 2, 7, 7, 9⟩], none) := by
  decide

/-- C13, amended: the range check is in the handler. For every status below 0 or above 3,
`FriendHandler.UpdateFriendStatus` answers bad request and leaves the table as it was, for
every table, token, other body field and path parameter, provided the token is accepted. -/
theorem FriendHandler_UpdateFriendStatus_rejects_out_of_range (db : Store) (now tokenUser : Nat)
    (userID friendID : Nat) (status : Int) (idParam : Option Nat)
    (hrange : status < 0 ∨ status > 3) :
    FriendHandler.UpdateFriendStatus db now (some tokenUser) (some ⟨userID, friendID, status⟩)
      idParam = (db, HTTPStatus.badRequest) := by
  unfold FriendHandler.UpdateFriendStatus
  simp only
  split
  · rfl
  · simp [hrange]

theorem FriendHandler_UpdateFriendStatus_rejects_out_of_range_witness :
    FriendHandler.UpdateFriendStatus [⟨1, 1, 2, 0, 7, 7⟩] 9 (some 2) (some ⟨2, 1, 7⟩) (some 1)
      = ([⟨1, 1, 2, 0, 7, 7⟩], HTTPStatus.badRequest) :=
  FriendHandler_UpdateFriendStatus_rejects_out_of_range [⟨1, 1, 2, 0, 7, 7⟩] 9 2 2 1 7
    (some 1) (by decide)

/-- C14: when a row `r` of primary key `id` has `requester` as `user_id` or `friend_id`,
`DeleteFriend id requester` returns no error and removes the rows of key `id` in which
`requester` takes part, keeping every other row in place; primary keys being distinct, that
is the table without `r`. When no row of key `id` has `requester` as a participant, in
particular when no row has key `id`, it returns the not-found error and the table is as
before. -/
theorem DeleteFriend_participant_only (db : Store) (id requester : Nat) :
    (∀ r ∈ db, r.ID = id → (r.UserID = requester ∨ r.FriendID = requester) →
        DeleteFriend db id requester
            = (db.filter (fun x =>
                !(x.ID == id && (x.UserID == requester || x.FriendID == requester))), none) ∧
          ((db.map fun x => x.ID).Nodup →
            DeleteFriend db id requester = (db.filter (fun x => decide (x ≠ r)), none))) ∧
      ((∀ r ∈ db, r.ID = id → r.UserID ≠ requester ∧ r.FriendID ≠ requester) →
        DeleteFriend db id requester = (db, some FriendError.notFound)) := by
  constructor
  · intro r hr hid hpart
    have hcond : (r.ID == id && (r.UserID == requester || r.FriendID == requester)) = true := by
      simpa [hid] using hpart
    have hpos : (db.filter fun x =>
        x.ID == id && (x.UserID == requester || x.FriendID == requester)).length ≠ 0 := by
      intro h0
      have hnil := List.length_eq_zero.mp h0
      rw [List.filter_eq_nil_iff] at hnil
      exact hnil r hr hcond
    have hres : DeleteFriend db id requester
        = (db.filter (fun x =>
            !(x.ID == id && (x.UserID == requester || x.FriendID == requester))), none) := by
      simp only [DeleteFriend, Delete, Transaction, hpos, if_false]
    refine ⟨hres, fun hnodup => ?_⟩
    have huniq : ∀ x ∈ db, x.ID = id → x = r := by
      intro x hx hxid
      exact List.inj_on_of_nodup_map hnodup hx hr (hxid.trans hid.symm)
    rw [hres]
    congr 1
    apply List.filter_congr
    intro x hx
    by_cases hxr : x = r
    · subst hxr
      simp [hcond]
    · have hxid : x.ID ≠ id := fun h => hxr (huniq x hx h)
      simp [hxr, hxid]
  · intro hnone
    have hzero : (db.filter fun x =>
        x.ID == id && (x.UserID == requester || x.FriendID == requester)).length = 0 := by
      rw [List.length_eq_zero, List.filter_eq_nil_iff]
      intro x hx hc
      simp only [Bool.and_eq_true, Bool.or_eq_true, beq_iff_eq] at hc
      have := hnone x hx hc.1
      rcases hc.2 with h | h
      · exact this.1 h
      · exact this.2 h
    simp only [DeleteFriend, Delete, Transaction, hzero, if_true]

theorem DeleteFriend_participant_only_witness :
    DeleteFriend [⟨4, 1, 2, 1, 7, 7⟩, ⟨5, 1, 3, 0, 8, 8⟩] 4 2 = ([⟨5, 1, 3, 0, 8, 8⟩], none) ∧
      DeleteFriend [⟨4, 1, 2, 1, 7, 7⟩, ⟨5, 1, 3, 0, 8, 8⟩] 4 3
        = ([⟨4, 1, 2, 1, 7, 7⟩, ⟨5, 1, 3, 0, 8, 8⟩], some FriendError.notFound) :=
  ⟨((DeleteFriend_participant_only [⟨4, 1, 2, 1, 7, 7⟩, ⟨5, 1, 3, 0, 8, 8⟩] 4 2).1
      ⟨4, 1, 2, 1, 7, 7⟩ (by decide) rfl (by decide)).1,
    (DeleteFriend_participant_only [⟨4, 1, 2, 1, 7, 7⟩, ⟨5, 1, 3, 0, 8, 8⟩] 4 3).2
      (by decide)⟩

/-- C15, the code at the failing input: from the empty table, user 1 asks user 2, marks the
row Deleted (status 3), user 2 asks user 1 (a second row is inserted beside the Deleted one),
and user 1 sets the first row back to Pending; the pair of 1 and 2 then has two rows of
status other than 3. -/
theorem runCalls_two_active_rows :
    runCalls [] [FriendCall.addFriend 5 1 2, FriendCall.updateStatus 6 1 1 2 3,
        FriendCall.addFriend 7 2 1, FriendCall.updateStatus 8 1 1 2 0]
        = [⟨1, 1, 2, 0, 5, 8⟩, ⟨2, 2, 1, 0, 7, 7⟩] ∧
      ((runCalls [] [FriendCall.addFriend 5 1 2, FriendCall.updateStatus 6 1 1 2 3,
        FriendCall.addFriend 7 2 1, FriendCall.updateStatus 8 1 1 2 0]).filter
          fun r => pairCond 1 2 r && r.Status != 3).length = 2 := by
  decide

/-! ## The library sort rearranges -/

theorem swapAt_perm {α : Type} (data : List α) (i j : Nat) : (swapAt data i j).Perm data := by
  classical
  unfold swapAt
  cases hi : data[i]? with
  | none => exact List.Perm.refl _
  | some x =>
    cases hj : data[j]? with
    | none => exact List.Perm.refl _
    | some y =>
      simp only
      obtain ⟨hil, hix⟩ := List.getElem?_eq_some_iff.mp hi
      obtain ⟨hjl, hjy⟩ := List.getElem?_eq_some_iff.mp hj
      rw [List.perm_iff_count]
      intro a
      have hjl' : j < (data.set i y).length := by simpa using hjl
      rw [List.count_set _ _ _ _ hjl', List.count_set _ _ _ _ hil]
      have hget : (data.set i y)[j] = y := by
        rw [List.getElem_set]
        split
        · rfl
        · exact hjy
      rw [hget, hix]
      by_cases hxa : x = a
      · have hp : 0 < List.count a data := by
          rw [List.count_pos_iff, ← hxa, ← hix]
          exact List.getElem_mem hil
        by_cases hya : y = a <;> simp [hxa, hya] <;> omega
      · by_cases hya : y = a <;> simp [hxa, hya]

theorem insertionSort_inner_perm {α : Type} (less : α → α → Bool) (a j : Nat) (data : List α) :
    (insertionSort_inner less a j data).Perm data := by
  induction j generalizing data with
  | zero => exact List.Perm.refl _
  | succ j ih =>
    unfold insertionSort_inner
    split
    · exact (ih _).trans (swapAt_perm _ _ _)
    · exact List.Perm.refl _

theorem insertionSort_outer_perm {α : Type} (less : α → α → Bool) (a b n i : Nat)
    (data : List α) : (insertionSort_outer less a b n i data).Perm data := by
  induction n generalizing i data with
  | zero => exact List.Perm.refl _
  | succ n ih =>
    unfold insertionSort_outer
    split
    · exact (ih _ _).trans (insertionSort_inner_perm _ _ _ _)
    · exact List.Perm.refl _

theorem insertionSort_func_perm {α : Type} (less : α → α → Bool) (data : List α) (a b : Nat) :
    (insertionSort_func less data a b).Perm data :=
  insertionSort_outer_perm _ _ _ _ _ _

theorem siftDown_func_perm {α : Type} (less : α → α → Bool) (hi first n root : Nat)
    (data : List α) : (siftDown_func less hi first n root data).Perm data := by
  induction n generalizing root data with
  | zero => exact List.Perm.refl _
  | succ n ih =>
    unfold siftDown_func
    lift_lets
    intros
    split
    · exact List.Perm.refl _
    · split
      · exact List.Perm.refl _
      · exact (ih _ _).trans (swapAt_perm _ _ _)

theorem heapSort_build_perm {α : Type} (less : α → α → Bool) (hi first k : Nat)
    (data : List α) : (heapSort_build less hi first k data).Perm data := by
  induction k generalizing data with
  | zero => exact List.Perm.refl _
  | succ k ih =>
    unfold heapSort_build
    exact (ih _).trans (siftDown_func_perm _ _ _ _ _ _)

theorem heapSort_pop_perm {α : Type} (less : α → α → Bool) (first k : Nat)
    (data : List α) : (heapSort_pop less first k data).Perm data := by
  induction k generalizing data with
  | zero => exact List.Perm.refl _
  | succ k ih =>
    unfold heapSort_pop
    exact (ih _).trans ((siftDown_func_perm _ _ _ _ _ _).trans (swapAt_perm _ _ _))

theorem heapSort_func_perm {α : Type} (less : α → α → Bool) (data : List α) (a b : Nat) :
    (heapSort_func less data a b).Perm data :=
  (heapSort_pop_perm _ _ _ _).trans (heapSort_build_perm _ _ _ _ _)

theorem reverseRange_loop_perm {α : Type} (n i j : Nat) (data : List α) :
    (reverseRange_loop n i j data).Perm data := by
  induction n generalizing i j data with
  | zero => exact List.Perm.refl _
  | succ n ih =>
    unfold reverseRange_loop
    split
    · exact (ih _ _ _).trans (swapAt_perm _ _ _)
    · exact List.Perm.refl _

theorem reverseRange_func_perm {α : Type} (data : List α) (a b : Nat) :
    (reverseRange_func data a b).Perm data :=
  reverseRange_loop_perm _ _ _ _

theorem breakPatterns_loop_perm {α : Type} (a length modulus idx n i random : Nat)
    (data : List α) : (breakPatterns_loop a length modulus idx n i random data).Perm data := by
  induction n generalizing i random data with
  | zero => exact List.Perm.refl _
  | succ n ih =>
    unfold breakPatterns_loop
    lift_lets
    intros
    exact (ih _ _ _).trans (swapAt_perm _ _ _)

theorem breakPatterns_func_perm {α : Type} (data : List α) (a b : Nat) :
    (breakPatterns_func data a b).Perm data := by
  unfold breakPatterns_func
  lift_lets
  intros
  split
  · exact breakPatterns_loop_perm _ _ _ _ _ _ _ _
  · exact List.Perm.refl _

theorem partition_loop_perm {α : Type} (less : α → α → Bool) (a n i j : Nat) (data : List α) :
    (partition_loop less a n i j data).1.Perm data := by
  induction n generalizing i j data with
  | zero => exact List.Perm.refl _
  | succ n ih =>
    unfold partition_loop
    lift_lets
    intros
    split
    · exact List.Perm.refl _
    · exact (ih _ _ _).trans (swapAt_perm _ _ _)

theorem partition_func_perm {α : Type} (less : α → α → Bool) (data : List α) (a b pivot : Nat) :
    (partition_func less data a b pivot).1.Perm data := by
  unfold partition_func
  lift_lets
  intros
  split
  · exact (swapAt_perm _ _ _).trans (swapAt_perm _ _ _)
  · exact (swapAt_perm _ _ _).trans ((partition_loop_perm _ _ _ _ _ _).trans
      ((swapAt_perm _ _ _).trans (swapAt_perm _ _ _)))

theorem partitionEqual_loop_perm {α : Type} (less : α → α → Bool) (a n i j : Nat)
    (data : List α) : (partitionEqual_loop less a n i j data).1.Perm data := by
  induction n generalizing i j data with
  | zero => exact List.Perm.refl _
  | succ n ih =>
    unfold partitionEqual_loop
    lift_lets
    intros
    split
    · exact List.Perm.refl _
    · exact (ih _ _ _).trans (swapAt_perm _ _ _)

theorem partitionEqual_func_perm {α : Type} (less : α → α → Bool) (data : List α)
    (a b pivot : Nat) : (partitionEqual_func less data a b pivot).1.Perm data :=
  (partitionEqual_loop_perm _ _ _ _ _ _).trans (swapAt_perm _ _ _)

theorem partialInsertionSort_shiftLeft_perm {α : Type} (less : α → α → Bool) (j : Nat)
    (data : List α) : (partialInsertionSort_shiftLeft less j data).Perm data := by
  induction j generalizing data with
  | zero => exact List.Perm.refl _
  | succ j ih =>
    unfold partialInsertionSort_shiftLeft
    split
    · exact List.Perm.refl _
    · exact (ih _).trans (swapAt_perm _ _ _)

theorem partialInsertionSort_shiftRight_perm {α : Type} (less : α → α → Bool) (b n j : Nat)
    (data : List α) : (partialInsertionSort_shiftRight less b n j data).Perm data := by
  induction n generalizing j data with
  | zero => exact List.Perm.refl _
  | succ n ih =>
    unfold partialInsertionSort_shiftRight
    split
    · split
      · exact List.Perm.refl _
      · exact (ih _ _).trans (swapAt_perm _ _ _)
    · exact List.Perm.refl _

theorem partialInsertionSort_loop_perm {α : Type} (less : α → α → Bool) (a b steps i : Nat)
    (data : List α) : (partialInsertionSort_loop less a b steps i data).1.Perm data := by
  induction steps generalizing i data with
  | zero => exact List.Perm.refl _
  | succ steps ih =>
    unfold partialInsertionSort_loop
    lift_lets
    extract_lets i' d₁ d₂ d₃
    split
    · exact List.Perm.refl _
    · split
      · exact List.Perm.refl _
      · have h₁ : d₁.Perm data := swapAt_perm _ _ _
        have h₂ : d₂.Perm d₁ := by
          simp only [d₂]
          split
          · exact partialInsertionSort_shiftLeft_perm _ _ _
          · exact List.Perm.refl _
        have h₃ : d₃.Perm d₂ := by
          simp only [d₃]
          split
          · exact partialInsertionSort_shiftRight_perm _ _ _ _ _
          · exact List.Perm.refl _
        exact (ih _ _).trans (h₃.trans (h₂.trans h₁))

theorem partialInsertionSort_func_perm {α : Type} (less : α → α → Bool) (data : List α)
    (a b : Nat) : (partialInsertionSort_func less data a b).1.Perm data :=
  partialInsertionSort_loop_perm _ _ _ _ _ _

theorem pdqsort_func_perm {α : Type} (less : α → α → Bool) (fuel : Nat) (data : List α)
    (a b limit : Nat) (wasBalanced wasPartitioned : Bool) :
    (pdqsort_func less fuel data a b limit wasBalanced wasPartitioned).Perm data := by
  induction fuel generalizing data a b limit wasBalanced wasPartitioned with
  | zero => exact List.Perm.refl _
  | succ fuel ih =>
    unfold pdqsort_func
    lift_lets
    extract_lets length data₁ limit' c data₂ pivot hint s e p mid leftLen rightLen
      balanceThreshold
    split
    · exact insertionSort_func_perm _ _ _ _
    · split
      · exact heapSort_func_perm _ _ _ _
      · have h₁ : data₁.Perm data := by
          simp only [data₁]
          split
          · exact List.Perm.refl _
          · exact breakPatterns_func_perm _ _ _
        have h₂ : data₂.Perm data₁ := by
          simp only [data₂]
          split
          · exact reverseRange_func_perm _ _ _
          · exact List.Perm.refl _
        have h₃ : s.1.Perm data₂ := by
          simp only [s]
          split
          · exact partialInsertionSort_func_perm _ _ _ _
          · exact List.Perm.refl _
        have hs : s.1.Perm data := h₃.trans (h₂.trans h₁)
        split
        · exact hs
        · split
          · exact (ih _ _ _ _ _ _).trans ((partitionEqual_func_perm _ _ _ _ _).trans hs)
          · have hp : p.1.Perm data := (partition_func_perm _ _ _ _ _).trans hs
            split
            · exact (ih _ _ _ _ _ _).trans ((ih _ _ _ _ _ _).trans hp)
            · exact (ih _ _ _ _ _ _).trans ((ih _ _ _ _ _ _).trans hp)

theorem goSortSlice_perm {α : Type} (less : α → α → Bool) (data : List α) :
    (goSortSlice less data).Perm data :=
  pdqsort_func_perm _ _ _ _ _ _ _ _

theorem goSortSlice_rearranges : SortSliceRearranges goSortSlice :=
  fun l => goSortSlice_perm byRecordCountDesc l

theorem SortSliceContract.rearranges {sortSlice : (RankingItem → RankingItem → Bool) →
    List RankingItem → List RankingItem} (h : SortSliceContract sortSlice) :
    SortSliceRearranges sortSlice :=
  fun l => (h l).1

/-! ## The library sort puts the slice in order -/

theorem length_swapAt {α : Type} (data : List α) (i j : Nat) :
    (swapAt data i j).length = data.length := by
  unfold swapAt
  split <;> simp

theorem keyAt_swapAt {α : Type} (key : α → Int) (data : List α) {i j : Nat}
    (hi : i < data.length) (hj : j < data.length) (m : Nat) :
    keyAt key (swapAt data i j) m
      = if m = j then keyAt key data i else if m = i then keyAt key data j
        else keyAt key data m := by
  unfold swapAt keyAt
  rw [List.getElem?_eq_getElem hi, List.getElem?_eq_getElem hj]
  simp only [List.getElem?_set]
  by_cases hmj : m = j
  · subst hmj
    simp [hj]
  · by_cases hmi : m = i
    · subst hmi
      simp [hmj, hi, Ne.symm hmj]
    · simp [hmj, hmi, Ne.symm hmj, Ne.symm hmi]

theorem lessAt_eq_true_iff {α : Type} {less : α → α → Bool} {key : α → Int}
    (hless : ∀ x y, less x y = true ↔ key x < key y) (data : List α) {i j : Nat}
    (hi : i < data.length) (hj : j < data.length) :
    lessAt less data i j = true ↔ keyAt key data i < keyAt key data j := by
  unfold lessAt keyAt
  rw [List.getElem?_eq_getElem hi, List.getElem?_eq_getElem hj]
  exact hless _ _

theorem lessAt_eq_false_iff {α : Type} {less : α → α → Bool} {key : α → Int}
    (hless : ∀ x y, less x y = true ↔ key x < key y) (data : List α) {i j : Nat}
    (hi : i < data.length) (hj : j < data.length) :
    lessAt less data i j = false ↔ keyAt key data j ≤ keyAt key data i := by
  rw [← Bool.not_eq_true, lessAt_eq_true_iff hless data hi hj]
  omega

theorem KeysWithin.refl {α : Type} (key : α → Int) (data : List α) (a b : Nat) :
    KeysWithin key data data a b :=
  ⟨rfl, fun _ _ => rfl, fun i h₁ h₂ => ⟨i, h₁, h₂, rfl⟩⟩

theorem KeysWithin.trans {α : Type} {key : α → Int} {d₁ d₂ d₃ : List α} {a b : Nat}
    (h₁ : KeysWithin key d₁ d₂ a b) (h₂ : KeysWithin key d₂ d₃ a b) :
    KeysWithin key d₁ d₃ a b := by
  refine ⟨h₂.1.trans h₁.1, fun i hi => (h₂.2.1 i hi).trans (h₁.2.1 i hi), fun i hia hib => ?_⟩
  obtain ⟨j, hja, hjb, hj⟩ := h₂.2.2 i hia hib
  obtain ⟨k, hka, hkb, hk⟩ := h₁.2.2 j hja hjb
  exact ⟨k, hka, hkb, hj.trans hk⟩

theorem KeysWithin.mono {α : Type} {key : α → Int} {d₁ d₂ : List α} {a b a' b' : Nat}
    (h : KeysWithin key d₁ d₂ a' b') (ha : a ≤ a') (hb : b' ≤ b) :
    KeysWithin key d₁ d₂ a b := by
  refine ⟨h.1, fun i hi => h.2.1 i (by omega), fun i hia hib => ?_⟩
  by_cases hin : a' ≤ i ∧ i < b'
  · obtain ⟨j, hja, hjb, hj⟩ := h.2.2 i hin.1 hin.2
    exact ⟨j, by omega, by omega, hj⟩
  · exact ⟨i, hia, hib, h.2.1 i (by omega)⟩

theorem KeysWithin.swapAt {α : Type} (key : α → Int) (data : List α) {a b i j : Nat}
    (hb : b ≤ data.length) (hia : a ≤ i) (hib : i < b) (hja : a ≤ j) (hjb : j < b) :
    KeysWithin key data (swapAt data i j) a b := by
  have hi : i < data.length := by omega
  have hj : j < data.length := by omega
  refine ⟨length_swapAt _ _ _, fun m hm => ?_, fun m hma hmb => ?_⟩
  · rw [keyAt_swapAt key data hi hj]
    have h₁ : m ≠ j := by omega
    have h₂ : m ≠ i := by omega
    simp [h₁, h₂]
  · rw [keyAt_swapAt key data hi hj]
    by_cases h₁ : m = j
    · exact ⟨i, hia, hib, by rw [if_pos h₁]⟩
    · by_cases h₂ : m = i
      · exact ⟨j, hja, hjb, by rw [if_neg h₁, if_pos h₂]⟩
      · exact ⟨m, hma, hmb, by rw [if_neg h₁, if_neg h₂]⟩

theorem KeysWithin.lower {α : Type} {key : α → Int} {d₁ d₂ : List α} {a b : Nat}
    (h : KeysWithin key d₁ d₂ a b) {c : Int}
    (hc : ∀ i, a ≤ i → i < b → c ≤ keyAt key d₁ i) :
    ∀ i, a ≤ i → i < b → c ≤ keyAt key d₂ i := by
  intro i hia hib
  obtain ⟨j, hja, hjb, hj⟩ := h.2.2 i hia hib
  rw [hj]
  exact hc j hja hjb

theorem KeysWithin.upper {α : Type} {key : α → Int} {d₁ d₂ : List α} {a b : Nat}
    (h : KeysWithin key d₁ d₂ a b) {c : Int}
    (hc : ∀ i, a ≤ i → i < b → keyAt key d₁ i ≤ c) :
    ∀ i, a ≤ i → i < b → keyAt key d₂ i ≤ c := by
  intro i hia hib
  obtain ⟨j, hja, hjb, hj⟩ := h.2.2 i hia hib
  rw [hj]
  exact hc j hja hjb

theorem KeysWithin.aboveLeft {α : Type} {key : α → Int} {d₁ d₂ : List α} {a b : Nat}
    (h : KeysWithin key d₁ d₂ a b) (hpre : AboveLeft key d₁ a b) : AboveLeft key d₂ a b := by
  intro ha
  rw [h.2.1 (a - 1) (by omega)]
  exact h.lower (hpre ha)

/-- The inner loop of insertion sort: when `data[a:e+1]` without position `j` is in order
and `data[j]` is not above the later ones, the loop from `j` puts `data[a:e+1]` in order. -/
theorem insertionSort_inner_sorted {α : Type} {less : α → α → Bool} {key : α → Int}
    (hless : ∀ x y, less x y = true ↔ key x < key y) (a e : Nat) (j : Nat) (data : List α)
    (haj : a ≤ j) (hje : j ≤ e) (he : e < data.length)
    (hrest : ∀ p q, a ≤ p → p < q → q ≤ e → p ≠ j → q ≠ j →
      keyAt key data p ≤ keyAt key data q)
    (hright : ∀ q, j < q → q ≤ e → keyAt key data j ≤ keyAt key data q) :
    KeysWithin key data (insertionSort_inner less a j data) a (e + 1) ∧
      SortedOn key (insertionSort_inner less a j data) a (e + 1) := by
  induction j generalizing data with
  | zero =>
    refine ⟨KeysWithin.refl _ _ _ _, ?_⟩
    intro p q hp hpq hq
    by_cases hp0 : p = 0
    · subst hp0
      exact hright q hpq (by omega)
    · exact hrest p q hp hpq (by omega) hp0 (by omega)
  | succ j ih =>
    unfold insertionSort_inner
    have hj1 : j + 1 < data.length := by omega
    have hj0 : j < data.length := by omega
    by_cases hcond : a < j + 1 ∧ lessAt less data (j + 1) j = true
    · rw [if_pos hcond]
      have hlt := (lessAt_eq_true_iff hless data hj1 hj0).mp hcond.2
      have hkw : KeysWithin key data (swapAt data (j + 1) j) a (e + 1) :=
        KeysWithin.swapAt key data (by omega) (by omega) (by omega) (by omega) (by omega)
      have hsw := keyAt_swapAt key data hj1 hj0
      have := ih (swapAt data (j + 1) j) (by omega) (by omega)
        (by rw [length_swapAt]; exact he)
        (by
          intro p q hp hpq hq hpj hqj
          rw [hsw, hsw]
          simp only [hpj, hqj, if_false]
          by_cases hq1 : q = j + 1
          · subst hq1
            simp only [if_true]
            by_cases hp1 : p = j + 1
            · omega
            · simp only [hp1, if_false]
              exact hrest p j hp (by omega) (by omega) hp1 (by omega)
          · simp only [hq1, if_false]
            by_cases hp1 : p = j + 1
            · subst hp1
              simp only [if_true]
              exact hrest j q (by omega) (by omega) hq (by omega) hq1
            · simp only [hp1, if_false]
              exact hrest p q hp hpq hq hp1 hq1)
        (by
          intro q hjq hq
          rw [hsw, hsw]
          simp only [if_true]
          by_cases hq1 : q = j + 1
          · subst hq1
            simp only [show j + 1 ≠ j by omega, if_false, if_true]
            omega
          · simp only [show q ≠ j by omega, hq1, if_false]
            exact hright q (by omega) hq)
      exact ⟨hkw.trans this.1, this.2⟩
    · rw [if_neg hcond]
      refine ⟨KeysWithin.refl _ _ _ _, ?_⟩
      intro p q hp hpq hq
      by_cases hp1 : p = j + 1
      · subst hp1
        exact hright q hpq (by omega)
      · by_cases hq1 : q = j + 1
        · subst hq1
          have haj' : a < j + 1 := by omega
          have hle : keyAt key data j ≤ keyAt key data (j + 1) := by
            have hf : lessAt less data (j + 1) j = false := by
              cases h : lessAt less data (j + 1) j
              · rfl
              · exact absurd ⟨haj', h⟩ hcond
            exact (lessAt_eq_false_iff hless data hj1 hj0).mp hf
          by_cases hpj : p = j
          · subst hpj
            exact hle
          · exact le_trans (hrest p j hp (by omega) (by omega) hp1 (by omega)) hle
        · exact hrest p q hp hpq (by omega) hp1 hq1

theorem insertionSort_outer_sorted {α : Type} {less : α → α → Bool} {key : α → Int}
    (hless : ∀ x y, less x y = true ↔ key x < key y) (a b n i : Nat) (data : List α)
    (hai : a < i) (hib : i ≤ b) (hb : b ≤ data.length) (hfuel : b ≤ i + n)
    (hsorted : SortedOn key data a i) :
    KeysWithin key data (insertionSort_outer less a b n i data) a b ∧
      SortedOn key (insertionSort_outer less a b n i data) a b := by
  induction n generalizing i data with
  | zero =>
    have : i = b := by omega
    subst this
    exact ⟨KeysWithin.refl _ _ _ _, hsorted⟩
  | succ n ih =>
    unfold insertionSort_outer
    by_cases hlt : i < b
    · rw [if_pos hlt]
      have hin := insertionSort_inner_sorted hless a i i data (by omega) (le_refl _) (by omega)
        (fun p q hp hpq hq _ hqi => hsorted p q hp hpq (by omega))
        (fun q hq₁ hq₂ => by omega)
      have := ih (i + 1) (insertionSort_inner less a i data) (by omega) (by omega)
        (by rw [hin.1.1]; exact hb) (by omega) hin.2
      exact ⟨(hin.1.mono (le_refl _) (by omega)).trans this.1, this.2⟩
    · rw [if_neg hlt]
      have : i = b := by omega
      subst this
      exact ⟨KeysWithin.refl _ _ _ _, hsorted⟩

theorem insertionSort_func_sorted {α : Type} {less : α → α → Bool} {key : α → Int}
    (hless : ∀ x y, less x y = true ↔ key x < key y) (data : List α) (a b : Nat)
    (hab : a ≤ b) (hb : b ≤ data.length) :
    KeysWithin key data (insertionSort_func less data a b) a b ∧
      SortedOn key (insertionSort_func less data a b) a b := by
  unfold insertionSort_func
  by_cases h : a = b
  · subst h
    simp only [Nat.sub_self, insertionSort_outer]
    exact ⟨KeysWithin.refl _ _ _ _, fun p q hp hpq hq => by omega⟩
  · exact insertionSort_outer_sorted hless a b (b - a) (a + 1) data (by omega) (by omega) hb
      (by omega) (fun p q hp hpq hq => by omega)

theorem keyAt_swapAt_add {α : Type} (key : α → Int) (data : List α) (first : Nat) {i j : Nat}
    (hi : first + i < data.length) (hj : first + j < data.length) (m : Nat) :
    keyAt key (swapAt data (first + i) (first + j)) (first + m)
      = if m = j then keyAt key data (first + i) else if m = i then keyAt key data (first + j)
        else keyAt key data (first + m) := by
  rw [keyAt_swapAt key data hi hj]
  by_cases h₁ : m = j
  · rw [if_pos h₁, if_pos (by omega)]
  · rw [if_neg h₁, if_neg (by omega)]
    by_cases h₂ : m = i
    · rw [if_pos h₂, if_pos (by omega)]
    · rw [if_neg h₂, if_neg (by omega)]

/-- The child `siftDown_func` compares the root with: the one of greater key. -/
theorem siftDown_child {α : Type} {less : α → α → Bool} {key : α → Int}
    (hless : ∀ x y, less x y = true ↔ key x < key y) (data : List α) (hi first root : Nat)
    (hlen : first + hi ≤ data.length) (hchild : 2 * root + 1 < hi) :
    ∃ child,
      (if 2 * root + 1 + 1 < hi ∧
          lessAt less data (first + (2 * root + 1)) (first + (2 * root + 1) + 1) = true then
        2 * root + 1 + 1 else 2 * root + 1) = child ∧
      (child = 2 * root + 1 ∨ child = 2 * root + 2) ∧ child < hi ∧
      keyAt key data (first + (2 * root + 1)) ≤ keyAt key data (first + child) ∧
      (2 * root + 2 < hi →
        keyAt key data (first + (2 * root + 2)) ≤ keyAt key data (first + child)) := by
  by_cases hc : 2 * root + 1 + 1 < hi ∧
      lessAt less data (first + (2 * root + 1)) (first + (2 * root + 1) + 1) = true
  · refine ⟨2 * root + 2, by rw [if_pos hc], Or.inr rfl, by omega, ?_, fun _ => le_refl _⟩
    have := (lessAt_eq_true_iff hless data (by omega) (by omega)).mp hc.2
    have he : first + (2 * root + 1) + 1 = first + (2 * root + 2) := by omega
    rw [he] at this
    omega
  · refine ⟨2 * root + 1, by rw [if_neg hc], Or.inl rfl, by omega, le_refl _, fun h2 => ?_⟩
    have hf : lessAt less data (first + (2 * root + 1)) (first + (2 * root + 1) + 1) = false := by
      cases h : lessAt less data (first + (2 * root + 1)) (first + (2 * root + 1) + 1)
      · rfl
      · exact absurd ⟨by omega, h⟩ hc
    have := (lessAt_eq_false_iff hless data (by omega) (by omega)).mp hf
    have he : first + (2 * root + 1) + 1 = first + (2 * root + 2) := by omega
    rw [he] at this
    exact this

/-- The function `siftDown_func` restores the heap order from `lo` on, when only the node
`root` may be below its children. -/
theorem siftDown_func_heap {α : Type} {less : α → α → Bool} {key : α → Int}
    (hless : ∀ x y, less x y = true ↔ key x < key y) (hi first lo : Nat) (n root : Nat)
    (data : List α) (hlen : first + hi ≤ data.length) (hfuel : hi ≤ root + n)
    (hlo : lo ≤ root)
    (h1 : ∀ c, 1 ≤ c → c < hi → lo ≤ (c - 1) / 2 → (c - 1) / 2 ≠ root →
      keyAt key data (first + c) ≤ keyAt key data (first + (c - 1) / 2))
    (h2 : 1 ≤ root → lo ≤ (root - 1) / 2 → ∀ c, c < hi → (c = 2 * root + 1 ∨ c = 2 * root + 2) →
      keyAt key data (first + c) ≤ keyAt key data (first + (root - 1) / 2)) :
    KeysWithin key data (siftDown_func less hi first n root data) first (first + hi) ∧
      HeapOn key (siftDown_func less hi first n root data) first lo hi := by
  induction n generalizing root data with
  | zero =>
    refine ⟨KeysWithin.refl _ _ _ _, ?_⟩
    intro c hc1 hc2 hc3
    exact h1 c hc1 hc2 hc3 (by omega)
  | succ n ih =>
    unfold siftDown_func
    simp only
    by_cases hch : 2 * root + 1 ≥ hi
    · rw [if_pos hch]
      refine ⟨KeysWithin.refl _ _ _ _, ?_⟩
      intro c hc1 hc2 hc3
      exact h1 c hc1 hc2 hc3 (by omega)
    · rw [if_neg hch]
      obtain ⟨child, hceq, hcases, hclt, hleft, hright⟩ :=
        siftDown_child hless data hi first root hlen (by omega)
      rw [hceq]
      by_cases hl : lessAt less data (first + root) (first + child) = false
      · rw [if_pos hl]
        have hle := (lessAt_eq_false_iff hless data (by omega) (by omega)).mp hl
        refine ⟨KeysWithin.refl _ _ _ _, ?_⟩
        intro c hc1 hc2 hc3
        by_cases hpar : (c - 1) / 2 = root
        · rw [hpar]
          have hcc : c = 2 * root + 1 ∨ c = 2 * root + 2 := by omega
          rcases hcc with hcc | hcc
          · rw [hcc]
            omega
          · rw [hcc]
            have := hright (by omega)
            omega
        · exact h1 c hc1 hc2 hc3 hpar
      · rw [if_neg hl]
        have hlt : keyAt key data (first + root) < keyAt key data (first + child) := by
          have : lessAt less data (first + root) (first + child) = true := by
            cases h : lessAt less data (first + root) (first + child)
            · exact absurd h hl
            · rfl
          exact (lessAt_eq_true_iff hless data (by omega) (by omega)).mp this
        have hsw := keyAt_swapAt_add key data first (show first + root < data.length by omega)
          (show first + child < data.length by omega)
        have hkw : KeysWithin key data (swapAt data (first + root) (first + child)) first
            (first + hi) :=
          KeysWithin.swapAt key data hlen (by omega) (by omega) (by omega) (by omega)
        have := ih child (swapAt data (first + root) (first + child))
          (by rw [length_swapAt]; exact hlen) (by omega) (by omega)
          (by
            intro c hc1 hc2 hc3 hc4
            rw [hsw, hsw]
            by_cases hpar : (c - 1) / 2 = root
            · rw [hpar]
              simp only [show root ≠ child by omega, if_false, if_true]
              by_cases hcc : c = child
              · rw [if_pos hcc]
                omega
              · rw [if_neg hcc, if_neg (by omega)]
                have hc' : c = 2 * root + 1 ∨ c = 2 * root + 2 := by omega
                rcases hc' with hc' | hc'
                · rw [hc']
                  exact hleft
                · rw [hc']
                  exact hright (by omega)
            · rw [if_neg hc4, if_neg hpar, if_neg (show c ≠ child by omega)]
              by_cases hcr : c = root
              · rw [if_pos hcr]
                have := h2 (by omega) (by rw [← hcr]; exact hc3) child hclt hcases
                rw [hcr]
                exact this
              · rw [if_neg hcr]
                exact h1 c hc1 hc2 hc3 hpar)
          (by
            intro _ _ c hc2 hcc
            rw [hsw, hsw]
            have hpc : (child - 1) / 2 = root := by omega
            rw [hpc]
            simp only [show root ≠ child by omega, if_false, if_true]
            rw [if_neg (show c ≠ child by omega), if_neg (show c ≠ root by omega)]
            have := h1 c (by omega) hc2 (by omega) (by omega)
            have hpc' : (c - 1) / 2 = child := by omega
            rw [hpc'] at this
            exact this)
        exact ⟨hkw.trans this.1, this.2⟩

theorem heapSort_build_heap {α : Type} {less : α → α → Bool} {key : α → Int}
    (hless : ∀ x y, less x y = true ↔ key x < key y) (hi first i : Nat) (data : List α)
    (hlen : first + hi ≤ data.length) (hheap : HeapOn key data first i hi) :
    KeysWithin key data (heapSort_build less hi first i data) first (first + hi) ∧
      HeapOn key (heapSort_build less hi first i data) first 0 hi := by
  induction i generalizing data with
  | zero => exact ⟨KeysWithin.refl _ _ _ _, hheap⟩
  | succ i ih =>
    unfold heapSort_build
    have hs := siftDown_func_heap hless hi first i hi i data hlen (by omega) (le_refl _)
      (fun c hc1 hc2 hc3 hc4 => hheap c hc1 hc2 (by omega))
      (fun h1 h2 => by omega)
    have := ih (siftDown_func less hi first hi i data) (by rw [hs.1.1]; exact hlen) hs.2
    exact ⟨hs.1.trans this.1, this.2⟩

theorem HeapOn.root_max {α : Type} {key : α → Int} {data : List α} {first hi : Nat}
    (h : HeapOn key data first 0 hi) (c : Nat) (hc : c < hi) :
    keyAt key data (first + c) ≤ keyAt key data (first + 0) := by
  induction c using Nat.strong_induction_on with
  | _ c ih =>
    by_cases hc0 : c = 0
    · subst hc0
      exact le_refl _
    · exact le_trans (h c (by omega) hc (Nat.zero_le _)) (ih ((c - 1) / 2) (by omega) (by omega))

theorem heapSort_pop_sorted {α : Type} {less : α → α → Bool} {key : α → Int}
    (hless : ∀ x y, less x y = true ↔ key x < key y) (hi first i : Nat) (data : List α)
    (hi_le : i ≤ hi) (hlen : first + hi ≤ data.length) (hheap : HeapOn key data first 0 i)
    (hsorted : SortedOn key data (first + i) (first + hi))
    (hcross : ∀ p q, p < i → i ≤ q → q < hi →
      keyAt key data (first + p) ≤ keyAt key data (first + q)) :
    KeysWithin key data (heapSort_pop less first i data) first (first + hi) ∧
      SortedOn key (heapSort_pop less first i data) first (first + hi) := by
  induction i generalizing data with
  | zero => exact ⟨KeysWithin.refl _ _ _ _, by simpa using hsorted⟩
  | succ i ih =>
    unfold heapSort_pop
    have hsw := keyAt_swapAt_add key data first (show first + 0 < data.length by omega)
      (show first + i < data.length by omega)
    have hkw : KeysWithin key data (swapAt data first (first + i)) first (first + hi) :=
      KeysWithin.swapAt key data hlen (by omega) (by omega) (by omega) (by omega)
    have hlen' : first + hi ≤ (swapAt data first (first + i)).length := by
      rw [length_swapAt]; exact hlen
    have hmax := hheap.root_max
    simp only [Nat.add_zero] at hsw hmax
    have hs := siftDown_func_heap hless i first 0 i 0 (swapAt data first (first + i))
      (by omega) (by omega) (le_refl _)
      (by
        intro c hc1 hc2 _ hc4
        rw [hsw, hsw, if_neg (show c ≠ i by omega), if_neg (show c ≠ 0 by omega),
          if_neg (show (c - 1) / 2 ≠ i by omega), if_neg (show (c - 1) / 2 ≠ 0 by omega)]
        exact hheap c hc1 (by omega) (Nat.zero_le _))
      (fun h1 => by omega)
    have hout : ∀ q, i ≤ q → keyAt key (siftDown_func less i first i 0
        (swapAt data first (first + i))) (first + q)
          = keyAt key (swapAt data first (first + i)) (first + q) :=
      fun q hq => hs.1.2.1 (first + q) (Or.inr (by omega))
    have hin : ∀ p, p < i → ∃ p', p' < i + 1 ∧ keyAt key (siftDown_func less i first i 0
        (swapAt data first (first + i))) (first + p) = keyAt key data (first + p') := by
      intro p hp
      obtain ⟨j, hj1, hj2, hj3⟩ := hs.1.2.2 (first + p) (by omega) (by omega)
      obtain ⟨j', rfl⟩ : ∃ j', j = first + j' := ⟨j - first, by omega⟩
      have hji : j' ≠ i := by omega
      rw [hj3, hsw, if_neg hji]
      by_cases h0 : j' = 0
      · exact ⟨i, by omega, by rw [if_pos h0]⟩
      · exact ⟨j', by omega, by rw [if_neg h0]⟩
    have := ih (siftDown_func less i first i 0 (swapAt data first (first + i))) (by omega)
      (by rw [hs.1.1]; exact hlen') hs.2
      (by
        intro p q hp hpq hq
        obtain ⟨p', rfl⟩ : ∃ p', p = first + p' := ⟨p - first, by omega⟩
        obtain ⟨q', rfl⟩ : ∃ q', q = first + q' := ⟨q - first, by omega⟩
        have hqi : q' ≠ i := by omega
        have hq0 : q' ≠ 0 := by omega
        rw [hout p' (by omega), hout q' (by omega), hsw, hsw, if_neg hqi, if_neg hq0]
        by_cases hpi : p' = i
        · rw [if_pos hpi]
          exact hcross 0 q' (by omega) (by omega) (by omega)
        · have hp0 : p' ≠ 0 := by omega
          rw [if_neg hpi, if_neg hp0]
          exact hsorted _ _ (by omega) hpq hq)
      (by
        intro p q hp hq1 hq2
        obtain ⟨p', hp', hpe⟩ := hin p hp
        rw [hpe, hout q hq1, hsw]
        by_cases hqi : q = i
        · rw [if_pos hqi]
          exact hmax p' hp'
        · have hq0 : q ≠ 0 := by omega
          rw [if_neg hqi, if_neg hq0]
          exact hcross p' q hp' (by omega) hq2)
    exact ⟨(hkw.trans (hs.1.mono (le_refl _) (by omega))).trans this.1, this.2⟩

theorem heapSort_func_sorted {α : Type} {less : α → α → Bool} {key : α → Int}
    (hless : ∀ x y, less x y = true ↔ key x < key y) (data : List α) (a b : Nat)
    (hab : a ≤ b) (hb : b ≤ data.length) :
    KeysWithin key data (heapSort_func less data a b) a b ∧
      SortedOn key (heapSort_func less data a b) a b := by
  unfold heapSort_func
  simp only
  have hab' : a + (b - a) = b := by omega
  have hbuild := heapSort_build_heap hless (b - a) a ((b - a - 1) / 2 + 1) data (by omega)
    (fun c hc1 hc2 hc3 => by omega)
  have hpop := heapSort_pop_sorted hless (b - a) a (b - a)
    (heapSort_build less (b - a) a ((b - a - 1) / 2 + 1) data) (le_refl _)
    (by rw [hbuild.1.1]; omega) hbuild.2 (fun p q hp hpq hq => by omega)
    (fun p q hp hq1 hq2 => by omega)
  rw [hab'] at hbuild hpop
  exact ⟨hbuild.1.trans hpop.1, hpop.2⟩

theorem bool_eq_false_of_not_true {b : Bool} (h : ¬ b = true) : b = false := by
  cases b
  · rfl
  · exact absurd rfl h

theorem partition_scanUp_spec {α : Type} {less : α → α → Bool} {key : α → Int}
    (hless : ∀ x y, less x y = true ↔ key x < key y) (data : List α) (a j n i : Nat)
    (ha : a < data.length) (hj : j < data.length) (hij : i ≤ j + 1) (hfuel : j + 1 ≤ i + n) :
    i ≤ partition_scanUp less data a j n i ∧ partition_scanUp less data a j n i ≤ j + 1 ∧
      (∀ m, i ≤ m → m < partition_scanUp less data a j n i →
        keyAt key data m < keyAt key data a) ∧
      (partition_scanUp less data a j n i ≤ j →
        keyAt key data a ≤ keyAt key data (partition_scanUp less data a j n i)) := by
  induction n generalizing i with
  | zero =>
    unfold partition_scanUp
    exact ⟨le_refl _, hij, fun m h₁ h₂ => by omega, fun h => by omega⟩
  | succ n ih =>
    unfold partition_scanUp
    by_cases hc : i ≤ j ∧ lessAt less data i a = true
    · rw [if_pos hc]
      have hlt := (lessAt_eq_true_iff hless data (by omega) ha).mp hc.2
      obtain ⟨h₁, h₂, h₃, h₄⟩ := ih (i + 1) (by omega) (by omega)
      refine ⟨by omega, h₂, fun m hm₁ hm₂ => ?_, h₄⟩
      by_cases hmi : m = i
      · rw [hmi]
        exact hlt
      · exact h₃ m (by omega) hm₂
    · rw [if_neg hc]
      refine ⟨le_refl _, hij, fun m h₁ h₂ => by omega, fun h => ?_⟩
      have hf : lessAt less data i a = false :=
        bool_eq_false_of_not_true fun h' => hc ⟨h, h'⟩
      exact (lessAt_eq_false_iff hless data (by omega) ha).mp hf

theorem partition_scanDown_spec {α : Type} {less : α → α → Bool} {key : α → Int}
    (hless : ∀ x y, less x y = true ↔ key x < key y) (data : List α) (a i n j : Nat)
    (ha : a < data.length) (hj : j < data.length) (hi : 1 ≤ i) (hij : i ≤ j + 1)
    (hfuel : j + 1 ≤ i + n) :
    partition_scanDown less data a i n j ≤ j ∧ i ≤ partition_scanDown less data a i n j + 1 ∧
      (∀ m, partition_scanDown less data a i n j < m → m ≤ j →
        keyAt key data a ≤ keyAt key data m) ∧
      (i ≤ partition_scanDown less data a i n j →
        keyAt key data (partition_scanDown less data a i n j) < keyAt key data a) := by
  induction n generalizing j with
  | zero =>
    unfold partition_scanDown
    exact ⟨le_refl _, hij, fun m h₁ h₂ => by omega, fun h => by omega⟩
  | succ n ih =>
    unfold partition_scanDown
    by_cases hc : i ≤ j ∧ lessAt less data j a = false
    · rw [if_pos hc]
      have hle := (lessAt_eq_false_iff hless data hj ha).mp hc.2
      obtain ⟨h₁, h₂, h₃, h₄⟩ := ih (j - 1) (by omega) (by omega) (by omega)
      refine ⟨by omega, h₂, fun m hm₁ hm₂ => ?_, h₄⟩
      by_cases hmj : m = j
      · rw [hmj]
        exact hle
      · exact h₃ m hm₁ (by omega)
    · rw [if_neg hc]
      refine ⟨le_refl _, hij, fun m h₁ h₂ => by omega, fun h => ?_⟩
      have ht : lessAt less data j a = true := by
        cases h' : lessAt less data j a
        · exact absurd ⟨h, h'⟩ hc
        · rfl
      exact (lessAt_eq_true_iff hless data hj ha).mp ht

theorem partition_loop_spec {α : Type} {less : α → α → Bool} {key : α → Int}
    (hless : ∀ x y, less x y = true ↔ key x < key y) (a b n i j : Nat) (data : List α)
    (hb : b ≤ data.length) (hai : a + 1 ≤ i) (hij : i ≤ j + 1) (hjb : j < b)
    (hfuel : j + 1 ≤ i + n)
    (hleft : ∀ m, a < m → m < i → keyAt key data m < keyAt key data a)
    (hright : ∀ m, j < m → m < b → keyAt key data a ≤ keyAt key data m) :
    KeysWithin key data (partition_loop less a n i j data).1 (a + 1) b ∧
      a ≤ (partition_loop less a n i j data).2 ∧ (partition_loop less a n i j data).2 < b ∧
      (∀ m, a < m → m ≤ (partition_loop less a n i j data).2 →
        keyAt key (partition_loop less a n i j data).1 m
          < keyAt key (partition_loop less a n i j data).1 a) ∧
      (∀ m, (partition_loop less a n i j data).2 < m → m < b →
        keyAt key (partition_loop less a n i j data).1 a
          ≤ keyAt key (partition_loop less a n i j data).1 m) := by
  induction n generalizing i j data with
  | zero =>
    unfold partition_loop
    exact ⟨KeysWithin.refl _ _ _ _, by omega, hjb, fun m h₁ h₂ => hleft m h₁ (by omega), hright⟩
  | succ n ih =>
    unfold partition_loop
    simp only
    obtain ⟨u₁, u₂, u₃, u₄⟩ := partition_scanUp_spec hless data a j (j + 1 - i) i (by omega)
      (by omega) hij (by omega)
    generalize partition_scanUp less data a j (j + 1 - i) i = i' at u₁ u₂ u₃ u₄ ⊢
    obtain ⟨d₁, d₂, d₃, d₄⟩ := partition_scanDown_spec hless data a i' (j + 1 - i') j (by omega)
      (by omega) (by omega) u₂ (by omega)
    generalize partition_scanDown less data a i' (j + 1 - i') j = j' at d₁ d₂ d₃ d₄ ⊢
    have hleft' : ∀ m, a < m → m < i' → keyAt key data m < keyAt key data a := by
      intro m h₁ h₂
      by_cases hm : m < i
      · exact hleft m h₁ hm
      · exact u₃ m (by omega) h₂
    have hright' : ∀ m, j' < m → m < b → keyAt key data a ≤ keyAt key data m := by
      intro m h₁ h₂
      by_cases hm : j < m
      · exact hright m hm h₂
      · exact d₃ m h₁ (by omega)
    by_cases hgt : i' > j'
    · rw [if_pos hgt]
      exact ⟨KeysWithin.refl _ _ _ _, by omega, by omega,
        fun m h₁ h₂ => hleft' m h₁ (by omega), hright'⟩
    · rw [if_neg hgt]
      have hki := u₄ (by omega)
      have hkj := d₄ (by omega)
      have hne : i' ≠ j' := by
        intro h
        rw [h] at hki
        omega
      have hsw := keyAt_swapAt key data (show i' < data.length by omega)
        (show j' < data.length by omega)
      have hkw : KeysWithin key data (swapAt data i' j') (a + 1) b :=
        KeysWithin.swapAt key data hb (by omega) (by omega) (by omega) (by omega)
      have hka : keyAt key (swapAt data i' j') a = keyAt key data a :=
        hkw.2.1 a (Or.inl (by omega))
      have := ih (i' + 1) (j' - 1) (swapAt data i' j') (by rw [length_swapAt]; exact hb)
        (by omega) (by omega) (by omega) (by omega)
        (by
          intro m h₁ h₂
          rw [hka, hsw, if_neg (show m ≠ j' by omega)]
          by_cases hm : m = i'
          · rw [if_pos hm]
            exact hkj
          · rw [if_neg hm]
            exact hleft' m h₁ (by omega))
        (by
          intro m h₁ h₂
          rw [hka, hsw]
          by_cases hm : m = j'
          · rw [if_pos hm]
            exact hki
          · rw [if_neg hm, if_neg (show m ≠ i' by omega)]
            exact hright' m (by omega) h₂)
      exact ⟨hkw.trans this.1, this.2⟩

/-- The function `partition_func`: the slice keeps its keys within `[a, b)`, and around the
returned index `mid` the keys before are not above and the keys after not below the key at
`mid`. -/
theorem partition_func_spec {α : Type} {less : α → α → Bool} {key : α → Int}
    (hless : ∀ x y, less x y = true ↔ key x < key y) (data : List α) (a b pivot : Nat)
    (hb : b ≤ data.length) (hap : a ≤ pivot) (hpb : pivot < b) :
    KeysWithin key data (partition_func less data a b pivot).1 a b ∧
      a ≤ (partition_func less data a b pivot).2.1 ∧
      (partition_func less data a b pivot).2.1 < b ∧
      (∀ m, a ≤ m → m < (partition_func less data a b pivot).2.1 →
        keyAt key (partition_func less data a b pivot).1 m
          ≤ keyAt key (partition_func less data a b pivot).1
              (partition_func less data a b pivot).2.1) ∧
      (∀ m, (partition_func less data a b pivot).2.1 < m → m < b →
        keyAt key (partition_func less data a b pivot).1
            (partition_func less data a b pivot).2.1
          ≤ keyAt key (partition_func less data a b pivot).1 m) := by
  unfold partition_func
  simp only
  have hkw₀ : KeysWithin key data (swapAt data a pivot) a b :=
    KeysWithin.swapAt key data hb (le_refl _) (by omega) hap hpb
  have hlen₀ : b ≤ (swapAt data a pivot).length := by rw [length_swapAt]; exact hb
  generalize swapAt data a pivot = d₀ at hkw₀ hlen₀ ⊢
  obtain ⟨u₁, u₂, u₃, u₄⟩ := partition_scanUp_spec hless d₀ a (b - 1) (b - a) (a + 1) (by omega)
    (by omega) (by omega) (by omega)
  generalize partition_scanUp less d₀ a (b - 1) (b - a) (a + 1) = i at u₁ u₂ u₃ u₄ ⊢
  obtain ⟨d₁, d₂, d₃, d₄⟩ := partition_scanDown_spec hless d₀ a i (b - a) (b - 1) (by omega)
    (by omega) (by omega) (by omega) (by omega)
  generalize partition_scanDown less d₀ a i (b - a) (b - 1) = j at d₁ d₂ d₃ d₄ ⊢
  have finish : ∀ (d : List α) (jf : Nat), b ≤ d.length → a ≤ jf → jf < b →
      (∀ m, a < m → m ≤ jf → keyAt key d m < keyAt key d a) →
      (∀ m, jf < m → m < b → keyAt key d a ≤ keyAt key d m) →
      KeysWithin key d (swapAt d jf a) a b ∧
        (∀ m, a ≤ m → m < jf → keyAt key (swapAt d jf a) m ≤ keyAt key (swapAt d jf a) jf) ∧
        (∀ m, jf < m → m < b → keyAt key (swapAt d jf a) jf ≤ keyAt key (swapAt d jf a) m) := by
    intro d jf hd hajf hjfb hl hr
    have hsw := keyAt_swapAt key d (show jf < d.length by omega) (show a < d.length by omega)
    refine ⟨KeysWithin.swapAt key d hd hajf hjfb (le_refl _) (by omega), ?_, ?_⟩
    · intro m h₁ h₂
      rw [hsw, hsw]
      by_cases hja : jf = a
      · omega
      · rw [if_neg hja, if_pos rfl]
        by_cases hm : m = a
        · rw [if_pos hm]
          exact le_of_lt (hl jf (by omega) (le_refl _))
        · rw [if_neg hm, if_neg (show m ≠ jf by omega)]
          exact le_of_lt (hl m (by omega) (by omega))
    · intro m h₁ h₂
      rw [hsw, hsw]
      rw [if_neg (show m ≠ a by omega), if_neg (show m ≠ jf by omega)]
      by_cases hja : jf = a
      · rw [if_pos hja]
        have := hr m h₁ h₂
        rw [hja]
        exact this
      · rw [if_neg hja, if_pos rfl]
        exact hr m h₁ h₂
  by_cases hgt : i > j
  · rw [if_pos hgt]
    simp only
    have hl : ∀ m, a < m → m ≤ j → keyAt key d₀ m < keyAt key d₀ a :=
      fun m h₁ h₂ => u₃ m (by omega) (by omega)
    have hr : ∀ m, j < m → m < b → keyAt key d₀ a ≤ keyAt key d₀ m :=
      fun m h₁ h₂ => d₃ m h₁ (by omega)
    obtain ⟨f₁, f₂, f₃⟩ := finish d₀ j hlen₀ (by omega) (by omega) hl hr
    exact ⟨hkw₀.trans f₁, by omega, by omega, f₂, f₃⟩
  · rw [if_neg hgt]
    simp only
    have hki := u₄ (by omega)
    have hkj := d₄ (by omega)
    have hne : i ≠ j := by
      intro h
      rw [h] at hki
      omega
    have hsw := keyAt_swapAt key d₀ (show i < d₀.length by omega) (show j < d₀.length by omega)
    have hkw₁ : KeysWithin key d₀ (swapAt d₀ i j) (a + 1) b :=
      KeysWithin.swapAt key d₀ hlen₀ (by omega) (by omega) (by omega) (by omega)
    have hka : keyAt key (swapAt d₀ i j) a = keyAt key d₀ a := hkw₁.2.1 a (Or.inl (by omega))
    have hloop := partition_loop_spec hless a b (b - a) (i + 1) (j - 1) (swapAt d₀ i j)
      (by rw [length_swapAt]; exact hlen₀) (by omega) (by omega) (by omega) (by omega)
      (by
        intro m h₁ h₂
        rw [hka, hsw, if_neg (show m ≠ j by omega)]
        by_cases hm : m = i
        · rw [if_pos hm]
          exact hkj
        · rw [if_neg hm]
          exact u₃ m (by omega) (by omega))
      (by
        intro m h₁ h₂
        rw [hka, hsw]
        by_cases hm : m = j
        · rw [if_pos hm]
          exact hki
        · rw [if_neg hm, if_neg (show m ≠ i by omega)]
          exact d₃ m (by omega) (by omega))
    generalize partition_loop less a (b - a) (i + 1) (j - 1) (swapAt d₀ i j) = r at hloop ⊢
    obtain ⟨l₁, l₂, l₃, l₄, l₅⟩ := hloop
    obtain ⟨f₁, f₂, f₃⟩ := finish r.1 r.2 (by rw [l₁.1, length_swapAt]; exact hlen₀) l₂ l₃ l₄ l₅
    exact ⟨hkw₀.trans (((hkw₁.trans l₁).mono (by omega) (le_refl _)).trans f₁), l₂, l₃, f₂, f₃⟩

theorem partitionEqual_scanUp_spec {α : Type} {less : α → α → Bool} {key : α → Int}
    (hless : ∀ x y, less x y = true ↔ key x < key y) (data : List α) (a j n i : Nat)
    (ha : a < data.length) (hj : j < data.length) (hij : i ≤ j + 1) (hfuel : j + 1 ≤ i + n) :
    i ≤ partitionEqual_scanUp less data a j n i ∧
      partitionEqual_scanUp less data a j n i ≤ j + 1 ∧
      (∀ m, i ≤ m → m < partitionEqual_scanUp less data a j n i →
        keyAt key data m ≤ keyAt key data a) ∧
      (partitionEqual_scanUp less data a j n i ≤ j →
        keyAt key data a < keyAt key data (partitionEqual_scanUp less data a j n i)) := by
  induction n generalizing i with
  | zero =>
    unfold partitionEqual_scanUp
    exact ⟨le_refl _, hij, fun m h₁ h₂ => by omega, fun h => by omega⟩
  | succ n ih =>
    unfold partitionEqual_scanUp
    by_cases hc : i ≤ j ∧ lessAt less data a i = false
    · rw [if_pos hc]
      have hle := (lessAt_eq_false_iff hless data ha (by omega)).mp hc.2
      obtain ⟨h₁, h₂, h₃, h₄⟩ := ih (i + 1) (by omega) (by omega)
      refine ⟨by omega, h₂, fun m hm₁ hm₂ => ?_, h₄⟩
      by_cases hmi : m = i
      · rw [hmi]
        exact hle
      · exact h₃ m (by omega) hm₂
    · rw [if_neg hc]
      refine ⟨le_refl _, hij, fun m h₁ h₂ => by omega, fun h => ?_⟩
      have ht : lessAt less data a i = true := by
        cases h' : lessAt less data a i
        · exact absurd ⟨h, h'⟩ hc
        · rfl
      exact (lessAt_eq_true_iff hless data ha (by omega)).mp ht

theorem partitionEqual_scanDown_spec {α : Type} {less : α → α → Bool} {key : α → Int}
    (hless : ∀ x y, less x y = true ↔ key x < key y) (data : List α) (a i n j : Nat)
    (ha : a < data.length) (hj : j < data.length) (hi : 1 ≤ i) (hij : i ≤ j + 1)
    (hfuel : j + 1 ≤ i + n) :
    partitionEqual_scanDown less data a i n j ≤ j ∧
      i ≤ partitionEqual_scanDown less data a i n j + 1 ∧
      (∀ m, partitionEqual_scanDown less data a i n j < m → m ≤ j →
        keyAt key data a < keyAt key data m) ∧
      (i ≤ partitionEqual_scanDown less data a i n j →
        keyAt key data (partitionEqual_scanDown less data a i n j) ≤ keyAt key data a) := by
  induction n generalizing j with
  | zero =>
    unfold partitionEqual_scanDown
    exact ⟨le_refl _, hij, fun m h₁ h₂ => by omega, fun h => by omega⟩
  | succ n ih =>
    unfold partitionEqual_scanDown
    by_cases hc : i ≤ j ∧ lessAt less data a j = true
    · rw [if_pos hc]
      have hlt := (lessAt_eq_true_iff hless data ha hj).mp hc.2
      obtain ⟨h₁, h₂, h₃, h₄⟩ := ih (j - 1) (by omega) (by omega) (by omega)
      refine ⟨by omega, h₂, fun m hm₁ hm₂ => ?_, h₄⟩
      by_cases hmj : m = j
      · rw [hmj]
        exact hlt
      · exact h₃ m hm₁ (by omega)
    · rw [if_neg hc]
      refine ⟨le_refl _, hij, fun m h₁ h₂ => by omega, fun h => ?_⟩
      have hf : lessAt less data a j = false :=
        bool_eq_false_of_not_true fun h' => hc ⟨h, h'⟩
      exact (lessAt_eq_false_iff hless data ha hj).mp hf

theorem partitionEqual_loop_spec {α : Type} {less : α → α → Bool} {key : α → Int}
    (hless : ∀ x y, less x y = true ↔ key x < key y) (a b n i j : Nat) (data : List α)
    (hb : b ≤ data.length) (hai : a + 1 ≤ i) (hij : i ≤ j + 1) (hjb : j < b)
    (hfuel : j + 1 ≤ i + n)
    (hleft : ∀ m, a < m → m < i → keyAt key data m ≤ keyAt key data a)
    (hright : ∀ m, j < m → m < b → keyAt key data a < keyAt key data m) :
    KeysWithin key data (partitionEqual_loop less a n i j data).1 (a + 1) b ∧
      a < (partitionEqual_loop less a n i j data).2 ∧
      (partitionEqual_loop less a n i j data).2 ≤ b ∧
      (∀ m, a < m → m < (partitionEqual_loop less a n i j data).2 →
        keyAt key (partitionEqual_loop less a n i j data).1 m
          ≤ keyAt key (partitionEqual_loop less a n i j data).1 a) ∧
      (∀ m, (partitionEqual_loop less a n i j data).2 ≤ m → m < b →
        keyAt key (partitionEqual_loop less a n i j data).1 a
          < keyAt key (partitionEqual_loop less a n i j data).1 m) := by
  induction n generalizing i j data with
  | zero =>
    unfold partitionEqual_loop
    exact ⟨KeysWithin.refl _ _ _ _, by omega, by omega, hleft,
      fun m h₁ h₂ => hright m (by omega) h₂⟩
  | succ n ih =>
    unfold partitionEqual_loop
    simp only
    obtain ⟨u₁, u₂, u₃, u₄⟩ := partitionEqual_scanUp_spec hless data a j (j + 1 - i) i
      (by omega) (by omega) hij (by omega)
    generalize partitionEqual_scanUp less data a j (j + 1 - i) i = i' at u₁ u₂ u₃ u₄ ⊢
    obtain ⟨d₁, d₂, d₃, d₄⟩ := partitionEqual_scanDown_spec hless data a i' (j + 1 - i') j
      (by omega) (by omega) (by omega) u₂ (by omega)
    generalize partitionEqual_scanDown less data a i' (j + 1 - i') j = j' at d₁ d₂ d₃ d₄ ⊢
    have hleft' : ∀ m, a < m → m < i' → keyAt key data m ≤ keyAt key data a := by
      intro m h₁ h₂
      by_cases hm : m < i
      · exact hleft m h₁ hm
      · exact u₃ m (by omega) h₂
    have hright' : ∀ m, j' < m → m < b → keyAt key data a < keyAt key data m := by
      intro m h₁ h₂
      by_cases hm : j < m
      · exact hright m hm h₂
      · exact d₃ m h₁ (by omega)
    by_cases hgt : i' > j'
    · rw [if_pos hgt]
      exact ⟨KeysWithin.refl _ _ _ _, by omega, by omega, hleft',
        fun m h₁ h₂ => hright' m (by omega) h₂⟩
    · rw [if_neg hgt]
      have hki := u₄ (by omega)
      have hkj := d₄ (by omega)
      have hne : i' ≠ j' := by
        intro h
        rw [h] at hki
        omega
      have hsw := keyAt_swapAt key data (show i' < data.length by omega)
        (show j' < data.length by omega)
      have hkw : KeysWithin key data (swapAt data i' j') (a + 1) b :=
        KeysWithin.swapAt key data hb (by omega) (by omega) (by omega) (by omega)
      have hka : keyAt key (swapAt data i' j') a = keyAt key data a :=
        hkw.2.1 a (Or.inl (by omega))
      have := ih (i' + 1) (j' - 1) (swapAt data i' j') (by rw [length_swapAt]; exact hb)
        (by omega) (by omega) (by omega) (by omega)
        (by
          intro m h₁ h₂
          rw [hka, hsw, if_neg (show m ≠ j' by omega)]
          by_cases hm : m = i'
          · rw [if_pos hm]
            exact hkj
          · rw [if_neg hm]
            exact hleft' m h₁ (by omega))
        (by
          intro m h₁ h₂
          rw [hka, hsw]
          by_cases hm : m = j'
          · rw [if_pos hm]
            exact hki
          · rw [if_neg hm, if_neg (show m ≠ i' by omega)]
            exact hright' m (by omega) h₂)
      exact ⟨hkw.trans this.1, this.2⟩

/-- The function `partitionEqual_func`: the pivot is moved to `a`; before the returned index
the keys are not above the key of the pivot, from it on they are above. -/
theorem partitionEqual_func_spec {α : Type} {less : α → α → Bool} {key : α → Int}
    (hless : ∀ x y, less x y = true ↔ key x < key y) (data : List α) (a b pivot : Nat)
    (hb : b ≤ data.length) (hap : a ≤ pivot) (hpb : pivot < b) :
    KeysWithin key data (partitionEqual_func less data a b pivot).1 a b ∧
      a < (partitionEqual_func less data a b pivot).2 ∧
      (partitionEqual_func less data a b pivot).2 ≤ b ∧
      (∀ m, a ≤ m → m < (partitionEqual_func less data a b pivot).2 →
        keyAt key (partitionEqual_func less data a b pivot).1 m ≤ keyAt key data pivot) ∧
      (∀ m, (partitionEqual_func less data a b pivot).2 ≤ m → m < b →
        keyAt key data pivot < keyAt key (partitionEqual_func less data a b pivot).1 m) := by
  unfold partitionEqual_func
  have hkw₀ : KeysWithin key data (swapAt data a pivot) a b :=
    KeysWithin.swapAt key data hb (le_refl _) (by omega) hap hpb
  have hlen₀ : b ≤ (swapAt data a pivot).length := by rw [length_swapAt]; exact hb
  have hka₀ : keyAt key (swapAt data a pivot) a = keyAt key data pivot := by
    rw [keyAt_swapAt key data (by omega) (by omega)]
    by_cases h : a = pivot
    · rw [if_pos h, h]
    · rw [if_neg h, if_pos rfl]
  generalize swapAt data a pivot = d₀ at hkw₀ hlen₀ hka₀ ⊢
  have hloop := partitionEqual_loop_spec hless a b (b - a + 1) (a + 1) (b - 1) d₀ hlen₀
    (le_refl _) (by omega) (by omega) (by omega) (fun m h₁ h₂ => by omega)
    (fun m h₁ h₂ => by omega)
  generalize partitionEqual_loop less a (b - a + 1) (a + 1) (b - 1) d₀ = r at hloop ⊢
  obtain ⟨l₁, l₂, l₃, l₄, l₅⟩ := hloop
  have hka : keyAt key r.1 a = keyAt key data pivot :=
    (l₁.2.1 a (Or.inl (by omega))).trans hka₀
  refine ⟨hkw₀.trans (l₁.mono (by omega) (le_refl _)), l₂, l₃, fun m h₁ h₂ => ?_,
    fun m h₁ h₂ => ?_⟩
  · by_cases hm : m = a
    · rw [hm, hka]
    · rw [← hka]
      exact l₄ m (by omega) h₂
  · rw [← hka]
    exact l₅ m h₁ h₂

theorem reverseRange_loop_within {α : Type} (key : α → Int) (a b n i j : Nat) (data : List α)
    (hb : b ≤ data.length) (hai : a ≤ i) (hjb : j < b) :
    KeysWithin key data (reverseRange_loop n i j data) a b := by
  induction n generalizing i j data with
  | zero => exact KeysWithin.refl _ _ _ _
  | succ n ih =>
    unfold reverseRange_loop
    by_cases hij : i < j
    · rw [if_pos hij]
      exact (KeysWithin.swapAt key data hb hai (by omega) (by omega) hjb).trans
        (ih (i + 1) (j - 1) _ (by rw [length_swapAt]; exact hb) (by omega) (by omega))
    · rw [if_neg hij]
      exact KeysWithin.refl _ _ _ _

theorem reverseRange_func_within {α : Type} (key : α → Int) (data : List α) (a b : Nat)
    (hab : a < b) (hb : b ≤ data.length) :
    KeysWithin key data (reverseRange_func data a b) a b :=
  reverseRange_loop_within key a b _ _ _ data hb (le_refl _) (by omega)

theorem bitsLenAux_zero (f : Nat) : bitsLenAux f 0 = 0 := by
  cases f <;> simp [bitsLenAux]

theorem two_pow_bitsLenAux_le (f n : Nat) (hn : 1 ≤ n) (hf : n ≤ f) :
    2 ^ bitsLenAux f n ≤ 2 * n := by
  induction f generalizing n with
  | zero => omega
  | succ f ih =>
    unfold bitsLenAux
    rw [if_neg (by omega), pow_succ]
    by_cases h : n / 2 = 0
    · rw [h, bitsLenAux_zero]
      omega
    · have := ih (n / 2) (by omega) (by omega)
      omega

theorem breakPatterns_loop_within {α : Type} (key : α → Int) (a b length modulus idx : Nat)
    (n i random : Nat) (data : List α) (hb : b ≤ data.length) (hlen : a + length = b)
    (hmod : 1 ≤ modulus) (hmod2 : ∃ k, modulus = 2 ^ k) (hmodl : modulus ≤ 2 * length)
    (hidx : a ≤ idx) (hidx2 : idx + 2 < b) (hin : i + n ≤ 3) :
    KeysWithin key data (breakPatterns_loop a length modulus idx n i random data) a b := by
  induction n generalizing i random data with
  | zero => exact KeysWithin.refl _ _ _ _
  | succ n ih =>
    unfold breakPatterns_loop
    simp only
    obtain ⟨k, hk⟩ := hmod2
    have hand : xorshiftNext random &&& (modulus - 1) < modulus := by
      rw [hk]
      exact Nat.and_lt_two_pow _ (by rw [← hk]; omega)
    have hother : (if xorshiftNext random &&& (modulus - 1) ≥ length then
        (xorshiftNext random &&& (modulus - 1)) - length
        else xorshiftNext random &&& (modulus - 1)) < length := by
      split <;> omega
    exact (KeysWithin.swapAt key data hb (by omega) (by omega) (by omega) (by omega)).trans
      (ih (i + 1) _ _ (by rw [length_swapAt]; exact hb) (by omega))

theorem breakPatterns_func_within {α : Type} (key : α → Int) (data : List α) (a b : Nat)
    (hab : a ≤ b) (hb : b ≤ data.length) :
    KeysWithin key data (breakPatterns_func data a b) a b := by
  unfold breakPatterns_func
  simp only
  by_cases h8 : b - a ≥ 8
  · rw [if_pos h8]
    have hpow := two_pow_bitsLenAux_le (b - a) (b - a) (by omega) (le_refl _)
    have hpos : 1 ≤ 2 ^ bitsLen (b - a) := Nat.one_le_two_pow
    exact breakPatterns_loop_within key a b (b - a) (2 ^ bitsLen (b - a)) _ 3 0 _ data hb
      (by omega) hpos ⟨_, rfl⟩ hpow (by omega) (by omega) (by omega)
  · rw [if_neg h8]
    exact KeysWithin.refl _ _ _ _

theorem order2_func_cases {α : Type} (less : α → α → Bool) (data : List α) (a b swaps : Nat) :
    ((order2_func less data a b swaps).1 = a ∧ (order2_func less data a b swaps).2.1 = b) ∨
      ((order2_func less data a b swaps).1 = b ∧ (order2_func less data a b swaps).2.1 = a) := by
  unfold order2_func
  split
  · exact Or.inr ⟨rfl, rfl⟩
  · exact Or.inl ⟨rfl, rfl⟩

theorem median_func_cases {α : Type} (less : α → α → Bool) (data : List α)
    (a b c swaps : Nat) :
    (median_func less data a b c swaps).1 = a ∨ (median_func less data a b c swaps).1 = b ∨
      (median_func less data a b c swaps).1 = c := by
  unfold median_func
  simp only
  have c₁ := order2_func_cases less data a b swaps
  generalize order2_func less data a b swaps = r₁ at c₁ ⊢
  have c₂ := order2_func_cases less data r₁.2.1 c r₁.2.2
  generalize order2_func less data r₁.2.1 c r₁.2.2 = r₂ at c₂ ⊢
  have c₃ := order2_func_cases less data r₁.1 r₂.1 r₂.2.2
  generalize order2_func less data r₁.1 r₂.1 r₂.2.2 = r₃ at c₃ ⊢
  omega

/-- The pivot of `choosePivot_func` is an index of `data[a:b]`. -/
theorem choosePivot_func_mem {α : Type} (less : α → α → Bool) (data : List α) (a b : Nat)
    (h8 : 8 ≤ b - a) :
    a ≤ (choosePivot_func less data a b).1 ∧ (choosePivot_func less data a b).1 < b := by
  have hr : ∀ r : Nat × Nat, ((if r.2 = 0 then (r.1, sortedHint.increasingHint)
      else if r.2 = 4 * 3 then (r.1, sortedHint.decreasingHint)
      else (r.1, sortedHint.unknownHint)) : Nat × sortedHint).1 = r.1 := by
    intro r
    split
    · rfl
    · split <;> rfl
  unfold choosePivot_func
  simp only
  rw [hr, if_pos h8]
  by_cases h50 : b - a ≥ 50
  · rw [if_pos h50]
    unfold medianAdjacent_func
    generalize hi : median_func less data (a + (b - a) / 4 * 1 - 1) (a + (b - a) / 4 * 1)
      (a + (b - a) / 4 * 1 + 1) 0 = ri
    have hri := median_func_cases less data (a + (b - a) / 4 * 1 - 1) (a + (b - a) / 4 * 1)
      (a + (b - a) / 4 * 1 + 1) 0
    rw [hi] at hri
    generalize hj : median_func less data (a + (b - a) / 4 * 2 - 1) (a + (b - a) / 4 * 2)
      (a + (b - a) / 4 * 2 + 1) ri.2 = rj
    have hrj := median_func_cases less data (a + (b - a) / 4 * 2 - 1) (a + (b - a) / 4 * 2)
      (a + (b - a) / 4 * 2 + 1) ri.2
    rw [hj] at hrj
    generalize hk : median_func less data (a + (b - a) / 4 * 3 - 1) (a + (b - a) / 4 * 3)
      (a + (b - a) / 4 * 3 + 1) rj.2 = rk
    have hrk := median_func_cases less data (a + (b - a) / 4 * 3 - 1) (a + (b - a) / 4 * 3)
      (a + (b - a) / 4 * 3 + 1) rj.2
    rw [hk] at hrk
    have := median_func_cases less data ri.1 rj.1 rk.1 rk.2
    omega
  · rw [if_neg h50]
    have := median_func_cases less data (a + (b - a) / 4 * 1) (a + (b - a) / 4 * 2)
      (a + (b - a) / 4 * 3) 0
    omega

theorem SortedOn.succ {α : Type} {key : α → Int} {data : List α} {a i : Nat}
    (h : SortedOn key data a i) (hai : a < i)
    (hle : keyAt key data (i - 1) ≤ keyAt key data i) : SortedOn key data a (i + 1) := by
  intro p q hp hpq hq
  by_cases hqi : q = i
  · subst hqi
    by_cases hp1 : p = q - 1
    · rw [hp1]
      exact hle
    · exact le_trans (h p (q - 1) hp (by omega) (by omega)) hle
  · exact h p q hp hpq (by omega)

theorem SortedOn.of_keys_eq {α : Type} {key : α → Int} {d₁ d₂ : List α} {a b : Nat}
    (h : SortedOn key d₁ a b)
    (heq : ∀ m, a ≤ m → m < b → keyAt key d₂ m = keyAt key d₁ m) : SortedOn key d₂ a b := by
  intro p q hp hpq hq
  rw [heq p hp (by omega), heq q (by omega) hq]
  exact h p q hp hpq hq

theorem partialInsertionSort_scan_spec {α : Type} {less : α → α → Bool} {key : α → Int}
    (hless : ∀ x y, less x y = true ↔ key x < key y) (data : List α) (a b n i : Nat)
    (hai : a < i) (hib : i ≤ b) (hb : b ≤ data.length) (hfuel : b ≤ i + n)
    (hsorted : SortedOn key data a i) :
    i ≤ partialInsertionSort_scan less data b n i ∧
      partialInsertionSort_scan less data b n i ≤ b ∧
      SortedOn key data a (partialInsertionSort_scan less data b n i) ∧
      (partialInsertionSort_scan less data b n i < b →
        keyAt key data (partialInsertionSort_scan less data b n i)
          < keyAt key data (partialInsertionSort_scan less data b n i - 1)) := by
  induction n generalizing i with
  | zero =>
    unfold partialInsertionSort_scan
    exact ⟨le_refl _, hib, hsorted, fun h => by omega⟩
  | succ n ih =>
    unfold partialInsertionSort_scan
    by_cases hc : i < b ∧ lessAt less data i (i - 1) = false
    · rw [if_pos hc]
      have hle := (lessAt_eq_false_iff hless data (by omega) (by omega)).mp hc.2
      obtain ⟨h₁, h₂, h₃, h₄⟩ := ih (i + 1) (by omega) (by omega) (by omega)
        (hsorted.succ hai hle)
      exact ⟨by omega, h₂, h₃, h₄⟩
    · rw [if_neg hc]
      refine ⟨le_refl _, hib, hsorted, fun h => ?_⟩
      have ht : lessAt less data i (i - 1) = true := by
        cases h' : lessAt less data i (i - 1)
        · exact absurd ⟨h, h'⟩ hc
        · rfl
      exact (lessAt_eq_true_iff hless data (by omega) (by omega)).mp ht

/-- The loop of `partialInsertionSort_func` that shifts to the left runs down to index 1; with
no key of `data[a:j+1]` below the key before `a` it stops at `a`, as the inner loop of
insertion sort does. -/
theorem partialInsertionSort_shiftLeft_eq {α : Type} {less : α → α → Bool} {key : α → Int}
    (hless : ∀ x y, less x y = true ↔ key x < key y) (a j : Nat) (data : List α)
    (haj : a ≤ j) (hj : j < data.length)
    (hleft : 0 < a → ∀ m, a ≤ m → m ≤ j → keyAt key data (a - 1) ≤ keyAt key data m) :
    partialInsertionSort_shiftLeft less j data = insertionSort_inner less a j data := by
  induction j generalizing data with
  | zero => rfl
  | succ j ih =>
    unfold partialInsertionSort_shiftLeft insertionSort_inner
    by_cases hlt : a < j + 1
    · cases hl : lessAt less data (j + 1) j
      · simp
      · have hsw := keyAt_swapAt key data (show j + 1 < data.length by omega)
          (show j < data.length by omega)
        have := ih (swapAt data (j + 1) j) (by omega) (by rw [length_swapAt]; omega)
          (by
            intro ha m hm₁ hm₂
            rw [hsw, hsw, if_neg (show a - 1 ≠ j by omega),
              if_neg (show a - 1 ≠ j + 1 by omega), if_neg (show m ≠ j + 1 by omega)]
            by_cases hmj : m = j
            · rw [if_pos hmj]
              exact hleft ha (j + 1) (by omega) (le_refl _)
            · rw [if_neg hmj]
              exact hleft ha m hm₁ (by omega))
        simp [hlt, this]
    · have haj' : a = j + 1 := by omega
      have hf : lessAt less data (j + 1) j = false := by
        apply (lessAt_eq_false_iff hless data (by omega) (by omega)).mpr
        have := hleft (by omega) (j + 1) (by omega) (le_refl _)
        rw [haj'] at this
        simpa using this
      simp [hf]

theorem partialInsertionSort_shiftRight_within {α : Type} {less : α → α → Bool}
    (key : α → Int) (lo b n j : Nat) (data : List α) (hlo : lo + 1 ≤ j) (hb : b ≤ data.length) :
    KeysWithin key data (partialInsertionSort_shiftRight less b n j data) lo b := by
  induction n generalizing j data with
  | zero => exact KeysWithin.refl _ _ _ _
  | succ n ih =>
    unfold partialInsertionSort_shiftRight
    by_cases hjb : j < b
    · rw [if_pos hjb]
      by_cases hl : lessAt less data j (j - 1) = false
      · rw [if_pos hl]
        exact KeysWithin.refl _ _ _ _
      · rw [if_neg hl]
        exact (KeysWithin.swapAt key data hb (by omega) hjb (by omega) (by omega)).trans
          (ih (j + 1) _ (by omega) (by rw [length_swapAt]; exact hb))
    · rw [if_neg hjb]
      exact KeysWithin.refl _ _ _ _

theorem partialInsertionSort_loop_spec {α : Type} {less : α → α → Bool} {key : α → Int}
    (hless : ∀ x y, less x y = true ↔ key x < key y) (a b steps i : Nat) (data : List α)
    (hai : a < i) (hib : i ≤ b) (hb : b ≤ data.length) (hsorted : SortedOn key data a i)
    (hpre : AboveLeft key data a b) :
    KeysWithin key data (partialInsertionSort_loop less a b steps i data).1 a b ∧
      ((partialInsertionSort_loop less a b steps i data).2 = true →
        SortedOn key (partialInsertionSort_loop less a b steps i data).1 a b) := by
  induction steps generalizing i data with
  | zero =>
    unfold partialInsertionSort_loop
    exact ⟨KeysWithin.refl _ _ _ _, fun h => by simp at h⟩
  | succ steps ih =>
    unfold partialInsertionSort_loop
    simp only
    obtain ⟨s₁, s₂, s₃, s₄⟩ := partialInsertionSort_scan_spec hless data a b (b - a) i hai hib hb
      (by omega) hsorted
    generalize partialInsertionSort_scan less data b (b - a) i = i' at s₁ s₂ s₃ s₄ ⊢
    by_cases hend : i' = b
    · rw [if_pos hend]
      rw [hend] at s₃
      exact ⟨KeysWithin.refl _ _ _ _, fun _ => s₃⟩
    · rw [if_neg hend]
      by_cases hshort : b - a < 50
      · rw [if_pos hshort]
        exact ⟨KeysWithin.refl _ _ _ _, fun h => by simp at h⟩
      · rw [if_neg hshort]
        have hkw₁ : KeysWithin key data (swapAt data i' (i' - 1)) a b :=
          KeysWithin.swapAt key data hb (by omega) (by omega) (by omega) (by omega)
        have hlen₁ : b ≤ (swapAt data i' (i' - 1)).length := by rw [length_swapAt]; exact hb
        have hpre₁ := hkw₁.aboveLeft hpre
        have hsw := keyAt_swapAt key data (show i' < data.length by omega)
          (show i' - 1 < data.length by omega)
        generalize swapAt data i' (i' - 1) = d₁ at hkw₁ hlen₁ hpre₁ hsw ⊢
        have h₂ : KeysWithin key d₁
            (if i' - a ≥ 2 then partialInsertionSort_shiftLeft less (i' - 1) d₁ else d₁) a b ∧
            SortedOn key
              (if i' - a ≥ 2 then partialInsertionSort_shiftLeft less (i' - 1) d₁ else d₁)
                a i' := by
          by_cases h2 : i' - a ≥ 2
          · rw [if_pos h2, partialInsertionSort_shiftLeft_eq hless a (i' - 1) d₁ (by omega)
              (by omega) (fun ha m hm₁ hm₂ => hpre₁ ha m hm₁ (by omega))]
            have := insertionSort_inner_sorted hless a (i' - 1) (i' - 1) d₁ (by omega)
              (le_refl _) (by omega)
              (by
                intro p q hp hpq hq _ hqj
                rw [hsw, hsw, if_neg (show p ≠ i' - 1 by omega), if_neg (show p ≠ i' by omega),
                  if_neg hqj, if_neg (show q ≠ i' by omega)]
                exact s₃ p q hp hpq (by omega))
              (fun q hq₁ hq₂ => by omega)
            have he : i' - 1 + 1 = i' := by omega
            rw [he] at this
            exact ⟨this.1.mono (le_refl _) (by omega), this.2⟩
          · rw [if_neg h2]
            exact ⟨KeysWithin.refl _ _ _ _, fun p q hp hpq hq => by omega⟩
        generalize (if i' - a ≥ 2 then partialInsertionSort_shiftLeft less (i' - 1) d₁ else d₁)
          = d₂ at h₂ ⊢
        have hlen₂ : b ≤ d₂.length := by rw [h₂.1.1]; exact hlen₁
        have h₃ : KeysWithin key d₂
            (if b - i' ≥ 2 then partialInsertionSort_shiftRight less b (b - i') (i' + 1) d₂
              else d₂) i' b := by
          by_cases h2 : b - i' ≥ 2
          · rw [if_pos h2]
            exact partialInsertionSort_shiftRight_within key i' b _ _ d₂ (le_refl _) hlen₂
          · rw [if_neg h2]
            exact KeysWithin.refl _ _ _ _
        generalize (if b - i' ≥ 2 then
          partialInsertionSort_shiftRight less b (b - i') (i' + 1) d₂ else d₂) = d₃ at h₃ ⊢
        have hkw₃ : KeysWithin key data d₃ a b :=
          (hkw₁.trans h₂.1).trans (h₃.mono (by omega) (le_refl _))
        have := ih i' d₃ (by omega) s₂ (by rw [hkw₃.1]; exact hb)
          (h₂.2.of_keys_eq fun m hm₁ hm₂ => h₃.2.1 m (Or.inl hm₂)) (hkw₃.aboveLeft hpre)
        exact ⟨hkw₃.trans this.1, this.2⟩

theorem partialInsertionSort_func_spec {α : Type} {less : α → α → Bool} {key : α → Int}
    (hless : ∀ x y, less x y = true ↔ key x < key y) (data : List α) (a b : Nat)
    (hab : a < b) (hb : b ≤ data.length) (hpre : AboveLeft key data a b) :
    KeysWithin key data (partialInsertionSort_func less data a b).1 a b ∧
      ((partialInsertionSort_func less data a b).2 = true →
        SortedOn key (partialInsertionSort_func less data a b).1 a b) :=
  partialInsertionSort_loop_spec hless a b 5 (a + 1) data (by omega) (by omega) hb
    (fun p q hp hpq hq => by omega) hpre

theorem SortedOn.of_partition {α : Type} {key : α → Int} {d : List α} {a mid b : Nat}
    (hleft : SortedOn key d a mid) (hright : SortedOn key d (mid + 1) b)
    (hle : ∀ m, a ≤ m → m < mid → keyAt key d m ≤ keyAt key d mid)
    (hge : ∀ m, mid < m → m < b → keyAt key d mid ≤ keyAt key d m) : SortedOn key d a b := by
  intro p q hp hpq hq
  by_cases hqm : q < mid
  · exact hleft p q hp hpq hqm
  · by_cases hpm : mid < p
    · exact hright p q (by omega) hpq hq
    · by_cases hp' : p = mid
      · rw [hp']
        exact hge q (by omega) hq
      · by_cases hq' : q = mid
        · rw [hq']
          exact hle p hp (by omega)
        · exact le_trans (hle p hp (by omega)) (hge q (by omega) hq)

theorem SortedOn.of_equal_prefix {α : Type} {key : α → Int} {d : List α} {a mid b : Nat}
    {K : Int} (heq : ∀ m, a ≤ m → m < mid → keyAt key d m = K)
    (hge : ∀ m, mid ≤ m → m < b → K ≤ keyAt key d m) (hsorted : SortedOn key d mid b) :
    SortedOn key d a b := by
  intro p q hp hpq hq
  by_cases hpm : p < mid
  · rw [heq p hp hpm]
    by_cases hqm : q < mid
    · rw [heq q (by omega) hqm]
    · exact hge q (by omega) hq
  · exact hsorted p q (by omega) hpq hq

/-- The function `pdqsort_func` puts `data[a:b]` in order, given fuel for `b - a` rounds and
no key of `data[a:b]` below the key before `a`. -/
theorem pdqsort_func_sorted {α : Type} {less : α → α → Bool} {key : α → Int}
    (hless : ∀ x y, less x y = true ↔ key x < key y) (fuel : Nat) (data : List α)
    (a b limit : Nat) (wasBalanced wasPartitioned : Bool) (hab : a ≤ b)
    (hb : b ≤ data.length) (hfuel : b - a ≤ fuel) (hpre : AboveLeft key data a b) :
    KeysWithin key data (pdqsort_func less fuel data a b limit wasBalanced wasPartitioned) a b ∧
      SortedOn key (pdqsort_func less fuel data a b limit wasBalanced wasPartitioned) a b := by
  induction fuel generalizing data a b limit wasBalanced wasPartitioned with
  | zero =>
    unfold pdqsort_func
    exact ⟨KeysWithin.refl _ _ _ _, fun p q hp hpq hq => by omega⟩
  | succ fuel ih =>
    unfold pdqsort_func
    lift_lets
    extract_lets length data₁ limit' c data₂ pivot hint s e p mid leftLen rightLen
      balanceThreshold
    by_cases h12 : length ≤ 12
    · simp only [if_pos h12]
      exact insertionSort_func_sorted hless data a b hab hb
    · simp only [if_neg h12]
      by_cases hlimit : limit = 0
      · simp only [if_pos hlimit]
        exact heapSort_func_sorted hless data a b hab hb
      · simp only [if_neg hlimit]
        have hlen : 12 < b - a := by
          simp only [length] at h12
          omega
        have h₁ : KeysWithin key data data₁ a b := by
          simp only [data₁]
          split
          · exact KeysWithin.refl _ _ _ _
          · exact breakPatterns_func_within key data a b hab hb
        have hc : a ≤ c.1 ∧ c.1 < b := choosePivot_func_mem less data₁ a b (by omega)
        have hb₁ : b ≤ data₁.length := by rw [h₁.1]; exact hb
        have h₂ : KeysWithin key data₁ data₂ a b := by
          simp only [data₂]
          split
          · exact reverseRange_func_within key data₁ a b (by omega) hb₁
          · exact KeysWithin.refl _ _ _ _
        have hpiv : a ≤ pivot ∧ pivot < b := by
          simp only [pivot]
          split <;> omega
        have hb₂ : b ≤ data₂.length := by rw [h₂.1]; exact hb₁
        have hpre₂ : AboveLeft key data₂ a b := (h₁.trans h₂).aboveLeft hpre
        have h₃ : KeysWithin key data₂ s.1 a b ∧ (s.2 = true → SortedOn key s.1 a b) := by
          simp only [s]
          split
          · exact partialInsertionSort_func_spec hless data₂ a b (by omega) hb₂ hpre₂
          · exact ⟨KeysWithin.refl _ _ _ _, fun h => by simp at h⟩
        have hs : KeysWithin key data s.1 a b := (h₁.trans h₂).trans h₃.1
        have hbs : b ≤ s.1.length := by rw [hs.1]; exact hb
        have hpres : AboveLeft key s.1 a b := hs.aboveLeft hpre
        by_cases hs2 : s.2 = true
        · simp only [hs2, if_true]
          exact ⟨hs, h₃.2 hs2⟩
        · simp only [hs2, Bool.false_eq_true, if_false]
          by_cases heq : (decide (a > 0) && !lessAt less s.1 (a - 1) pivot) = true
          · simp only [heq, if_true]
            have ha0 : 0 < a := by
              simp only [Bool.and_eq_true, decide_eq_true_eq] at heq
              exact heq.1
            have hlf : lessAt less s.1 (a - 1) pivot = false := by
              simp only [Bool.and_eq_true, Bool.not_eq_true'] at heq
              exact heq.2
            have hle := (lessAt_eq_false_iff hless s.1 (show a - 1 < s.1.length by omega)
              (show pivot < s.1.length by omega)).mp hlf
            have hspec : KeysWithin key s.1 e.1 a b ∧ a < e.2 ∧ e.2 ≤ b ∧
                (∀ m, a ≤ m → m < e.2 → keyAt key e.1 m ≤ keyAt key s.1 pivot) ∧
                (∀ m, e.2 ≤ m → m < b → keyAt key s.1 pivot < keyAt key e.1 m) :=
              partitionEqual_func_spec hless s.1 a b pivot hbs hpiv.1 hpiv.2
            obtain ⟨e₁, e₂, e₃, e₄, e₅⟩ := hspec
            have hKe : keyAt key e.1 (a - 1) = keyAt key s.1 (a - 1) :=
              e₁.2.1 (a - 1) (Or.inl (by omega))
            have hlow : ∀ m, a ≤ m → m < b → keyAt key s.1 (a - 1) ≤ keyAt key e.1 m :=
              e₁.lower (hpres ha0)
            have hequal : ∀ m, a ≤ m → m < e.2 → keyAt key e.1 m = keyAt key s.1 (a - 1) := by
              intro m hm₁ hm₂
              have := e₄ m hm₁ hm₂
              have := hlow m hm₁ (by omega)
              omega
            have hbe : b ≤ e.1.length := by rw [e₁.1]; exact hbs
            obtain ⟨r₁, r₂⟩ := ih e.1 e.2 b limit' wasBalanced wasPartitioned e₃ hbe (by omega)
              (by
                intro _ m hm₁ hm₂
                rw [hequal (e.2 - 1) (by omega) (by omega)]
                exact hlow m (by omega) hm₂)
            refine ⟨(hs.trans e₁).trans (r₁.mono (by omega) (le_refl _)), ?_⟩
            refine SortedOn.of_equal_prefix (K := keyAt key s.1 (a - 1)) (fun m hm₁ hm₂ => ?_)
              (fun m hm₁ hm₂ => ?_) r₂
            · rw [r₁.2.1 m (Or.inl hm₂)]
              exact hequal m hm₁ hm₂
            · exact r₁.lower (fun i hi₁ hi₂ => hlow i (by omega) hi₂) m hm₁ hm₂
          · simp only [heq, Bool.false_eq_true, if_false]
            have hspec : KeysWithin key s.1 p.1 a b ∧ a ≤ mid ∧ mid < b ∧
                (∀ m, a ≤ m → m < mid → keyAt key p.1 m ≤ keyAt key p.1 mid) ∧
                (∀ m, mid < m → m < b → keyAt key p.1 mid ≤ keyAt key p.1 m) :=
              partition_func_spec hless s.1 a b pivot hbs hpiv.1 hpiv.2
            obtain ⟨p₁, p₂, p₃, p₄, p₅⟩ := hspec
            have hbp : b ≤ p.1.length := by rw [p₁.1]; exact hbs
            have hprep : AboveLeft key p.1 a b := p₁.aboveLeft hpres
            have hkwp : KeysWithin key data p.1 a b := hs.trans p₁
            by_cases hside : leftLen < rightLen
            · simp only [hside, if_true]
              obtain ⟨l₁, l₂⟩ := ih p.1 a mid limit' true true p₂ (by omega) (by omega)
                (fun ha m hm₁ hm₂ => hprep ha m hm₁ (by omega))
              generalize pdqsort_func less fuel p.1 a mid limit' true true = dl at l₁ l₂ ⊢
              have hbl : b ≤ dl.length := by rw [l₁.1]; exact hbp
              have hmidl : keyAt key dl mid = keyAt key p.1 mid := l₁.2.1 mid (Or.inr (le_refl _))
              obtain ⟨r₁, r₂⟩ := ih dl (mid + 1) b limit' (decide (leftLen ≥ balanceThreshold))
                p.2.2 (by omega) hbl (by omega)
                (by
                  intro _ m hm₁ hm₂
                  rw [Nat.add_sub_cancel, hmidl, l₁.2.1 m (Or.inr (by omega))]
                  exact p₅ m (by omega) hm₂)
              generalize pdqsort_func less fuel dl (mid + 1) b limit'
                (decide (leftLen ≥ balanceThreshold)) p.2.2 = dr at r₁ r₂ ⊢
              have hmidr : keyAt key dr mid = keyAt key p.1 mid :=
                (r₁.2.1 mid (Or.inl (by omega))).trans hmidl
              refine ⟨(hkwp.trans (l₁.mono (le_refl _) (by omega))).trans
                (r₁.mono (by omega) (le_refl _)), ?_⟩
              refine SortedOn.of_partition
                (l₂.of_keys_eq fun m hm₁ hm₂ => r₁.2.1 m (Or.inl (by omega))) r₂
                (fun m hm₁ hm₂ => ?_) (fun m hm₁ hm₂ => ?_)
              · rw [hmidr, r₁.2.1 m (Or.inl (by omega))]
                exact l₁.upper p₄ m hm₁ hm₂
              · rw [hmidr]
                exact r₁.lower (fun i hi₁ hi₂ => by
                  rw [l₁.2.1 i (Or.inr (by omega))]
                  exact p₅ i (by omega) hi₂) m (by omega) hm₂
            · simp only [hside, if_false]
              obtain ⟨r₁, r₂⟩ := ih p.1 (mid + 1) b limit' true true (by omega) hbp (by omega)
                (by
                  intro _ m hm₁ hm₂
                  rw [Nat.add_sub_cancel]
                  exact p₅ m (by omega) hm₂)
              generalize pdqsort_func less fuel p.1 (mid + 1) b limit' true true = dr at r₁ r₂ ⊢
              have hbr : b ≤ dr.length := by rw [r₁.1]; exact hbp
              have hmidr : keyAt key dr mid = keyAt key p.1 mid :=
                r₁.2.1 mid (Or.inl (by omega))
              obtain ⟨l₁, l₂⟩ := ih dr a mid limit' (decide (rightLen ≥ balanceThreshold))
                p.2.2 p₂ (by omega) (by omega)
                (by
                  intro ha m hm₁ hm₂
                  rw [r₁.2.1 (a - 1) (Or.inl (by omega)), r₁.2.1 m (Or.inl (by omega))]
                  exact hprep ha m hm₁ (by omega))
              generalize pdqsort_func less fuel dr a mid limit'
                (decide (rightLen ≥ balanceThreshold)) p.2.2 = dl at l₁ l₂ ⊢
              have hmidl : keyAt key dl mid = keyAt key p.1 mid :=
                (l₁.2.1 mid (Or.inr (le_refl _))).trans hmidr
              refine ⟨(hkwp.trans (r₁.mono (by omega) (le_refl _))).trans
                (l₁.mono (le_refl _) (by omega)), ?_⟩
              refine SortedOn.of_partition l₂
                (r₂.of_keys_eq fun m hm₁ hm₂ => l₁.2.1 m (Or.inr (by omega)))
                (fun m hm₁ hm₂ => ?_) (fun m hm₁ hm₂ => ?_)
              · rw [hmidl]
                exact l₁.upper (fun i hi₁ hi₂ => by
                  rw [r₁.2.1 i (Or.inl (by omega))]
                  exact p₄ i hi₁ hi₂) m hm₁ hm₂
              · rw [hmidl, l₁.2.1 m (Or.inr (by omega))]
                exact r₁.lower (fun i hi₁ hi₂ => p₅ i (by omega) hi₂) m (by omega) hm₂

theorem keyAt_of_lt {α : Type} (key : α → Int) (data : List α) {i : Nat}
    (hi : i < data.length) : keyAt key data i = key (data.get ⟨i, hi⟩) := by
  unfold keyAt
  rw [List.getElem?_eq_getElem hi]
  rfl

/-- The function `sort.Slice`, for a comparison of integer keys: the keys of the result are
in ascending order. -/
theorem goSortSlice_sorted {α : Type} {less : α → α → Bool} {key : α → Int}
    (hless : ∀ x y, less x y = true ↔ key x < key y) (data : List α) :
    (goSortSlice less data).Pairwise fun x y => key x ≤ key y := by
  obtain ⟨h₁, h₂⟩ := pdqsort_func_sorted hless (data.length + 1) data 0 data.length
    (bitsLen data.length) true true (Nat.zero_le _) (le_refl _) (by omega)
    (fun h => by omega)
  change KeysWithin key data (goSortSlice less data) 0 data.length at h₁
  change SortedOn key (goSortSlice less data) 0 data.length at h₂
  rw [List.pairwise_iff_get]
  intro i j hij
  have hi := i.2
  have hj := j.2
  have := h₂ i.1 j.1 (Nat.zero_le _) hij (by rw [← h₁.1]; exact hj)
  rw [keyAt_of_lt key _ hi, keyAt_of_lt key _ hj] at this
  exact this

/-- The model of `sort.Slice` meets the contract of `sort.Slice` at the comparison of
`GetFriendRanking`: the result is a rearrangement in descending order of `RecordCount`. -/
theorem goSortSlice_contract : SortSliceContract goSortSlice := by
  intro l
  refine ⟨goSortSlice_perm byRecordCountDesc l, ?_⟩
  have hless : ∀ x y : RankingItem,
      byRecordCountDesc x y = true ↔ (fun e : RankingItem => -e.RecordCount) x
        < (fun e : RankingItem => -e.RecordCount) y := by
    intro x y
    simp only [byRecordCountDesc, decide_eq_true_eq]
    omega
  refine (goSortSlice_sorted hless l).imp ?_
  intro x y h
  simp only [byRecordCountDesc, decide_eq_false_iff_not]
  omega

/-! ## The friend ranking: auxiliary facts -/

theorem wrapInt_eq_self {x : Int} (h₁ : -2 ^ 63 ≤ x) (h₂ : x < 2 ^ 63) : wrapInt x = x := by
  unfold wrapInt
  omega

theorem length_setRanksFrom (i : Nat) (l : List RankingItem) :
    (setRanksFrom i l).length = l.length := by
  induction l generalizing i with
  | nil => rfl
  | cons x xs ih => simp [setRanksFrom, ih]

theorem getElem?_setRanksFrom (i : Nat) (l : List RankingItem) (k : Nat) :
    (setRanksFrom i l)[k]? = l[k]?.map fun x => { x with Rank := i + k + 1 } := by
  induction l generalizing i k with
  | nil => simp [setRanksFrom]
  | cons x xs ih =>
    cases k with
    | zero => simp [setRanksFrom]
    | succ k =>
      simp only [setRanksFrom, List.getElem?_cons_succ, ih]
      congr 1
      funext y
      congr 1
      omega

theorem map_UserID_setRanksFrom (i : Nat) (l : List RankingItem) :
    (setRanksFrom i l).map (fun x => x.UserID) = l.map fun x => x.UserID := by
  induction l generalizing i with
  | nil => rfl
  | cons x xs ih => simp [setRanksFrom, ih]

theorem filter_count_setRanksFrom (c : Int) (i : Nat) (l : List RankingItem) :
    ((setRanksFrom i l).filter fun e => e.RecordCount == c).map (fun x => x.UserID)
      = (l.filter fun e => e.RecordCount == c).map fun x => x.UserID := by
  induction l generalizing i with
  | nil => rfl
  | cons x xs ih =>
    by_cases h : x.RecordCount = c <;> simp [setRanksFrom, List.filter_cons, h, ih]

theorem mem_setRanksFrom {i : Nat} {l : List RankingItem} {e : RankingItem}
    (h : e ∈ setRanksFrom i l) :
    ∃ x ∈ l, e.UserID = x.UserID ∧ e.RecordCount = x.RecordCount ∧
      e.TotalDuration = x.TotalDuration := by
  induction l generalizing i with
  | nil => simp [setRanksFrom] at h
  | cons x xs ih =>
    simp only [setRanksFrom, List.mem_cons] at h
    rcases h with h | h
    · subst h
      exact ⟨x, List.mem_cons_self _ _, rfl, rfl, rfl⟩
    · obtain ⟨y, hy, hprops⟩ := ih h
      exact ⟨y, List.mem_cons_of_mem _ hy, hprops⟩

theorem pairwise_setRanksFrom {i : Nat} {l : List RankingItem}
    (h : l.Pairwise fun x y => byRecordCountDesc y x = false) :
    (setRanksFrom i l).Pairwise fun x y =>
      x.Rank < y.Rank ∧ i < x.Rank ∧ x.RecordCount ≥ y.RecordCount := by
  induction l generalizing i with
  | nil => exact List.Pairwise.nil
  | cons x xs ih =>
    rw [List.pairwise_cons] at h
    simp only [setRanksFrom]
    rw [List.pairwise_cons]
    refine ⟨?_, (ih h.2).imp fun hxy => ⟨hxy.1, by omega, hxy.2.2⟩⟩
    intro y hy
    obtain ⟨k, hk⟩ := List.getElem?_of_mem hy
    rw [getElem?_setRanksFrom] at hk
    cases hxk : xs[k]? with
    | none => simp [hxk] at hk
    | some z =>
      simp only [hxk, Option.map_some', Option.some.injEq] at hk
      subst hk
      have hz : z ∈ xs := List.getElem?_mem hxk
      have := h.1 z hz
      simp only [byRecordCountDesc, decide_eq_false_iff_not, not_lt] at this
      exact ⟨by simp only; omega, by simp only; omega, by simpa using this⟩

theorem statsMapOf_append_singleton (stats : List RecordStat) (s : RecordStat) (k : Nat) :
    statsMapOf (stats ++ [s]) k
      = if k = s.UserID then some (s.RecordCount, s.TotalDuration) else statsMapOf stats k := by
  simp [statsMapOf, List.foldl_append]

theorem statsMapOf_eq_none_iff (stats : List RecordStat) (k : Nat) :
    statsMapOf stats k = none ↔ ∀ s ∈ stats, s.UserID ≠ k := by
  induction stats using List.reverseRecOn with
  | nil => simp [statsMapOf]
  | append_singleton l s ih =>
    rw [statsMapOf_append_singleton]
    by_cases h : k = s.UserID
    · simp only [h, if_true]
      constructor
      · intro hc
        cases hc
      · intro hall
        exact absurd rfl (hall s (by simp))
    · simp only [h, if_false, ih, List.mem_append, List.mem_singleton]
      constructor
      · rintro hall x (hx | rfl)
        · exact hall x hx
        · exact fun hx => h hx.symm
      · intro hall x hx
        exact hall x (Or.inl hx)

theorem statsMapOf_eq_some {stats : List RecordStat} {k : Nat} {v : Int × Int}
    (h : statsMapOf stats k = some v) :
    ∃ s ∈ stats, s.UserID = k ∧ v = (s.RecordCount, s.TotalDuration) := by
  induction stats using List.reverseRecOn with
  | nil => simp [statsMapOf] at h
  | append_singleton l s ih =>
    rw [statsMapOf_append_singleton] at h
    by_cases hk : k = s.UserID
    · simp only [hk, if_true, Option.some.injEq] at h
      exact ⟨s, by simp, hk.symm, h.symm⟩
    · simp only [hk, if_false] at h
      obtain ⟨x, hx, hprops⟩ := ih h
      exact ⟨x, List.mem_append_left _ hx, hprops⟩

theorem rankingItemOf_UserID (m : Nat → Option (Int × Int)) (u : Nat) :
    (rankingItemOf m u).UserID = u := by
  unfold rankingItemOf
  split <;> rfl

/-- The item of a user carries the statistics row of that user, or zeros without one. -/
theorem rankingItemOf_stats (stats : List RecordStat) (u : Nat)
    (hnodup : (stats.map fun s => s.UserID).Nodup) :
    (∀ s ∈ stats, s.UserID = u →
        (rankingItemOf (statsMapOf stats) u).RecordCount = s.RecordCount ∧
          (rankingItemOf (statsMapOf stats) u).TotalDuration = s.TotalDuration) ∧
      ((∀ s ∈ stats, s.UserID ≠ u) →
        (rankingItemOf (statsMapOf stats) u).RecordCount = 0 ∧
          (rankingItemOf (statsMapOf stats) u).TotalDuration = 0) := by
  constructor
  · intro s hs hsu
    cases hm : statsMapOf stats u with
    | none =>
      rw [statsMapOf_eq_none_iff] at hm
      exact absurd hsu (hm s hs)
    | some v =>
      obtain ⟨s', hs', hs'u, hv⟩ := statsMapOf_eq_some hm
      have : s' = s := List.inj_on_of_nodup_map hnodup hs' hs (hs'u.trans hsu.symm)
      subst this
      simp [rankingItemOf, hm, hv]
  · intro hall
    have hm := (statsMapOf_eq_none_iff stats u).mpr hall
    simp [rankingItemOf, hm]

theorem rankingItemOf_cases (stats : List RecordStat) (u : Nat) :
    (∃ s ∈ stats, s.UserID = u ∧
        (rankingItemOf (statsMapOf stats) u).RecordCount = s.RecordCount ∧
          (rankingItemOf (statsMapOf stats) u).TotalDuration = s.TotalDuration) ∨
      ((∀ s ∈ stats, s.UserID ≠ u) ∧
        (rankingItemOf (statsMapOf stats) u).RecordCount = 0 ∧
          (rankingItemOf (statsMapOf stats) u).TotalDuration = 0) := by
  cases hm : statsMapOf stats u with
  | none =>
    refine Or.inr ⟨(statsMapOf_eq_none_iff stats u).mp hm, ?_, ?_⟩ <;> simp [rankingItemOf, hm]
  | some v =>
    obtain ⟨s, hs, hsu, hv⟩ := statsMapOf_eq_some hm
    exact Or.inl ⟨s, hs, hsu, by simp [rankingItemOf, hm, hv], by simp [rankingItemOf, hm, hv]⟩

theorem length_rankedItems {sortSlice : (RankingItem → RankingItem → Bool) →
    List RankingItem → List RankingItem} (hsort : SortSliceRearranges sortSlice)
    (stats : List RecordStat) (L : List Nat) :
    (rankedItems sortSlice stats L).length = L.length := by
  simp [rankedItems, length_setRanksFrom, (hsort _).length_eq, allRankingItems]

theorem sliceExpr_eq {α : Type} (s : List α) (lo hi : Nat) (h₁ : lo ≤ hi) (h₂ : hi ≤ s.length) :
    sliceExpr s (lo : Int) (hi : Int) = Except.ok ((s.take hi).drop lo) := by
  have hcond : 0 ≤ (lo : Int) ∧ (lo : Int) ≤ (hi : Int) ∧ (hi : Int) ≤ (s.length : Int) := by
    omega
  have hsub : ((hi : Int) - (lo : Int)).toNat = hi - lo := by omega
  simp only [sliceExpr, hcond, and_self, if_true, Int.toNat_ofNat, hsub, List.drop_take]

/-- The first page holds the whole list when the page size, an `int`, covers it. -/
theorem GetFriendRanking_first_page (sortSlice : (RankingItem → RankingItem → Bool) →
    List RankingItem → List RankingItem) (stats : List RecordStat) (L : List Nat)
    (pageSize : Int) (h₁ : ((rankedItems sortSlice stats L).length : Int) ≤ pageSize)
    (h₂ : pageSize < 2 ^ 63) :
    GetFriendRanking sortSlice (Except.ok stats) L 1 pageSize
      = Except.ok (rankedItems sortSlice stats L,
          ((rankedItems sortSlice stats L).length : Int), none) := by
  have hoff : wrapInt (wrapInt (1 - 1) * pageSize) = 0 := by
    have h0 : wrapInt (1 - 1) = 0 := by decide
    rw [h0, Int.zero_mul]
    decide
  have hstop : wrapInt (0 + pageSize) = pageSize := by
    rw [Int.zero_add]
    exact wrapInt_eq_self (by omega) h₂
  simp only [GetFriendRanking, hoff, hstop]
  by_cases hlen : (0 : Int) < ((rankedItems sortSlice stats L).length : Int)
  · have hstop' : (if pageSize > ((rankedItems sortSlice stats L).length : Int)
        then ((rankedItems sortSlice stats L).length : Int) else pageSize)
        = ((rankedItems sortSlice stats L).length : Int) := by
      split <;> omega
    have hslice := sliceExpr_eq (rankedItems sortSlice stats L) 0
      (rankedItems sortSlice stats L).length (Nat.zero_le _) (Nat.le_refl _)
    simp only [Nat.cast_zero] at hslice
    simp only [hlen, if_true, hstop', hslice, List.take_length, List.drop_zero]
  · have hnil : rankedItems sortSlice stats L = [] := by
      apply List.eq_nil_of_length_eq_zero
      omega
    simp [hnil]

theorem insertionSortSlice_contract : SortSliceContract insertionSortSlice := by
  intro l
  refine ⟨List.perm_insertionSort _ l, ?_⟩
  have htotal : IsTotal RankingItem fun x y => byRecordCountDesc y x = false :=
    ⟨fun a b => by
      simp only [byRecordCountDesc, decide_eq_false_iff_not, not_lt]
      omega⟩
  have htrans : IsTrans RankingItem fun x y => byRecordCountDesc y x = false :=
    ⟨fun a b c hab hbc => by
      simp only [byRecordCountDesc, decide_eq_false_iff_not, not_lt] at hab hbc ⊢
      omega⟩
  exact List.sorted_insertionSort (fun x y => byRecordCountDesc y x = false) l

theorem pairwise_mem_cases {α : Type} {R : α → α → Prop} {l : List α} (h : l.Pairwise R) :
    ∀ x ∈ l, ∀ y ∈ l, x = y ∨ R x y ∨ R y x := by
  induction l with
  | nil => intro x hx; cases hx
  | cons a as ih =>
    rw [List.pairwise_cons] at h
    intro x hx y hy
    rcases List.mem_cons.mp hx with hxa | hx'
    · rcases List.mem_cons.mp hy with hya | hy'
      · exact Or.inl (hxa.trans hya.symm)
      · subst hxa
        exact Or.inr (Or.inl (h.1 y hy'))
    · rcases List.mem_cons.mp hy with hya | hy'
      · subst hya
        exact Or.inr (Or.inr (h.1 x hx'))
      · exact ih h.2 x hx' y hy'

/-- The page `page = p`, `pageSize = s` when `(p - 1) * s + s` fits the `int`. -/
theorem GetFriendRanking_eq_slice (sortSlice : (RankingItem → RankingItem → Bool) →
    List RankingItem → List RankingItem) (stats : List RecordStat) (L : List Nat)
    (p s : Nat) (hp : 1 ≤ p) (hs : 1 ≤ s) (hno : (p - 1) * s + s < 2 ^ 63) :
    GetFriendRanking sortSlice (Except.ok stats) L (p : Int) (s : Int)
      = Except.ok
          (if (rankedItems sortSlice stats L).length ≤ (p - 1) * s then []
            else ((rankedItems sortSlice stats L).take
              (min ((p - 1) * s + s) (rankedItems sortSlice stats L).length)).drop ((p - 1) * s),
            ((rankedItems sortSlice stats L).length : Int), none) := by
  obtain ⟨q, rfl⟩ : ∃ q, p = q + 1 := ⟨p - 1, by omega⟩
  simp only [Nat.add_sub_cancel] at hno ⊢
  have hq : q ≤ q * s := Nat.le_mul_of_pos_right q hs
  have h1 : wrapInt (((q + 1 : Nat) : Int) - 1) = (q : Int) := by
    have : (((q + 1 : Nat) : Int) - 1) = (q : Int) := by push_cast; omega
    rw [this]
    exact wrapInt_eq_self (by omega) (by omega)
  have h2 : wrapInt ((q : Int) * (s : Int)) = ((q * s : Nat) : Int) := by
    have : (q : Int) * (s : Int) = ((q * s : Nat) : Int) := by push_cast; rfl
    rw [this]
    exact wrapInt_eq_self (by omega) (by omega)
  generalize q * s = o at hno h2 ⊢
  have h3 : wrapInt ((o : Int) + (s : Int)) = ((o + s : Nat) : Int) := by
    have : (o : Int) + (s : Int) = ((o + s : Nat) : Int) := by push_cast; rfl
    rw [this]
    exact wrapInt_eq_self (by omega) (by omega)
  simp only [GetFriendRanking, h1, h2, h3]
  generalize rankedItems sortSlice stats L = full
  by_cases hlen : full.length ≤ o
  · have : ¬ ((o : Int) < (full.length : Int)) := by omega
    simp only [this, if_false, hlen, if_true]
  · have hlt : (o : Int) < (full.length : Int) := by omega
    have hstop : (if ((o + s : Nat) : Int) > (full.length : Int) then (full.length : Int)
        else ((o + s : Nat) : Int)) = ((min (o + s) full.length : Nat) : Int) := by
      split <;> omega
    have hslice := sliceExpr_eq full o (min (o + s) full.length) (by omega) (by omega)
    simp only [hlt, if_true, hstop, hslice, hlen, if_false]

/-- C16: the first page with a page size (an `int`) of at least `len L` is returned with
total `len L`; it has `len L` entries, their user ids are a rearrangement of `L`, and each
entry carries count and duration of a statistics row of its user, or zeros when no row is for
that user; when the rows have distinct user ids (they are grouped by user), the entry agrees
with every row of its user. -/
theorem GetFriendRanking_full_cohort (sortSlice : (RankingItem → RankingItem → Bool) →
    List RankingItem → List RankingItem) (hsort : SortSliceRearranges sortSlice)
    (stats : List RecordStat) (L : List Nat) (pageSize : Int)
    (hsize : (L.length : Int) ≤ pageSize) (hint : pageSize < 2 ^ 63) :
    ∃ items, GetFriendRanking sortSlice (Except.ok stats) L 1 pageSize
        = Except.ok (items, (L.length : Int), none) ∧
      items.length = L.length ∧
      (items.map fun e => e.UserID).Perm L ∧
      ∀ e ∈ items,
        ((∃ s ∈ stats, s.UserID = e.UserID ∧
            e.RecordCount = s.RecordCount ∧ e.TotalDuration = s.TotalDuration) ∨
          ((∀ s ∈ stats, s.UserID ≠ e.UserID) ∧ e.RecordCount = 0 ∧ e.TotalDuration = 0)) ∧
        ((stats.map fun s => s.UserID).Nodup → ∀ s ∈ stats, s.UserID = e.UserID →
          e.RecordCount = s.RecordCount ∧ e.TotalDuration = s.TotalDuration) := by
  have hlen := length_rankedItems hsort stats L
  refine ⟨rankedItems sortSlice stats L, ?_, hlen, ?_, ?_⟩
  · have := GetFriendRanking_first_page sortSlice stats L pageSize (by rw [hlen]; exact hsize)
      hint
    rw [this, hlen]
  · have hperm := (hsort (allRankingItems stats L)).map fun e => e.UserID
    have hall : (allRankingItems stats L).map (fun e => e.UserID) = L := by
      simp only [allRankingItems, List.map_map]
      conv_rhs => rw [← List.map_id L]
      apply List.map_congr_left
      intro u _
      simp [rankingItemOf_UserID]
    rw [hall] at hperm
    simpa [rankedItems, map_UserID_setRanksFrom] using hperm
  · intro e he
    obtain ⟨x, hx, hu, hc, hd⟩ := mem_setRanksFrom he
    have hx' : x ∈ allRankingItems stats L := ((hsort _).mem_iff).mp hx
    simp only [allRankingItems, List.mem_map] at hx'
    obtain ⟨u, _, rfl⟩ := hx'
    rw [rankingItemOf_UserID] at hu
    rw [hu, hc, hd]
    exact ⟨rankingItemOf_cases stats u, fun hnodup => (rankingItemOf_stats stats u hnodup).1⟩

theorem GetFriendRanking_full_cohort_witness :
    ∃ items, GetFriendRanking goSortSlice
        (Except.ok [⟨4, 2, 50⟩, ⟨2, 7, 300⟩]) [1, 2, 3, 4, 5] 1 10
        = Except.ok (items, ((([1, 2, 3, 4, 5] : List Nat).length : Nat) : Int), none) ∧
      items.length = ([1, 2, 3, 4, 5] : List Nat).length ∧
      (items.map fun e => e.UserID).Perm [1, 2, 3, 4, 5] ∧
      ∀ e ∈ items,
        ((∃ s ∈ ([⟨4, 2, 50⟩, ⟨2, 7, 300⟩] : List RecordStat), s.UserID = e.UserID ∧
            e.RecordCount = s.RecordCount ∧ e.TotalDuration = s.TotalDuration) ∨
          ((∀ s ∈ ([⟨4, 2, 50⟩, ⟨2, 7, 300⟩] : List RecordStat), s.UserID ≠ e.UserID) ∧
            e.RecordCount = 0 ∧ e.TotalDuration = 0)) ∧
        ((([⟨4, 2, 50⟩, ⟨2, 7, 300⟩] : List RecordStat).map fun s => s.UserID).Nodup →
          ∀ s ∈ ([⟨4, 2, 50⟩, ⟨2, 7, 300⟩] : List RecordStat), s.UserID = e.UserID →
            e.RecordCount = s.RecordCount ∧ e.TotalDuration = s.TotalDuration) :=
  GetFriendRanking_full_cohort goSortSlice goSortSlice_rearranges
    [⟨4, 2, 50⟩, ⟨2, 7, 300⟩] [1, 2, 3, 4, 5] 10 (by decide) (by decide)

/-- With a sort that meets the contract of `sort.Slice`, the full ranked list, returned as
the first page with a page size of at least `len L`, is in descending order of `RecordCount`. -/
theorem GetFriendRanking_ordered_of_contract (sortSlice : (RankingItem → RankingItem → Bool) →
    List RankingItem → List RankingItem) (hsort : SortSliceContract sortSlice)
    (stats : List RecordStat) (L : List Nat) (pageSize : Int)
    (hsize : (L.length : Int) ≤ pageSize) (hint : pageSize < 2 ^ 63) :
    ∃ items, GetFriendRanking sortSlice (Except.ok stats) L 1 pageSize
        = Except.ok (items, (L.length : Int), none) ∧
      items.Pairwise (fun x y => x.RecordCount ≥ y.RecordCount) ∧
      ∀ x ∈ items, ∀ y ∈ items, x.Rank < y.Rank → x.RecordCount ≥ y.RecordCount := by
  have hlen := length_rankedItems hsort.rearranges stats L
  have hpw : (rankedItems sortSlice stats L).Pairwise fun x y =>
      x.Rank < y.Rank ∧ 0 < x.Rank ∧ x.RecordCount ≥ y.RecordCount :=
    pairwise_setRanksFrom (hsort (allRankingItems stats L)).2
  refine ⟨rankedItems sortSlice stats L, ?_, hpw.imp fun h => h.2.2, ?_⟩
  · have := GetFriendRanking_first_page sortSlice stats L pageSize (by rw [hlen]; exact hsize)
      hint
    rw [this, hlen]
  · intro x hx y hy hrank
    rcases pairwise_mem_cases hpw x hx y hy with rfl | h | h
    · exact le_refl _
    · exact h.2.2
    · have := h.1
      omega

/-- C17: with the library sort as modelled, the full ranked list, returned as the first page
with a page size of at least `len L`, is in descending order of `RecordCount`: an entry never
has a smaller count than a later one, nor than one of greater `Rank`. -/
theorem GetFriendRanking_ordered_by_count (stats : List RecordStat) (L : List Nat)
    (pageSize : Int) (hsize : (L.length : Int) ≤ pageSize) (hint : pageSize < 2 ^ 63) :
    ∃ items, GetFriendRanking goSortSlice (Except.ok stats) L 1 pageSize
        = Except.ok (items, (L.length : Int), none) ∧
      items.Pairwise (fun x y => x.RecordCount ≥ y.RecordCount) ∧
      ∀ x ∈ items, ∀ y ∈ items, x.Rank < y.Rank → x.RecordCount ≥ y.RecordCount :=
  GetFriendRanking_ordered_of_contract goSortSlice goSortSlice_contract stats L pageSize hsize
    hint

theorem GetFriendRanking_ordered_by_count_witness :
    ∃ items, GetFriendRanking goSortSlice
        (Except.ok [⟨4, 2, 50⟩, ⟨2, 7, 300⟩, ⟨13, 7, 10⟩])
        [1, 2, 3, 4, 5, 6, 7, 8, 9, 10, 11, 12, 13, 14] 1 20
        = Except.ok (items,
            ((([1, 2, 3, 4, 5, 6, 7, 8, 9, 10, 11, 12, 13, 14] : List Nat).length : Nat) : Int),
            none) ∧
      items.Pairwise (fun x y => x.RecordCount ≥ y.RecordCount) ∧
      ∀ x ∈ items, ∀ y ∈ items, x.Rank < y.Rank → x.RecordCount ≥ y.RecordCount :=
  GetFriendRanking_ordered_by_count [⟨4, 2, 50⟩, ⟨2, 7, 300⟩, ⟨13, 7, 10⟩]
    [1, 2, 3, 4, 5, 6, 7, 8, 9, 10, 11, 12, 13, 14] 20 (by decide) (by decide)

/-! ## The friend ranking: ties -/

theorem swapAt_cons_succ {α : Type} (x : α) (xs : List α) (i j : Nat) :
    swapAt (x :: xs) (i + 1) (j + 1) = x :: swapAt xs i j := by
  simp only [swapAt, List.getElem?_cons_succ]
  cases xs[i]? <;> cases xs[j]? <;> simp

theorem lessAt_cons_succ {α : Type} (less : α → α → Bool) (x : α) (xs : List α) (i j : Nat) :
    lessAt less (x :: xs) (i + 1) (j + 1) = lessAt less xs i j := by
  simp only [lessAt, List.getElem?_cons_succ]

/-- An adjacent swap made by a sort under `byRecordCountDesc` exchanges two items of
different counts, so the items of each count keep their order. -/
theorem filter_swapAt_adjacent (c : Int) (data : List RankingItem) (j : Nat)
    (h : lessAt byRecordCountDesc data (j + 1) j = true) :
    (swapAt data (j + 1) j).filter (fun e => e.RecordCount == c)
      = data.filter fun e => e.RecordCount == c := by
  induction data generalizing j with
  | nil => simp [lessAt] at h
  | cons x xs ih =>
    cases j with
    | zero =>
      cases xs with
      | nil => simp [lessAt] at h
      | cons y ys =>
        have hlt : x.RecordCount < y.RecordCount := by
          simpa [lessAt, byRecordCountDesc] using h
        have hswap : swapAt (x :: y :: ys) (0 + 1) 0 = y :: x :: ys := by
          simp [swapAt]
        rw [hswap]
        by_cases hx : x.RecordCount = c
        · have hy : ¬ y.RecordCount = c := by omega
          simp [List.filter_cons, hx, hy]
        · simp [List.filter_cons, hx]
    | succ j =>
      rw [lessAt_cons_succ] at h
      rw [swapAt_cons_succ]
      simp only [List.filter_cons, ih j h]

theorem insertionSort_inner_stable (c : Int) (a j : Nat) (data : List RankingItem) :
    (insertionSort_inner byRecordCountDesc a j data).filter (fun e => e.RecordCount == c)
        = data.filter (fun e => e.RecordCount == c) ∧
      (insertionSort_inner byRecordCountDesc a j data).length = data.length := by
  induction j generalizing data with
  | zero => exact ⟨rfl, rfl⟩
  | succ j ih =>
    unfold insertionSort_inner
    split
    · rename_i hcond
      obtain ⟨h1, h2⟩ := ih (swapAt data (j + 1) j)
      exact ⟨h1.trans (filter_swapAt_adjacent c data j hcond.2),
        h2.trans (length_swapAt data _ _)⟩
    · exact ⟨rfl, rfl⟩

theorem insertionSort_outer_stable (c : Int) (a b n i : Nat) (data : List RankingItem) :
    (insertionSort_outer byRecordCountDesc a b n i data).filter (fun e => e.RecordCount == c)
        = data.filter (fun e => e.RecordCount == c) ∧
      (insertionSort_outer byRecordCountDesc a b n i data).length = data.length := by
  induction n generalizing i data with
  | zero => exact ⟨rfl, rfl⟩
  | succ n ih =>
    unfold insertionSort_outer
    split
    · obtain ⟨h1, h2⟩ := ih (i + 1) (insertionSort_inner byRecordCountDesc a i data)
      obtain ⟨h3, h4⟩ := insertionSort_inner_stable c a i data
      exact ⟨h1.trans h3, h2.trans h4⟩
    · exact ⟨rfl, rfl⟩

theorem goSortSlice_eq_insertionSort {α : Type} (less : α → α → Bool) (data : List α)
    (h : data.length ≤ 12) :
    goSortSlice less data = insertionSort_func less data 0 data.length := by
  simp [goSortSlice, pdqsort_func, h]

/-- On at most 12 items `sort.Slice` keeps the items of each count in order and keeps the
length. -/
theorem goSortSlice_stable_of_length_le (c : Int) (data : List RankingItem)
    (h : data.length ≤ 12) :
    (goSortSlice byRecordCountDesc data).filter (fun e => e.RecordCount == c)
        = data.filter (fun e => e.RecordCount == c) ∧
      (goSortSlice byRecordCountDesc data).length = data.length := by
  rw [goSortSlice_eq_insertionSort _ _ h]
  exact insertionSort_outer_stable c 0 data.length _ _ data

/-- C18, as stated, fails beyond 12 members: in the cohort of users 1 to 13 only user 13
has events; `sort.Slice` takes the partition path and ranks user 7 second and user 1
seventh, although both have count 0 and user 1 comes first in the cohort (user 2 is moved
behind users 3 to 12 as well). -/
theorem GetFriendRanking_ties_reordered :
    GetFriendRanking goSortSlice (Except.ok [⟨13, 1, 30⟩])
        [1, 2, 3, 4, 5, 6, 7, 8, 9, 10, 11, 12, 13] 1 13
      = Except.ok ([⟨1, 13, "", "", 1, 30⟩, ⟨2, 7, "", "", 0, 0⟩, ⟨3, 3, "", "", 0, 0⟩,
          ⟨4, 4, "", "", 0, 0⟩, ⟨5, 5, "", "", 0, 0⟩, ⟨6, 6, "", "", 0, 0⟩,
          ⟨7, 1, "", "", 0, 0⟩, ⟨8, 8, "", "", 0, 0⟩, ⟨9, 9, "", "", 0, 0⟩,
          ⟨10, 10, "", "", 0, 0⟩, ⟨11, 11, "", "", 0, 0⟩, ⟨12, 12, "", "", 0, 0⟩,
          ⟨13, 2, "", "", 0, 0⟩], 13, none) := by
  rfl

/-- C18, amended: for a cohort of at most 12 members, in the full ranked list (the first
page with a page size of at least `len L`) the users of each event count appear in the order
in which they appear in the cohort list. -/
theorem GetFriendRanking_ties_keep_order (stats : List RecordStat) (L : List Nat)
    (pageSize : Int) (hshort : L.length ≤ 12)
    (hsize : (L.length : Int) ≤ pageSize) (hint : pageSize < 2 ^ 63) :
    ∃ items, GetFriendRanking goSortSlice (Except.ok stats) L 1 pageSize
        = Except.ok (items, (L.length : Int), none) ∧
      ∀ c : Int, (items.filter fun e => e.RecordCount == c).map (fun e => e.UserID)
        = L.filter fun u => (rankingItemOf (statsMapOf stats) u).RecordCount == c := by
  have hall : (allRankingItems stats L).length ≤ 12 := by
    simpa [allRankingItems] using hshort
  have hlen : (rankedItems goSortSlice stats L).length = L.length := by
    simp only [rankedItems, length_setRanksFrom,
      (goSortSlice_stable_of_length_le 0 _ hall).2]
    simp [allRankingItems]
  refine ⟨rankedItems goSortSlice stats L, ?_, ?_⟩
  · have := GetFriendRanking_first_page goSortSlice stats L pageSize
      (by rw [hlen]; exact hsize) hint
    rw [this, hlen]
  · intro c
    simp only [rankedItems]
    rw [filter_count_setRanksFrom, (goSortSlice_stable_of_length_le c _ hall).1]
    simp only [allRankingItems, List.filter_map, List.map_map]
    conv_rhs => rw [← List.map_id (L.filter _)]
    apply List.map_congr_left
    intro u _
    simp [rankingItemOf_UserID]

theorem GetFriendRanking_ties_keep_order_witness :
    ∃ items, GetFriendRanking goSortSlice (Except.ok [⟨3, 2, 60⟩]) [4, 1, 3, 2] 1 10
        = Except.ok (items, ((([4, 1, 3, 2] : List Nat).length : Nat) : Int), none) ∧
      ∀ c : Int, (items.filter fun e => e.RecordCount == c).map (fun e => e.UserID)
        = ([4, 1, 3, 2] : List Nat).filter fun u =>
            (rankingItemOf (statsMapOf [⟨3, 2, 60⟩]) u).RecordCount == c :=
  GetFriendRanking_ties_keep_order [⟨3, 2, 60⟩] [4, 1, 3, 2] 10 (by decide) (by decide)
    (by decide)

/-! ## The friend ranking: pages -/

theorem rankedItems_rank {sortSlice : (RankingItem → RankingItem → Bool) →
    List RankingItem → List RankingItem} {stats : List RecordStat} {L : List Nat}
    {i : Nat} {e : RankingItem} (h : (rankedItems sortSlice stats L)[i]? = some e) :
    e.Rank = i + 1 := by
  simp only [rankedItems, getElem?_setRanksFrom] at h
  cases hx : (sortSlice byRecordCountDesc (allRankingItems stats L))[i]? with
  | none => simp [hx] at h
  | some x =>
    simp only [hx, Option.map_some', Option.some.injEq] at h
    subst h
    simp

/-- A returned page is a run of consecutive entries of the full ranked list, starting at
the computed offset. -/
theorem GetFriendRanking_ok_getElem {sortSlice : (RankingItem → RankingItem → Bool) →
    List RankingItem → List RankingItem} {stats : List RecordStat} {L : List Nat}
    {page pageSize : Int} {items : List RankingItem} {total : Int} {err : Option QueryError}
    (h : GetFriendRanking sortSlice (Except.ok stats) L page pageSize
      = Except.ok (items, total, err)) :
    ∃ o : Nat, (items ≠ [] → (o : Int) = wrapInt (wrapInt (page - 1) * pageSize)) ∧
      ∀ (k : Nat) (e : RankingItem), items[k]? = some e →
        (rankedItems sortSlice stats L)[o + k]? = some e := by
  unfold GetFriendRanking at h
  simp only at h
  generalize wrapInt (wrapInt (page - 1) * pageSize) = offset at h ⊢
  generalize rankedItems sortSlice stats L = full at h ⊢
  by_cases hlt : offset < (full.length : Int)
  · simp only [hlt, if_true] at h
    generalize (if wrapInt (offset + pageSize) > (full.length : Int) then (full.length : Int)
      else wrapInt (offset + pageSize)) = stop at h
    unfold sliceExpr at h
    by_cases hcond : 0 ≤ offset ∧ offset ≤ stop ∧ stop ≤ (full.length : Int)
    · rw [if_pos hcond] at h
      simp only [Except.ok.injEq, Prod.mk.injEq] at h
      obtain ⟨rfl, -, -⟩ := h
      refine ⟨offset.toNat, fun _ => Int.toNat_of_nonneg hcond.1, ?_⟩
      intro k e hk
      rw [List.getElem?_take] at hk
      split at hk
      · rw [List.getElem?_drop] at hk
        exact hk
      · cases hk
    · rw [if_neg hcond] at h
      cases h
  · rw [if_neg hlt] at h
    simp only [Except.ok.injEq, Prod.mk.injEq] at h
    obtain ⟨rfl, -, -⟩ := h
    exact ⟨0, fun hne => absurd rfl hne, fun k e hk => by simp at hk⟩

/-- C19, as stated, fails when the offset overflows: with `page = 2^32 + 1` and
`pageSize = 2^32` the product wraps to 0, the first entry of the list is returned with
`Rank` 1, and `(page - 1) * pageSize + 0 + 1` is `2^64 + 1`. -/
theorem GetFriendRanking_rank_formula_overflow :
    GetFriendRanking goSortSlice (Except.ok []) [5] 4294967297 4294967296
        = Except.ok ([⟨1, 5, "", "", 0, 0⟩], 1, none) ∧
      ((1 : Nat) : Int) ≠ (4294967297 - 1) * 4294967296 + 0 + 1 := by
  constructor
  · rfl
  · decide

/-- C19, amended: for a cohort of distinct ids, (1) an entry of a returned page is the
entry at some index `i` of the full ranked list and carries `Rank = i + 1`; (2) two entries
of the same user returned by two requests, whatever their pages and page sizes, carry the same
`Rank`; (3) for `page = p ≥ 1` and `pageSize = s ≥ 1` with `(p - 1) * s` within the `int`
range, the entry at position `k` of the returned page carries `Rank = (p - 1) * s + k + 1`. -/
theorem GetFriendRanking_rank_stable (sortSlice : (RankingItem → RankingItem → Bool) →
    List RankingItem → List RankingItem) (hsort : SortSliceRearranges sortSlice)
    (stats : List RecordStat) (L : List Nat) (hnodup : L.Nodup) :
    (∀ (page pageSize : Int) (items : List RankingItem) (total : Int)
        (err : Option QueryError),
        GetFriendRanking sortSlice (Except.ok stats) L page pageSize
          = Except.ok (items, total, err) →
        ∀ (k : Nat) (e : RankingItem), items[k]? = some e →
          ∃ i : Nat, (rankedItems sortSlice stats L)[i]? = some e ∧ e.Rank = i + 1) ∧
      (∀ (page pageSize page' pageSize' : Int) (items items' : List RankingItem)
        (total total' : Int) (err err' : Option QueryError),
        GetFriendRanking sortSlice (Except.ok stats) L page pageSize
          = Except.ok (items, total, err) →
        GetFriendRanking sortSlice (Except.ok stats) L page' pageSize'
          = Except.ok (items', total', err') →
        ∀ e ∈ items, ∀ e' ∈ items', e.UserID = e'.UserID → e.Rank = e'.Rank) ∧
      (∀ (p s : Nat) (items : List RankingItem) (total : Int) (err : Option QueryError),
        1 ≤ p → 1 ≤ s → (p - 1) * s < 2 ^ 63 →
        GetFriendRanking sortSlice (Except.ok stats) L (p : Int) (s : Int)
          = Except.ok (items, total, err) →
        ∀ (k : Nat) (e : RankingItem), items[k]? = some e →
          e.Rank = (p - 1) * s + k + 1) := by
  have hmem : ∀ (page pageSize : Int) (items : List RankingItem) (total : Int)
      (err : Option QueryError),
      GetFriendRanking sortSlice (Except.ok stats) L page pageSize
        = Except.ok (items, total, err) →
      ∀ e ∈ items, e ∈ rankedItems sortSlice stats L := by
    intro page pageSize items total err h e he
    obtain ⟨o, -, hget⟩ := GetFriendRanking_ok_getElem h
    obtain ⟨k, hk⟩ := List.getElem?_of_mem he
    exact List.getElem?_mem (hget k e hk)
  have hids : ((rankedItems sortSlice stats L).map fun e => e.UserID).Nodup := by
    have hperm := (hsort (allRankingItems stats L)).map fun e => e.UserID
    have hall : (allRankingItems stats L).map (fun e => e.UserID) = L := by
      simp only [allRankingItems, List.map_map]
      conv_rhs => rw [← List.map_id L]
      apply List.map_congr_left
      intro u _
      simp [rankingItemOf_UserID]
    rw [hall] at hperm
    simp only [rankedItems, map_UserID_setRanksFrom]
    exact hperm.nodup_iff.mpr hnodup
  refine ⟨?_, ?_, ?_⟩
  · intro page pageSize items total err h k e hk
    obtain ⟨o, -, hget⟩ := GetFriendRanking_ok_getElem h
    exact ⟨o + k, hget k e hk, rankedItems_rank (hget k e hk)⟩
  · intro page pageSize page' pageSize' items items' total total' err err' h h' e he e' he' hu
    have := List.inj_on_of_nodup_map hids (hmem _ _ _ _ _ h e he) (hmem _ _ _ _ _ h' e' he') hu
    rw [this]
  · intro p s items total err hp hs hno h k e hk
    obtain ⟨o, ho, hget⟩ := GetFriendRanking_ok_getElem h
    have hne : items ≠ [] := by
      intro hnil
      rw [hnil] at hk
      simp at hk
    have hoff := ho hne
    obtain ⟨q, rfl⟩ : ∃ q, p = q + 1 := ⟨p - 1, by omega⟩
    simp only [Nat.add_sub_cancel] at hno ⊢
    have hq : q ≤ q * s := Nat.le_mul_of_pos_right q hs
    have h1 : wrapInt (((q + 1 : Nat) : Int) - 1) = (q : Int) := by
      have : (((q + 1 : Nat) : Int) - 1) = (q : Int) := by push_cast; omega
      rw [this]
      exact wrapInt_eq_self (by omega) (by omega)
    have h2 : wrapInt ((q : Int) * (s : Int)) = ((q * s : Nat) : Int) := by
      have : (q : Int) * (s : Int) = ((q * s : Nat) : Int) := by push_cast; rfl
      rw [this]
      exact wrapInt_eq_self (by omega) (by omega)
    rw [h1, h2] at hoff
    have hoq : o = q * s := by exact_mod_cast hoff
    rw [rankedItems_rank (hget k e hk), hoq]

theorem GetFriendRanking_rank_stable_witness :
    (⟨4, 40, "", "", 0, 0⟩ : RankingItem).Rank = (2 - 1) * 2 + 1 + 1 :=
  (GetFriendRanking_rank_stable goSortSlice goSortSlice_rearranges
    [⟨20, 5, 100⟩, ⟨30, 2, 40⟩] [10, 20, 30, 40, 50] (by decide)).2.2 2 2
    [⟨3, 10, "", "", 0, 0⟩, ⟨4, 40, "", "", 0, 0⟩] 5 none (by decide) (by decide) (by decide)
    (by rfl) 1 ⟨4, 40, "", "", 0, 0⟩ (by rfl)

/-- C20, as stated, fails when the offset overflows: with `page = 2^62 + 1` and
`pageSize = 2` the product wraps to `-2^63`, which is below the length, and the slice
expression panics: no page is returned. -/
theorem GetFriendRanking_page_overflow_panics :
    GetFriendRanking goSortSlice (Except.ok []) [5] 4611686018427387905 2
      = Except.error GoPanic.sliceBoundsOutOfRange := by
  rfl

/-- The page `page = p`, `pageSize = s` when the offset `(p - 1) * s` fits the `int`, for a
page size that is an `int` and a list shorter than `2^62`. -/
theorem GetFriendRanking_eq_slice_of_offset (sortSlice : (RankingItem → RankingItem → Bool) →
    List RankingItem → List RankingItem) (stats : List RecordStat) (L : List Nat)
    (p s : Nat) (hp : 1 ≤ p) (hs : 1 ≤ s) (hoff : (p - 1) * s < 2 ^ 63) (hsint : s < 2 ^ 63)
    (hlen : (rankedItems sortSlice stats L).length < 2 ^ 62) :
    GetFriendRanking sortSlice (Except.ok stats) L (p : Int) (s : Int)
      = Except.ok
          (if (rankedItems sortSlice stats L).length ≤ (p - 1) * s then []
            else ((rankedItems sortSlice stats L).take
              (min ((p - 1) * s + s) (rankedItems sortSlice stats L).length)).drop ((p - 1) * s),
            ((rankedItems sortSlice stats L).length : Int), none) := by
  by_cases hno : (p - 1) * s + s < 2 ^ 63
  · exact GetFriendRanking_eq_slice sortSlice stats L p s hp hs hno
  · obtain ⟨q, rfl⟩ : ∃ q, p = q + 1 := ⟨p - 1, by omega⟩
    simp only [Nat.add_sub_cancel] at hoff hno ⊢
    have hq : q ≤ q * s := Nat.le_mul_of_pos_right q hs
    have hsq : q = 0 ∨ s ≤ q * s := by
      rcases Nat.eq_zero_or_pos q with h | h
      · exact Or.inl h
      · exact Or.inr (Nat.le_mul_of_pos_left s h)
    have h1 : wrapInt (((q + 1 : Nat) : Int) - 1) = (q : Int) := by
      have : (((q + 1 : Nat) : Int) - 1) = (q : Int) := by push_cast; omega
      rw [this]
      exact wrapInt_eq_self (by omega) (by omega)
    have h2 : wrapInt ((q : Int) * (s : Int)) = ((q * s : Nat) : Int) := by
      have : (q : Int) * (s : Int) = ((q * s : Nat) : Int) := by push_cast; rfl
      rw [this]
      exact wrapInt_eq_self (by omega) (by omega)
    have hbig : (rankedItems sortSlice stats L).length ≤ q * s := by
      rcases hsq with h | h
      · subst h
        simp only [Nat.zero_mul, Nat.zero_add] at hno
        omega
      · omega
    have hnot : ¬ (((q * s : Nat) : Int) < ((rankedItems sortSlice stats L).length : Int)) := by
      omega
    simp only [GetFriendRanking, h1, h2, hnot, if_false, hbig, if_true]

/-- C20, amended: for `page = p ≥ 1` and `pageSize = s ≥ 1` (an `int`) such that the offset
`(p - 1) * s` fits the `int`, and a cohort of `n = len L < 2^62` members: the call returns the
empty page when `offset ≥ n` and otherwise the entries `[offset : min(offset + s, n)]` of the
full ranked list, and in both cases the total `n`. -/
theorem GetFriendRanking_page (sortSlice : (RankingItem → RankingItem → Bool) →
    List RankingItem → List RankingItem) (hsort : SortSliceRearranges sortSlice)
    (stats : List RecordStat) (L : List Nat) (p s : Nat) (hp : 1 ≤ p) (hs : 1 ≤ s)
    (hoff : (p - 1) * s < 2 ^ 63) (hsint : s < 2 ^ 63) (hL : L.length < 2 ^ 62) :
    GetFriendRanking sortSlice (Except.ok stats) L (p : Int) (s : Int)
      = Except.ok
          (if L.length ≤ (p - 1) * s then []
            else ((rankedItems sortSlice stats L).take (min ((p - 1) * s + s) L.length)).drop
              ((p - 1) * s),
            (L.length : Int), none) := by
  rw [GetFriendRanking_eq_slice_of_offset sortSlice stats L p s hp hs hoff hsint
    (by rw [length_rankedItems hsort]; exact hL), length_rankedItems hsort]

theorem GetFriendRanking_page_witness :
    GetFriendRanking goSortSlice (Except.ok [⟨20, 5, 100⟩, ⟨30, 2, 40⟩])
        [10, 20, 30, 40, 50] ((2 : Nat) : Int) ((9223372036854775807 : Nat) : Int)
      = Except.ok
          (if ([10, 20, 30, 40, 50] : List Nat).length ≤ (2 - 1) * 9223372036854775807 then []
            else ((rankedItems goSortSlice [⟨20, 5, 100⟩, ⟨30, 2, 40⟩]
              [10, 20, 30, 40, 50]).take
                (min ((2 - 1) * 9223372036854775807 + 9223372036854775807)
                  ([10, 20, 30, 40, 50] : List Nat).length)).drop
              ((2 - 1) * 9223372036854775807),
            ((([10, 20, 30, 40, 50] : List Nat).length : Nat) : Int), none) :=
  GetFriendRanking_page goSortSlice goSortSlice_rearranges
    [⟨20, 5, 100⟩, ⟨30, 2, 40⟩] [10, 20, 30, 40, 50] 2 9223372036854775807
    (by decide) (by decide) (by decide) (by decide) (by decide)

/-! ## The friend ranking: scenario, global ranking, failures -/

/-- A rearrangement of the three items of the scenario that is in descending order of count
is the list of users 10, 30, 20. -/
theorem sorted_scenario_items {l : List RankingItem}
    (hperm : l.Perm [⟨0, 10, "", "", 3, 90⟩, ⟨0, 20, "", "", 0, 0⟩, ⟨0, 30, "", "", 1, 30⟩])
    (hsorted : l.Pairwise fun x y => byRecordCountDesc y x = false) :
    l = [⟨0, 10, "", "", 3, 90⟩, ⟨0, 30, "", "", 1, 30⟩, ⟨0, 20, "", "", 0, 0⟩] := by
  have hlen := hperm.length_eq
  have hnodup : l.Nodup := hperm.nodup_iff.mpr (by decide)
  match l, hlen with
  | [x, y, z], _ =>
    have hx : x ∈ [x, y, z] := by simp
    have hy : y ∈ [x, y, z] := by simp
    have hz : z ∈ [x, y, z] := by simp
    rw [hperm.mem_iff] at hx hy hz
    simp only [List.mem_cons, List.mem_singleton, List.not_mem_nil, or_false] at hx hy hz
    rcases hx with rfl | rfl | rfl <;> rcases hy with rfl | rfl | rfl <;>
      rcases hz with rfl | rfl | rfl <;>
      first
        | rfl
        | (exfalso; revert hnodup; decide)
        | (exfalso; revert hsorted; decide)

/-- C21: for the cohort `[10, 20, 30]` with the statistics rows of user 10 (3 events, 90 s)
and user 30 (1 event, 30 s), page 1 of size 10 is the entries of users 10, 30, 20 with ranks
1, 2, 3, and the total is 3: with the library sort as modelled, and with every sort that
meets the contract of `sort.Slice`. -/
theorem GetFriendRanking_scenario :
    GetFriendRanking goSortSlice (Except.ok [⟨10, 3, 90⟩, ⟨30, 1, 30⟩]) [10, 20, 30] 1 10
        = Except.ok ([⟨1, 10, "", "", 3, 90⟩, ⟨2, 30, "", "", 1, 30⟩, ⟨3, 20, "", "", 0, 0⟩],
            3, none) ∧
      ∀ sortSlice : (RankingItem → RankingItem → Bool) → List RankingItem → List RankingItem,
        SortSliceContract sortSlice →
        GetFriendRanking sortSlice (Except.ok [⟨10, 3, 90⟩, ⟨30, 1, 30⟩]) [10, 20, 30] 1 10
          = Except.ok ([⟨1, 10, "", "", 3, 90⟩, ⟨2, 30, "", "", 1, 30⟩,
              ⟨3, 20, "", "", 0, 0⟩], 3, none) := by
  refine ⟨by rfl, ?_⟩
  intro sortSlice hsort
  have hall : allRankingItems [⟨10, 3, 90⟩, ⟨30, 1, 30⟩] [10, 20, 30]
      = [⟨0, 10, "", "", 3, 90⟩, ⟨0, 20, "", "", 0, 0⟩, ⟨0, 30, "", "", 1, 30⟩] := by
    rfl
  have hsorted := hsort (allRankingItems [⟨10, 3, 90⟩, ⟨30, 1, 30⟩] [10, 20, 30])
  rw [hall] at hsorted
  have hlist := sorted_scenario_items hsorted.1 hsorted.2
  have hranked : rankedItems sortSlice [⟨10, 3, 90⟩, ⟨30, 1, 30⟩] [10, 20, 30]
      = [⟨1, 10, "", "", 3, 90⟩, ⟨2, 30, "", "", 1, 30⟩, ⟨3, 20, "", "", 0, 0⟩] := by
    simp only [rankedItems, hall, hlist]
    rfl
  have hpage := GetFriendRanking_first_page sortSlice [⟨10, 3, 90⟩, ⟨30, 1, 30⟩]
    [10, 20, 30] 10 (by rw [hranked]; decide) (by decide)
  rw [hpage, hranked]
  rfl

theorem GetFriendRanking_scenario_witness :
    GetFriendRanking insertionSortSlice (Except.ok [⟨10, 3, 90⟩, ⟨30, 1, 30⟩]) [10, 20, 30]
        1 10
      = Except.ok ([⟨1, 10, "", "", 3, 90⟩, ⟨2, 30, "", "", 1, 30⟩, ⟨3, 20, "", "", 0, 0⟩],
          3, none) :=
  GetFriendRanking_scenario.2 insertionSortSlice insertionSortSlice_contract

/-- C22: when the statistics query returns `rows` for the limit, `GetGlobalRanking` returns no
error and as many items as rows; the item at index `i` has the user id, count and duration of
the row at index `i` and `Rank = i + 1`; so with at most `limit` rows it has at most `limit`
items. -/
theorem GetGlobalRanking_keeps_rows (scan : Int → Except QueryError (List RecordStat))
    (limit : Int) (rows : List RecordStat) (hscan : scan limit = Except.ok rows) :
    ∃ items, GetGlobalRanking scan limit = (items, none) ∧
      items.length = rows.length ∧
      (∀ (i : Nat) (row : RecordStat), rows[i]? = some row →
        items[i]? = some ⟨i + 1, row.UserID, "", "", row.RecordCount, row.TotalDuration⟩) ∧
      ((rows.length : Int) ≤ limit → (items.length : Int) ≤ limit) := by
  refine ⟨setRanksFrom 0 (rows.map fun row =>
      { Rank := 0, UserID := row.UserID, Nickname := "", AvatarURL := "",
        RecordCount := row.RecordCount, TotalDuration := row.TotalDuration }),
    by simp only [GetGlobalRanking, hscan], ?_, ?_, ?_⟩
  · simp [length_setRanksFrom]
  · intro i row hrow
    simp [getElem?_setRanksFrom, List.getElem?_map, hrow]
  · intro h
    simpa [length_setRanksFrom] using h

theorem GetGlobalRanking_keeps_rows_witness :
    ∃ items, GetGlobalRanking (fun _ => Except.ok [⟨3, 5, 10⟩, ⟨4, 5, 20⟩]) 10 = (items, none) ∧
      items.length = ([⟨3, 5, 10⟩, ⟨4, 5, 20⟩] : List RecordStat).length ∧
      (∀ (i : Nat) (row : RecordStat),
        ([⟨3, 5, 10⟩, ⟨4, 5, 20⟩] : List RecordStat)[i]? = some row →
        items[i]? = some ⟨i + 1, row.UserID, "", "", row.RecordCount, row.TotalDuration⟩) ∧
      (((([⟨3, 5, 10⟩, ⟨4, 5, 20⟩] : List RecordStat).length : Nat) : Int) ≤ 10 →
        (items.length : Int) ≤ 10) :=
  GetGlobalRanking_keeps_rows (fun _ => Except.ok [⟨3, 5, 10⟩, ⟨4, 5, 20⟩]) 10
    [⟨3, 5, 10⟩, ⟨4, 5, 20⟩] rfl

/-- C25: when the statistics query fails with error `e`, `GetFriendRanking` returns no
entries, total 0 and `e`, for every cohort, page and page size; `GetGlobalRanking` returns no
entries and `e`; and the two services return what the repository returns, on every input. -/
theorem ranking_query_failure_returned (sortSlice : (RankingItem → RankingItem → Bool) →
    List RankingItem → List RankingItem) (e : QueryError) (userIDs : List Nat)
    (page pageSize : Int) (scan : Except QueryError (List RecordStat))
    (globalScan : Int → Except QueryError (List RecordStat)) (limit : Int) :
    GetFriendRanking sortSlice (Except.error e) userIDs page pageSize
        = Except.ok ([], 0, some e) ∧
      (globalScan limit = Except.error e → GetGlobalRanking globalScan limit = ([], some e)) ∧
      recordService.GetFriendRanking sortSlice scan userIDs page pageSize
        = GetFriendRanking sortSlice scan userIDs page pageSize ∧
      recordService.GetGlobalRanking globalScan limit = GetGlobalRanking globalScan limit := by
  refine ⟨rfl, ?_, rfl, rfl⟩
  intro h
  simp only [GetGlobalRanking, h]

theorem ranking_query_failure_returned_witness :
    GetGlobalRanking (fun _ => Except.error "context canceled") 10
      = ([], some "context canceled") :=
  (ranking_query_failure_returned goSortSlice "context canceled" [1, 2] 1 10
    (Except.error "context canceled") (fun _ => Except.error "context canceled") 10).2.1 rfl

/-- C28: for `page = p ≥ 1` and `pageSize = s ≥ 1` such that `(p - 1) * s + s` fits the
`int`, the call returns (it does not panic), whatever the outcome of the statistics query; and
for a slice of any length `n`, when the computed offset is below `n`, so that the slice
expression is evaluated, the computed bounds satisfy `0 ≤ offset ≤ end ≤ n`. -/
theorem GetFriendRanking_no_panic (sortSlice : (RankingItem → RankingItem → Bool) →
    List RankingItem → List RankingItem) (scan : Except QueryError (List RecordStat))
    (L : List Nat) (p s : Nat) (hp : 1 ≤ p) (hs : 1 ≤ s) (hno : (p - 1) * s + s < 2 ^ 63) :
    (∃ r, GetFriendRanking sortSlice scan L (p : Int) (s : Int) = Except.ok r) ∧
      ∀ n : Nat, wrapInt (wrapInt ((p : Int) - 1) * (s : Int)) < (n : Int) →
        0 ≤ wrapInt (wrapInt ((p : Int) - 1) * (s : Int)) ∧
        wrapInt (wrapInt ((p : Int) - 1) * (s : Int))
          ≤ (if wrapInt (wrapInt (wrapInt ((p : Int) - 1) * (s : Int)) + (s : Int)) > (n : Int)
              then (n : Int)
              else wrapInt (wrapInt (wrapInt ((p : Int) - 1) * (s : Int)) + (s : Int))) ∧
        (if wrapInt (wrapInt (wrapInt ((p : Int) - 1) * (s : Int)) + (s : Int)) > (n : Int)
            then (n : Int)
            else wrapInt (wrapInt (wrapInt ((p : Int) - 1) * (s : Int)) + (s : Int)))
          ≤ (n : Int) := by
  constructor
  · cases scan with
    | error e => exact ⟨_, rfl⟩
    | ok stats => exact ⟨_, GetFriendRanking_eq_slice sortSlice stats L p s hp hs hno⟩
  · intro n hlt
    obtain ⟨q, rfl⟩ : ∃ q, p = q + 1 := ⟨p - 1, by omega⟩
    simp only [Nat.add_sub_cancel] at hno
    have hq : q ≤ q * s := Nat.le_mul_of_pos_right q hs
    have h1 : wrapInt (((q + 1 : Nat) : Int) - 1) = (q : Int) := by
      have : (((q + 1 : Nat) : Int) - 1) = (q : Int) := by push_cast; omega
      rw [this]
      exact wrapInt_eq_self (by omega) (by omega)
    have h2 : wrapInt ((q : Int) * (s : Int)) = ((q * s : Nat) : Int) := by
      have : (q : Int) * (s : Int) = ((q * s : Nat) : Int) := by push_cast; rfl
      rw [this]
      exact wrapInt_eq_self (by omega) (by omega)
    rw [h1, h2] at hlt ⊢
    generalize q * s = o at hno hlt ⊢
    have h3 : wrapInt ((o : Int) + (s : Int)) = ((o + s : Nat) : Int) := by
      have : (o : Int) + (s : Int) = ((o + s : Nat) : Int) := by push_cast; rfl
      rw [this]
      exact wrapInt_eq_self (by omega) (by omega)
    rw [h3]
    refine ⟨by omega, ?_, ?_⟩ <;> split <;> omega

theorem GetFriendRanking_no_panic_witness :
    ∃ r, GetFriendRanking goSortSlice (Except.ok [⟨20, 5, 100⟩]) [10, 20, 30]
      ((7 : Nat) : Int) ((2 : Nat) : Int) = Except.ok r :=
  (GetFriendRanking_no_panic goSortSlice (Except.ok [⟨20, 5, 100⟩]) [10, 20, 30] 7 2
    (by decide) (by decide) (by decide)).1

/-! ## Pagination parameters, friend lists, cohort -/

/-- The friend-ranking handler passes a page of at least 1 and a positive page size. -/
theorem RankingHandler_pagination_positive (pageQ pageSizeQ : Option String) :
    1 ≤ (RankingHandler.pagination pageQ pageSizeQ).1 ∧
      1 ≤ (RankingHandler.pagination pageQ pageSizeQ).2 := by
  unfold RankingHandler.pagination
  simp only
  constructor <;> split <;> omega

/-- The friend-list and friend-request handlers pass a page of at least 1 and a positive page
size. -/
theorem FriendHandler_pagination_positive (pageQ pageSizeQ : Option String) :
    1 ≤ (FriendHandler.pagination pageQ pageSizeQ).1 ∧
      1 ≤ (FriendHandler.pagination pageQ pageSizeQ).2 := by
  unfold FriendHandler.pagination
  simp only
  constructor <;> split <;> try split
  all_goals omega

/-- C23, the code at the failing inputs: the two record-listing handlers pass the value of
`strconv.Atoi` on, whatever it is: `page=0&size=-5` gives page 0 and size -5, a non-numeric
page gives page 0, and `page=-2&page_size=0` gives page -2 and size 0. -/
theorem RecordHandler_pagination_not_coerced :
    RecordHandler.paginationByUserID (some "0") (some "-5") = (0, -5) ∧
      RecordHandler.paginationByUserID (some "abc") none = (0, 10) ∧
      RecordHandler.paginationByDateRange (some "-2") (some "0") = (-2, 0) := by
  decide

/-- C24, as stated, fails: the only row is Confirmed from user 1 to user 2 and the lookup of
every user fails; `FindByUserID 1`, `FindByUserIDWithPagination` and
`FindFriendRequestsByUserID` return the row without user data and no error. -/
theorem FindByUserID_swallows_lookup_failure :
    FindByUserID (Except.ok [⟨1, 1, 2, 1, 7, 7⟩]) (fun _ => Except.error "connection lost") 1
        = Except.ok [⟨1, 1, 2, 1, 7, 7, none⟩] ∧
      FindByUserIDWithPagination (Except.ok 1) (Except.ok 1) (Except.ok [⟨1, 1, 2, 1, 7, 7⟩])
        (fun _ => Except.error "connection lost") 1 ""
        = Except.ok ([⟨1, 1, 2, 1, 7, 7, none⟩], 1) ∧
      FindFriendRequestsByUserID (Except.ok 1) (Except.ok [⟨1, 1, 2, 0, 7, 7⟩])
        (fun _ => Except.error "connection lost")
        = Except.ok ([⟨1, 1, 2, 0, 7, 7, none⟩], 1) := by
  refine ⟨by rfl, by rfl, by rfl⟩

/-- C24, amended: a failure `e` of a query on table `friends` (the row query of
`FindByUserID`; the count, the count under a keyword and the paged query of
`FindByUserIDWithPagination`; the count and the paged query of
`FindFriendRequestsByUserID`) is returned as the error of the call. A failure of the lookup
of a row's user is not: with its table queries succeeding the call returns no error, and a
row whose lookup failed is returned with its own columns and without user data. -/
theorem friend_list_query_failures (userQuery : Nat → Except QueryError User) (userID : Nat)
    (keyword : String) (e : QueryError) :
    FindByUserID (Except.error e) userQuery userID = Except.error e ∧
      (∀ recount find,
        FindByUserIDWithPagination (Except.error e) recount find userQuery userID keyword
          = Except.error e) ∧
      (∀ total find, keyword ≠ "" →
        FindByUserIDWithPagination (Except.ok total) (Except.error e) find userQuery userID
          keyword = Except.error e) ∧
      (∀ total total',
        FindByUserIDWithPagination (Except.ok total) (Except.ok total') (Except.error e)
          userQuery userID keyword = Except.error e) ∧
      (∀ find, FindFriendRequestsByUserID (Except.error e) find userQuery = Except.error e) ∧
      (∀ total, FindFriendRequestsByUserID (Except.ok total) (Except.error e) userQuery
        = Except.error e) ∧
      (∀ db, FindByUserID (Except.ok db) userQuery userID
        = Except.ok
            ((db.filter fun r =>
              (r.UserID == userID || r.FriendID == userID) && r.Status == 1).map
              (entityWithFriendUser userQuery userID))) ∧
      (∀ (friendModel : Friend) (e' : QueryError),
        userQuery (if friendModel.UserID = userID then friendModel.FriendID
          else friendModel.UserID) = Except.error e' →
        entityWithFriendUser userQuery userID friendModel = friendModel.ToEntity) := by
  refine ⟨rfl, fun _ _ => rfl, ?_, ?_, fun _ => rfl, fun _ => rfl, fun _ => rfl, ?_⟩
  · intro total find hk
    simp [FindByUserIDWithPagination, hk]
  · intro total total'
    by_cases hk : keyword = "" <;> simp [FindByUserIDWithPagination, hk]
  · intro friendModel e' h
    simp only [entityWithFriendUser, h]

theorem friend_list_query_failures_witness :
    FindByUserIDWithPagination (Except.ok 3) (Except.error "connection lost")
        (Except.ok [⟨1, 1, 2, 1, 7, 7⟩]) (fun _ => Except.error "record not found") 1 "an"
        = Except.error "connection lost" ∧
      entityWithFriendUser (fun _ => Except.error "record not found") 1 ⟨1, 1, 2, 1, 7, 7⟩
        = Friend.ToEntity ⟨1, 1, 2, 1, 7, 7⟩ :=
  ⟨(friend_list_query_failures (fun _ => Except.error "record not found") 1 "an"
      "connection lost").2.2.1 3 (Except.ok [⟨1, 1, 2, 1, 7, 7⟩]) (by decide),
    (friend_list_query_failures (fun _ => Except.error "record not found") 1 "an"
      "connection lost").2.2.2.2.2.2.2 ⟨1, 1, 2, 1, 7, 7⟩ "record not found" rfl⟩

/-- The cohort is the requesting user followed by the `FriendID`s other than the user. -/
theorem cohortOfFriends_eq (friends : List FriendEntity) (userID : Nat) :
    cohortOfFriends friends userID
      = userID :: (friends.map fun f => f.FriendID).filter fun id => id != userID := by
  have key : ∀ (acc : List Nat) (fs : List FriendEntity),
      fs.foldl
          (fun friendIDs friend =>
            if friend.FriendID ≠ userID then friendIDs ++ [friend.FriendID] else friendIDs)
          acc
        = acc ++ (fs.map fun f => f.FriendID).filter fun id => id != userID := by
    intro acc fs
    induction fs generalizing acc with
    | nil => simp
    | cons f fs ih =>
      simp only [List.foldl_cons, List.map_cons, List.filter_cons]
      rw [ih]
      by_cases h : f.FriendID = userID <;> simp [h]
  exact key [userID] friends

/-- When the user record of every friend loads, the cohort is the requesting user followed
by the other participant of each Confirmed row touching the user, self rows left out. -/
theorem RankingHandler_cohort_of_loaded_users (db : Store)
    (userQuery : Nat → Except QueryError User) (userID : Nat)
    (hload : ∀ id, ∃ u, userQuery id = Except.ok u) :
    RankingHandler.cohort db userQuery userID
      = Except.ok (userID ::
          ((db.filter fun r =>
              (r.UserID == userID || r.FriendID == userID) && r.Status == 1).map
            fun r => if r.UserID = userID then r.FriendID else r.UserID).filter
            fun id => id != userID) := by
  simp only [RankingHandler.cohort, GetFriendsByUserID, FindByUserID, cohortOfFriends_eq,
    List.map_map]
  congr 3
  apply List.map_congr_left
  intro r _
  obtain ⟨u, hu⟩ := hload (if r.UserID = userID then r.FriendID else r.UserID)
  simp [entityWithFriendUser, hu]

/-- C26, the code at the failing input: the only row is Confirmed from user 5 to user 1 and
the user record of 5 cannot be loaded; `FindByUserID 1` leaves `FriendID = 1` in the entity,
and the cohort of user 1 is `[1]`, without the friend 5. With the record loading, the cohort
is `[1, 5]`. -/
theorem RankingHandler_cohort_misses_unloaded_friend :
    RankingHandler.cohort [⟨1, 5, 1, 1, 7, 7⟩] (fun _ => Except.error "record not found") 1
        = Except.ok [1] ∧
      FindByUserID (Except.ok [⟨1, 5, 1, 1, 7, 7⟩]) (fun _ => Except.error "record not found") 1
        = Except.ok [⟨1, 5, 1, 1, 7, 7, none⟩] ∧
      RankingHandler.cohort [⟨1, 5, 1, 1, 7, 7⟩]
        (fun id => Except.ok ⟨id, "", "", "", 1, 0, 0⟩) 1 = Except.ok [1, 5] := by
  refine ⟨by rfl, by rfl, by rfl⟩

/-- The page `page = p`, `pageSize = s` is `s` entries of the full list from `(p - 1) * s`
on, when the offset `(p - 1) * s` fits the `int`. -/
theorem GetFriendRanking_eq_drop_take (sortSlice : (RankingItem → RankingItem → Bool) →
    List RankingItem → List RankingItem) (stats : List RecordStat) (L : List Nat)
    (p s : Nat) (hp : 1 ≤ p) (hs : 1 ≤ s) (hoff : (p - 1) * s < 2 ^ 63) (hsint : s < 2 ^ 63)
    (hlen62 : (rankedItems sortSlice stats L).length < 2 ^ 62) :
    GetFriendRanking sortSlice (Except.ok stats) L (p : Int) (s : Int)
      = Except.ok (((rankedItems sortSlice stats L).drop ((p - 1) * s)).take s,
          ((rankedItems sortSlice stats L).length : Int), none) := by
  rw [GetFriendRanking_eq_slice_of_offset sortSlice stats L p s hp hs hoff hsint hlen62]
  generalize rankedItems sortSlice stats L = full
  generalize (p - 1) * s = o
  congr 2
  by_cases hlen : full.length ≤ o
  · simp [hlen, List.drop_eq_nil_of_le hlen]
  · simp only [hlen, if_false, List.drop_take]
    by_cases hfit : o + s ≤ full.length
    · have : min (o + s) full.length - o = s := by omega
      rw [this]
    · have hm : min (o + s) full.length - o = full.length - o := by omega
      rw [hm, List.take_of_length_le (by simp), List.take_of_length_le (by simp; omega)]

/-- Cutting a list into `k` runs of `s` entries and joining them gives the list back, when
`k * s` covers its length. -/
theorem join_chunks {α : Type} (s : Nat) (k : Nat) (l : List α) (hk : l.length ≤ k * s) :
    ((List.range k).map fun i => (l.drop (i * s)).take s).flatten = l := by
  induction k generalizing l with
  | zero =>
    have : l = [] := List.eq_nil_of_length_eq_zero (by omega)
    simp [this]
  | succ k ih =>
    rw [List.range_succ_eq_map]
    simp only [List.map_cons, List.map_map, List.flatten_cons, Nat.zero_mul, List.drop_zero]
    have hrest : ((List.range k).map ((fun i => (l.drop (i * s)).take s) ∘ Nat.succ))
        = (List.range k).map fun i => ((l.drop s).drop (i * s)).take s := by
      apply List.map_congr_left
      intro i _
      simp only [Function.comp, List.drop_drop]
      congr 2
      rw [Nat.succ_mul]
      omega
    rw [hrest, ih (l.drop s) (by rw [List.length_drop, Nat.succ_mul] at *; omega)]
    exact List.take_append_drop s l

/-- C29, as stated, fails when the offset overflows: for the cohort `[5, 6, 7]` and
`pageSize = 2^63 - 1` there is one page, and page 3, beyond it, is not empty: the offset
wraps to `-2` and the slice expression panics. -/
theorem GetFriendRanking_page_beyond_panics :
    (([5, 6, 7] : List Nat).length + 9223372036854775807 - 1) / 9223372036854775807 = 1 ∧
      GetFriendRanking goSortSlice (Except.ok []) [5, 6, 7] 3 9223372036854775807
        = Except.error GoPanic.sliceBoundsOutOfRange := by
  refine ⟨by decide, by rfl⟩

/-- C29, amended: for a cohort of `n = len L` ids (a slice: `n < 2^62`), a page size `s ≥ 1`
(an `int`) and `k = ceil(n / s)`: page `i + 1` for `i < k` is returned with total `n` and is
the `s` entries of the full ranked list from `i * s` on; these `k` pages joined are the full
ranked list, which has `n` entries with ranks `1..n` in order; each page before the last has
`s` entries; and each page `i + 1` with `i ≥ k` whose offset `i * s` fits the `int` is
returned empty with total `n`. -/
theorem GetFriendRanking_pages_partition (sortSlice : (RankingItem → RankingItem → Bool) →
    List RankingItem → List RankingItem) (hsort : SortSliceRearranges sortSlice)
    (stats : List RecordStat) (L : List Nat) (s : Nat) (hs : 1 ≤ s) (hsint : s < 2 ^ 63)
    (hL : L.length < 2 ^ 62) :
    (∀ i, i < (L.length + s - 1) / s →
        GetFriendRanking sortSlice (Except.ok stats) L ((i + 1 : Nat) : Int) (s : Int)
          = Except.ok (((rankedItems sortSlice stats L).drop (i * s)).take s,
              (L.length : Int), none)) ∧
      ((List.range ((L.length + s - 1) / s)).map fun i =>
          ((rankedItems sortSlice stats L).drop (i * s)).take s).flatten
        = rankedItems sortSlice stats L ∧
      (rankedItems sortSlice stats L).length = L.length ∧
      (∀ (i : Nat) (e : RankingItem), (rankedItems sortSlice stats L)[i]? = some e →
        e.Rank = i + 1) ∧
      (∀ i, i + 1 < (L.length + s - 1) / s →
        (((rankedItems sortSlice stats L).drop (i * s)).take s).length = s) ∧
      (∀ i, (L.length + s - 1) / s ≤ i → i * s < 2 ^ 63 →
        GetFriendRanking sortSlice (Except.ok stats) L ((i + 1 : Nat) : Int) (s : Int)
          = Except.ok ([], (L.length : Int), none)) := by
  have hlen := length_rankedItems hsort stats L
  have hlen62 : (rankedItems sortSlice stats L).length < 2 ^ 62 := by rw [hlen]; exact hL
  have hdm := Nat.div_add_mod (L.length + s - 1) s
  have hmod := Nat.mod_lt (L.length + s - 1) (show s > 0 by omega)
  generalize hk : (L.length + s - 1) / s = k at hdm ⊢
  have hks : s * k = k * s := Nat.mul_comm s k
  refine ⟨?_, ?_, hlen, fun i e h => rankedItems_rank h, ?_, ?_⟩
  · intro i hi
    have hmul : (i + 1) * s ≤ k * s := Nat.mul_le_mul_right s hi
    have hsucc : (i + 1) * s = i * s + s := Nat.succ_mul i s
    have hoff : (i + 1 - 1) * s < 2 ^ 63 := by
      simp only [Nat.add_sub_cancel]
      omega
    have := GetFriendRanking_eq_drop_take sortSlice stats L (i + 1) s (by omega) hs hoff hsint
      hlen62
    simp only [Nat.add_sub_cancel] at this
    rw [this, hlen]
  · exact join_chunks s k _ (by rw [hlen]; omega)
  · intro i hi
    have hmul : (i + 1 + 1) * s ≤ k * s := Nat.mul_le_mul_right s (by omega)
    have hsucc : (i + 1 + 1) * s = (i + 1) * s + s := Nat.succ_mul (i + 1) s
    have hsucc1 : (i + 1) * s = i * s + s := Nat.succ_mul i s
    rw [List.length_take, List.length_drop, hlen]
    omega
  · intro i hi hoff
    have hmul : k * s ≤ i * s := Nat.mul_le_mul_right s hi
    have := GetFriendRanking_eq_drop_take sortSlice stats L (i + 1) s (by omega) hs
      (by simpa using hoff) hsint hlen62
    simp only [Nat.add_sub_cancel] at this
    rw [this, hlen, List.drop_eq_nil_of_le (by rw [hlen]; omega), List.take_nil]

theorem GetFriendRanking_pages_partition_witness :
    GetFriendRanking goSortSlice (Except.ok [⟨20, 5, 100⟩, ⟨30, 2, 40⟩]) [10, 20, 30, 40, 50]
          ((2 + 1 : Nat) : Int) ((2 : Nat) : Int)
        = Except.ok (((rankedItems goSortSlice [⟨20, 5, 100⟩, ⟨30, 2, 40⟩]
            [10, 20, 30, 40, 50]).drop (2 * 2)).take 2,
            ((([10, 20, 30, 40, 50] : List Nat).length : Nat) : Int), none) ∧
      GetFriendRanking goSortSlice (Except.ok []) [5, 6, 7]
          ((1 + 1 : Nat) : Int) ((9223372036854775807 : Nat) : Int)
        = Except.ok ([], ((([5, 6, 7] : List Nat).length : Nat) : Int), none) :=
  ⟨(GetFriendRanking_pages_partition goSortSlice goSortSlice_rearranges
      [⟨20, 5, 100⟩, ⟨30, 2, 40⟩] [10, 20, 30, 40, 50] 2 (by decide) (by decide)
      (by decide)).1 2 (by decide),
    (GetFriendRanking_pages_partition goSortSlice goSortSlice_rearranges
      [] [5, 6, 7] 9223372036854775807 (by decide) (by decide)
      (by decide)).2.2.2.2.2 1 (by decide) (by decide)⟩

/-! ## Daily statistics -/

theorem wrapInt_wrapInt_add (a b : Int) : wrapInt (wrapInt a + b) = wrapInt (a + b) := by
  unfold wrapInt
  omega

theorem wrapInt_idem (a : Int) : wrapInt (wrapInt a) = wrapInt a := by
  unfold wrapInt
  omega

theorem initDailyStats_append_singleton (startDate : Nat) (ids : List Nat) (u k : Nat) :
    initDailyStats startDate (ids ++ [u]) k
      = if k = u then some ⟨u, startDate, 0, 0, []⟩ else initDailyStats startDate ids k := by
  simp [initDailyStats, List.foldl_append]

theorem initDailyStats_eq (startDate : Nat) (ids : List Nat) (k : Nat) :
    initDailyStats startDate ids k
      = if k ∈ ids then some ⟨k, startDate, 0, 0, []⟩ else none := by
  induction ids using List.reverseRecOn with
  | nil => simp [initDailyStats]
  | append_singleton l u ih =>
    rw [initDailyStats_append_singleton, ih]
    by_cases hku : k = u
    · subst hku
      simp
    · by_cases hkl : k ∈ l <;> simp [hku, hkl]

/-- The second loop of `GetUsersDailyRecordStats`, at one key: an absent entry stays absent
and a present one is advanced by the records of its user, in order. -/
theorem foldl_addDailyRecord (records : List Record) (m : Nat → Option DailyRecordStats)
    (k : Nat) :
    (records.foldl addDailyRecord m) k
      = (m k).map fun st =>
          { st with
            Count := (records.filter fun r => r.UserID == k).foldl
              (fun c _ => wrapInt (c + 1)) st.Count
            TotalTime := (records.filter fun r => r.UserID == k).foldl
              (fun t r => wrapInt (t + r.Duration)) st.TotalTime
            RecordTimes := st.RecordTimes ++
              (records.filter fun r => r.UserID == k).map fun r => r.RecordTime } := by
  induction records generalizing m with
  | nil =>
    cases hm : m k <;> simp [hm]
  | cons r rs ih =>
    rw [List.foldl_cons, ih]
    by_cases hrk : r.UserID = k
    · subst hrk
      cases hm : m r.UserID with
      | none => simp [addDailyRecord, hm]
      | some st => simp [addDailyRecord, hm, List.filter_cons]
    · have hkr : ¬ k = r.UserID := fun h => hrk h.symm
      have hsame : addDailyRecord m r k = m k := by
        unfold addDailyRecord
        cases m r.UserID with
        | none => rfl
        | some st => simp [hkr]
      simp [hsame, List.filter_cons, hrk]

theorem foldl_count_eq (l : List Record) (c : Int) :
    l.foldl (fun c _ => wrapInt (c + 1)) (wrapInt c) = wrapInt (c + (l.length : Int)) := by
  induction l generalizing c with
  | nil => simp
  | cons r rs ih =>
    rw [List.foldl_cons, wrapInt_wrapInt_add, ih]
    congr 1
    simp only [List.length_cons]
    push_cast
    omega

theorem foldl_totalTime_eq (l : List Record) (t : Int) :
    l.foldl (fun t r => wrapInt (t + r.Duration)) (wrapInt t)
      = wrapInt (t + (l.map fun r => r.Duration).sum) := by
  induction l generalizing t with
  | nil => simp
  | cons r rs ih =>
    rw [List.foldl_cons, wrapInt_wrapInt_add, ih]
    congr 1
    simp only [List.map_cons, List.sum_cons]
    omega

/-- C30, as stated, fails when the sum overflows: two records of user 1 with durations
`2^62` give `Count = 2` and the times in order, but `TotalTime = -2^63`, not their sum
`2^63`. -/
theorem GetUsersDailyRecordStats_total_overflow :
    ∃ result, GetUsersDailyRecordStats
        (Except.ok [⟨1, 10, 4611686018427387904⟩, ⟨1, 12, 4611686018427387904⟩]) [1] 0
        = Except.ok result ∧
      result 1 = some ⟨1, 0, 2, -9223372036854775808, [10, 12]⟩ ∧
      (4611686018427387904 : Int) + 4611686018427387904 ≠ -9223372036854775808 :=
  ⟨_, rfl, by decide, by decide⟩

/-- C30, amended: with the day query returning `records` (a slice: fewer than `2^63`), the
call returns a map whose keys are exactly the requested ids; for a requested id, `Count` is
the number of returned records of that id, `RecordTimes` their record times in the order of
the query, and `TotalTime` the sum of their durations reduced to the 64 bits of an `int`,
which is the sum itself when the sum is within the `int` range; an id without records has
`Count` 0, `TotalTime` 0 and no `RecordTimes`; records of other users change nothing. -/
theorem GetUsersDailyRecordStats_per_user (records : List Record) (userIDs : List Nat)
    (startDate : Nat) (hlen : (records.length : Int) < 2 ^ 63) :
    ∃ result, GetUsersDailyRecordStats (Except.ok records) userIDs startDate
        = Except.ok result ∧
      (∀ k, result k ≠ none ↔ k ∈ userIDs) ∧
      (∀ k ∈ userIDs, result k = some
        ⟨k, startDate, ((records.filter fun r => r.UserID == k).length : Int),
          wrapInt ((records.filter fun r => r.UserID == k).map fun r => r.Duration).sum,
          (records.filter fun r => r.UserID == k).map fun r => r.RecordTime⟩) ∧
      (∀ k, -2 ^ 63 ≤ ((records.filter fun r => r.UserID == k).map fun r => r.Duration).sum →
        ((records.filter fun r => r.UserID == k).map fun r => r.Duration).sum < 2 ^ 63 →
        wrapInt ((records.filter fun r => r.UserID == k).map fun r => r.Duration).sum
          = ((records.filter fun r => r.UserID == k).map fun r => r.Duration).sum) ∧
      (∀ k ∈ userIDs, (∀ r ∈ records, r.UserID ≠ k) →
        result k = some ⟨k, startDate, 0, 0, []⟩) := by
  have hres : ∀ k, (records.foldl addDailyRecord (initDailyStats startDate userIDs)) k
      = if k ∈ userIDs then some
          ⟨k, startDate, ((records.filter fun r => r.UserID == k).length : Int),
            wrapInt ((records.filter fun r => r.UserID == k).map fun r => r.Duration).sum,
            (records.filter fun r => r.UserID == k).map fun r => r.RecordTime⟩
        else none := by
    intro k
    rw [foldl_addDailyRecord, initDailyStats_eq]
    by_cases hk : k ∈ userIDs
    · have h0 : (0 : Int) = wrapInt 0 := by decide
      have hc := foldl_count_eq (records.filter fun r => r.UserID == k) 0
      have ht := foldl_totalTime_eq (records.filter fun r => r.UserID == k) 0
      rw [← h0] at hc ht
      have hfl : ((records.filter fun r => r.UserID == k).length : Int) ≤ records.length := by
        exact_mod_cast List.length_filter_le _ _
      have hcw : wrapInt (0 + ((records.filter fun r => r.UserID == k).length : Int))
          = ((records.filter fun r => r.UserID == k).length : Int) := by
        rw [Int.zero_add]
        exact wrapInt_eq_self (by omega) (by omega)
      rw [Int.zero_add] at hc ht hcw
      simp only [hk, if_true, Option.map_some', hc, ht, hcw, List.nil_append]
    · simp [hk]
  refine ⟨_, rfl, ?_, ?_, ?_, ?_⟩
  · intro k
    rw [hres k]
    by_cases hk : k ∈ userIDs <;> simp [hk]
  · intro k hk
    rw [hres k]
    simp [hk]
  · intro k h1 h2
    exact wrapInt_eq_self h1 h2
  · intro k hk hnone
    rw [hres k]
    have hnil : (records.filter fun r => r.UserID == k) = [] := by
      rw [List.filter_eq_nil_iff]
      intro r hr
      simpa using hnone r hr
    have h0 : wrapInt 0 = 0 := by decide
    simp [hk, hnil, h0]

theorem GetUsersDailyRecordStats_per_user_witness :
    ∃ result, GetUsersDailyRecordStats
        (Except.ok [⟨1, 10, 60⟩, ⟨2, 11, 5⟩, ⟨1, 12, 30⟩]) [1, 3] 0 = Except.ok result ∧
      (∀ k, result k ≠ none ↔ k ∈ ([1, 3] : List Nat)) ∧
      (∀ k ∈ ([1, 3] : List Nat), result k = some
        ⟨k, 0, ((([⟨1, 10, 60⟩, ⟨2, 11, 5⟩, ⟨1, 12, 30⟩] : List Record).filter
            fun r => r.UserID == k).length : Int),
          wrapInt ((([⟨1, 10, 60⟩, ⟨2, 11, 5⟩, ⟨1, 12, 30⟩] : List Record).filter
            fun r => r.UserID == k).map fun r => r.Duration).sum,
          (([⟨1, 10, 60⟩, ⟨2, 11, 5⟩, ⟨1, 12, 30⟩] : List Record).filter
            fun r => r.UserID == k).map fun r => r.RecordTime⟩) ∧
      (∀ k, -2 ^ 63 ≤ ((([⟨1, 10, 60⟩, ⟨2, 11, 5⟩, ⟨1, 12, 30⟩] : List Record).filter
            fun r => r.UserID == k).map fun r => r.Duration).sum →
        ((([⟨1, 10, 60⟩, ⟨2, 11, 5⟩, ⟨1, 12, 30⟩] : List Record).filter
            fun r => r.UserID == k).map fun r => r.Duration).sum < 2 ^ 63 →
        wrapInt ((([⟨1, 10, 60⟩, ⟨2, 11, 5⟩, ⟨1, 12, 30⟩] : List Record).filter
            fun r => r.UserID == k).map fun r => r.Duration).sum
          = ((([⟨1, 10, 60⟩, ⟨2, 11, 5⟩, ⟨1, 12, 30⟩] : List Record).filter
            fun r => r.UserID == k).map fun r => r.Duration).sum) ∧
      (∀ k ∈ ([1, 3] : List Nat),
        (∀ r ∈ ([⟨1, 10, 60⟩, ⟨2, 11, 5⟩, ⟨1, 12, 30⟩] : List Record), r.UserID ≠ k) →
        result k = some ⟨k, 0, 0, 0, []⟩) :=
  GetUsersDailyRecordStats_per_user [⟨1, 10, 60⟩, ⟨2, 11, 5⟩, ⟨1, 12, 30⟩] [1, 3] 0
    (by decide)

end FriendGraph
